import Mathlib

/-!
# MazeRunner game server: a verification development

Shallow embedding of `src/server/GameServer.cpp` / `GameServer.h`.

Modelling conventions
* C++ `int` values are unbounded `Int`: grid coordinates, scores and counters stay far from
  the 32-bit range; the conversion `(int)x` is modelled for every float, where the source is
  undefined for a float outside the `int` range.
* C++ `float` values are exact rationals (`ℚ`): rounding of binary floating point is not
  modelled, so every statement about positions is a statement in exact arithmetic.
* `std::vector<std::vector<int>> maze` is a `List (List Int)` indexed `maze[y][x]`.
* `std::deque<DelayedMessage>` is a `List DelayedMessage`, front of the deque = head of the list.
* `std::mt19937 rng` is an oracle `rng : Nat → Nat` read at a cursor position; one draw is
  consumed per iteration of the carving loop and two per item-sampling attempt.
* `std::chrono::steady_clock::time_point` is an `Int` count of nanoseconds.
* Sockets are replaced by a log `sent` of the `(clientId, message)` pairs handed to `send`.
-/

namespace MazeRunner

/-! ## Data structures (GameServer.h) -/

/-- Mirrors `struct Player`. -/
structure Player where
  id : Int
  x : ℚ
  y : ℚ
  vx : ℚ
  vy : ℚ
  score : Int
  inputX : ℚ
  inputY : ℚ
deriving DecidableEq

/-- Mirrors `struct Diamond`. -/
structure Diamond where
  id : Int
  x : ℚ
  y : ℚ
  active : Bool
deriving DecidableEq

/-- Mirrors `struct DelayedMessage`; `deliveryTime` in nanoseconds of the steady clock. -/
structure DelayedMessage where
  deliveryTime : Int
  data : String
  playerId : Int
deriving DecidableEq

/-- The grid type of `maze`: rows of cells, `1` = wall, `0` = path. -/
abbrev Grid := List (List Int)

/-! ## Constants (GameServer.cpp, GameServer.h) -/

def PLAYER_SPEED : ℚ := 5

def PLAYER_SIZE : ℚ := 6 / 10

def DIAMOND_SIZE : ℚ := 5 / 10

def LATENCY_MS : Int := 200

/-- Duration `std::chrono::milliseconds(LATENCY_MS)` in clock units (nanoseconds). -/
def latency : Int := LATENCY_MS * 1000000

/-! ## Maze grid access -/

/-- Read of `maze[y][x]`.  Every read in the source is guarded by a bounds test; outside the
grid the model answers `1`. -/
def cellAt (m : Grid) (x y : Int) : Int :=
  if 0 ≤ x ∧ 0 ≤ y then (m.getD y.toNat []).getD x.toNat 1 else 1

/-- Write `maze[y][x] = v`. -/
def setCell (m : Grid) (x y : Int) (v : Int) : Grid :=
  m.set y.toNat ((m.getD y.toNat []).set x.toNat v)

/-- Effect of `maze.assign(mazeHeight, std::vector<int>(mazeWidth, 1))`. -/
def wallGrid (w h : Int) : Grid :=
  List.replicate h.toNat (List.replicate w.toNat 1)

/-! ## Maze generation: the carving loop of `GameServer::GenerateMaze` -/

/-- The table `int dirs[4][2]`. -/
def dirs : List (Int × Int) := [(0, -2), (0, 2), (-2, 0), (2, 0)]

/-- Entry `dirs[i]`. -/
def dirAt (i : Nat) : Int × Int := dirs.getD i (0, 0)

/-- The test of the `for (int i = 0; i < 4; i++)` loop for one direction index. -/
def isCandidate (w h : Int) (m : Grid) (cx cy : Int) (i : Nat) : Bool :=
  let nx := cx + (dirAt i).1
  let ny := cy + (dirAt i).2
  decide (nx > 0 ∧ nx < w - 1 ∧ ny > 0 ∧ ny < h - 1 ∧ cellAt m nx ny = 1)

/-- The vector `neighbors` after the direction loop. -/
def neighborsOf (w h : Int) (m : Grid) (cx cy : Int) : List Nat :=
  (List.range 4).filter (isCandidate w h m cx cy)

/-- One iteration of `while (!stack.empty())`.  `r` is the random draw of this iteration:
`std::shuffle` followed by `neighbors[0]` selects an arbitrary element of `neighbors`,
modelled as the element at index `r % neighbors.size()`. -/
def carveStep (w h : Int) (r : Nat) (m : Grid) (stack : List (Int × Int)) :
    Grid × List (Int × Int) :=
  match stack with
  | [] => (m, [])
  | (cx, cy) :: rest =>
    let nb := neighborsOf w h m cx cy
    if nb ≠ [] then
      let dir := nb.getD (r % nb.length) 0
      let nx := cx + (dirAt dir).1
      let ny := cy + (dirAt dir).2
      let m1 := setCell m (cx + Int.tdiv (dirAt dir).1 2) (cy + Int.tdiv (dirAt dir).2 2) 0
      let m2 := setCell m1 nx ny 0
      (m2, (nx, ny) :: (cx, cy) :: rest)
    else
      (m, rest)

/-- The loop `while (!stack.empty())`, run for at most `fuel` iterations; `k` is the rng
cursor.  Returns the grid and the cursor once the stack is empty, `none` when the fuel runs
out first. -/
def carveLoop (w h : Int) (rng : Nat → Nat) :
    Nat → Nat → Grid → List (Int × Int) → Option (Grid × Nat)
  | _, k, m, [] => some (m, k)
  | 0, _, _, _ :: _ => none
  | fuel + 1, k, m, c :: rest =>
    let st := carveStep w h (rng k) m (c :: rest)
    carveLoop w h rng fuel (k + 1) st.1 st.2

/-- Lines 59-101 of `GenerateMaze`: fill with walls, open the start cell `(1,1)`, carve. -/
def carveMaze (w h : Int) (rng : Nat → Nat) (fuel : Nat) : Option (Grid × Nat) :=
  carveLoop w h rng fuel 0 (setCell (wallGrid w h) 1 1 0) [(1, 1)]

/-! ## Server state (class `GameServer`) -/

/-- The mutable members of `class GameServer`, with the socket layer replaced by the log
`sent` of `(clientId, message)` pairs passed to `send`. -/
structure GameServer where
  clientConnected0 : Bool
  clientConnected1 : Bool
  player0 : Player
  player1 : Player
  diamonds : List Diamond
  mazeWidth : Int
  mazeHeight : Int
  maze : Grid
  inboundQueue : List DelayedMessage
  outboundQueue : List DelayedMessage
  gameTimer : ℚ
  gameRunning : Bool
  sent : List (Int × String)
deriving DecidableEq

/-- Read of `players[i]` for `i` in `{0, 1}`. -/
def GameServer.getPlayer (s : GameServer) (i : Int) : Player :=
  if i = 0 then s.player0 else s.player1

/-- Write of `players[i]` for `i` in `{0, 1}`. -/
def GameServer.setPlayer (s : GameServer) (i : Int) (p : Player) : GameServer :=
  if i = 0 then { s with player0 := p } else { s with player1 := p }

/-- Read of `clientConnected[i]`. -/
def GameServer.isConnected (s : GameServer) (i : Int) : Bool :=
  if i = 0 then s.clientConnected0 else s.clientConnected1

/-- A default-initialised `Player` (the array `players` before `GenerateMaze` assigns it). -/
def blankPlayer : Player :=
  { id := 0, x := 0, y := 0, vx := 0, vy := 0, score := 0, inputX := 0, inputY := 0 }

/-- Members as the constructor leaves them just before its call of `GenerateMaze`, for a
maze of `w` by `h` cells (`GameServer.h` fixes both to 21). -/
def GameServer.blank (w h : Int) : GameServer :=
  { clientConnected0 := false, clientConnected1 := false,
    player0 := blankPlayer, player1 := blankPlayer, diamonds := [],
    mazeWidth := w, mazeHeight := h, maze := [],
    inboundQueue := [], outboundQueue := [],
    gameTimer := 60, gameRunning := true, sent := [] }

/-! ## Item placement and spawn points (second half of `GenerateMaze`) -/

/-- The `do { rX = distX(rng); rY = distY(rng); } while (maze[rY][rX] == 1)` loop, for at
most `fuel` attempts.  `distX` is uniform on `[1, w-2]`, `distY` on `[1, h-2]`. -/
def sampleOpenCell (w h : Int) (m : Grid) (rng : Nat → Nat) :
    Nat → Nat → Option ((Int × Int) × Nat)
  | 0, _ => none
  | fuel + 1, k =>
    let rX := 1 + (rng k : Int) % (w - 2)
    let rY := 1 + (rng (k + 1) : Int) % (h - 2)
    if cellAt m rX rY = 1 then sampleOpenCell w h m rng fuel (k + 2)
    else some ((rX, rY), k + 2)

/-- The loop `for (int i = 0; i < 15; i++)` from index `i`, with `n` items still to place;
every new diamond is appended to `acc` (`diamonds.push_back`). -/
def spawnDiamonds (w h : Int) (m : Grid) (rng : Nat → Nat) (fuel : Nat) :
    Nat → Int → Nat → List Diamond → Option (List Diamond × Nat)
  | 0, _, k, acc => some (acc, k)
  | n + 1, i, k, acc =>
    match sampleOpenCell w h m rng fuel k with
    | none => none
    | some (c, k1) =>
      spawnDiamonds w h m rng fuel n (i + 1) k1
        (acc ++ [{ id := i, x := (c.1 : ℚ) + 1 / 2, y := (c.2 : ℚ) + 1 / 2, active := true }])

/-- The member function `GameServer::GenerateMaze`.  `none` when a loop exhausts `fuel`
(the carving loop never does for large `fuel`; an item-sampling loop can). -/
def GenerateMaze (rng : Nat → Nat) (fuel : Nat) (s : GameServer) : Option GameServer :=
  match carveMaze s.mazeWidth s.mazeHeight rng fuel with
  | none => none
  | some (m, k) =>
    match spawnDiamonds s.mazeWidth s.mazeHeight m rng fuel 15 0 k s.diamonds with
    | none => none
    | some (ds, _) =>
      some { s with
        maze := m
        diamonds := ds
        player0 := { id := 0, x := 3 / 2, y := 3 / 2, vx := 0, vy := 0, score := 0,
                     inputX := 0, inputY := 0 }
        player1 := { id := 1, x := (s.mazeWidth : ℚ) - 3 / 2, y := (s.mazeHeight : ℚ) - 3 / 2,
                     vx := 0, vy := 0, score := 0, inputX := 0, inputY := 0 } }

/-- The server as the constructor leaves it: default members, then `GenerateMaze`. -/
def newServer (w h : Int) (rng : Nat → Nat) (fuel : Nat) : Option GameServer :=
  GenerateMaze rng fuel (GameServer.blank w h)

/-! ## Sending -/

/-- The member function `GameServer::SendRawToClient`. -/
def SendRawToClient (clientId : Int) (message : String) (s : GameServer) : GameServer :=
  if s.isConnected clientId then { s with sent := s.sent ++ [(clientId, message)] } else s

/-! ## Physics -/

/-- The conversion `(int)x` of a float: truncation toward zero. -/
def truncToInt (x : ℚ) : Int := if 0 ≤ x then ⌊x⌋ else -⌊-x⌋

/-- The member function `GameServer::IsWall`. -/
def IsWall (s : GameServer) (x y : ℚ) : Bool :=
  let gx := truncToInt x
  let gy := truncToInt y
  if gx < 0 ∨ gx ≥ s.mazeWidth ∨ gy < 0 ∨ gy ≥ s.mazeHeight then true
  else decide (cellAt s.maze gx gy = 1)

/-- The local `safeDist` of `CheckPlayerCollision`. -/
def safeDist : ℚ := 8 / 10

/-- The loop body of `CheckPlayerCollision` for the other player `o`:
`sqrt(dx*dx + dy*dy) < safeDist`, compared on squares (both sides are non-negative). -/
def tooClose (x y : ℚ) (o : Player) : Bool :=
  decide ((x - o.x) * (x - o.x) + (y - o.y) * (y - o.y) < safeDist * safeDist)

/-- The free function `CheckPlayerCollision(x, y, myId, allPlayers)`: the loop over the
two slots skips `myId` and tests the remaining slot. -/
def CheckPlayerCollision (x y : ℚ) (myId : Int) (s : GameServer) : Bool :=
  (if (0 : Int) = myId then false else tooClose x y s.player0) ||
  (if (1 : Int) = myId then false else tooClose x y s.player1)

/-- The body of the `for` loop of `UpdatePhysics` for player `i`. -/
def movePlayer (dt : ℚ) (i : Int) (s : GameServer) : GameServer :=
  let halfSize := PLAYER_SIZE / 2
  let p := s.getPlayer i
  let dx := p.inputX * PLAYER_SPEED * dt
  let dy := p.inputY * PLAYER_SPEED * dt
  let nextX := p.x + dx
  let wallHitX := IsWall s (nextX - halfSize) p.y || IsWall s (nextX + halfSize) p.y
  let playerHitX := CheckPlayerCollision nextX p.y i s
  let p1 := if !wallHitX && !playerHitX then { p with x := p.x + dx } else p
  let s1 := s.setPlayer i p1
  let nextY := p1.y + dy
  let wallHitY := IsWall s1 p1.x (nextY - halfSize) || IsWall s1 p1.x (nextY + halfSize)
  let playerHitY := CheckPlayerCollision p1.x nextY i s1
  let p2 := if !wallHitY && !playerHitY then { p1 with y := p1.y + dy } else p1
  s1.setPlayer i p2

/-- The member function `GameServer::UpdatePhysics`. -/
def UpdatePhysics (dt : ℚ) (s : GameServer) : GameServer :=
  movePlayer dt 1 (movePlayer dt 0 s)

/-! ## Item collision and end of match -/

/-- The pickup radius `PLAYER_SIZE/2 + DIAMOND_SIZE/2`. -/
def pickupDist : ℚ := PLAYER_SIZE / 2 + DIAMOND_SIZE / 2

/-- The test `dist < (PLAYER_SIZE/2 + DIAMOND_SIZE/2)` of `CheckCollisions`, on squares. -/
def inPickupRange (p : Player) (d : Diamond) : Bool :=
  decide ((p.x - d.x) * (p.x - d.x) + (p.y - d.y) * (p.y - d.y) < pickupDist * pickupDist)

/-- The inner loop `for (auto& d : diamonds)` of `CheckCollisions` for one player `p`,
threading the counter `activeDiamonds`; returns the diamonds, the player and the counter. -/
def pickupPass : List Diamond → Player → Int → List Diamond × Player × Int
  | [], p, act => ([], p, act)
  | d :: ds, p, act =>
    if !d.active then
      let r := pickupPass ds p act
      (d :: r.1, r.2.1, r.2.2)
    else if inPickupRange p d then
      let r := pickupPass ds { p with score := p.score + 1 } (act + 1 - 1)
      ({ d with active := false } :: r.1, r.2.1, r.2.2)
    else
      let r := pickupPass ds p (act + 1)
      (d :: r.1, r.2.1, r.2.2)

/-- The value of `winner` computed in the game-over branch. -/
def winnerOf (score0 score1 : Int) : Int :=
  let winner : Int := if score0 > score1 then 0 else 1
  if score0 = score1 then -1 else winner

/-- The text built by `ss << "GAMEOVER " << winner << " " << score0 << " " << score1`. -/
def gameOverLine (winner score0 score1 : Int) : String :=
  "GAMEOVER " ++ toString winner ++ " " ++ toString score0 ++ " " ++ toString score1 ++ "\n"

/-- The two nested loops of `CheckCollisions`: player 0's pass, then player 1's pass over
the diamonds player 0 left.  Returns the state and the final value of `activeDiamonds`. -/
def collisionPasses (s : GameServer) : GameServer × Int :=
  let r0 := pickupPass s.diamonds s.player0 0
  let r1 := pickupPass r0.1 s.player1 r0.2.2
  ({ s with diamonds := r1.1, player0 := r0.2.1, player1 := r1.2.1 }, r1.2.2)

/-- The member function `GameServer::CheckCollisions`. -/
def CheckCollisions (s : GameServer) : GameServer :=
  let r := collisionPasses s
  let s1 := r.1
  if r.2 ≤ 0 then
    let line := gameOverLine (winnerOf s1.player0.score s1.player1.score)
      s1.player0.score s1.player1.score
    let s2 := SendRawToClient 1 line (SendRawToClient 0 line s1)
    { s2 with gameRunning := false }
  else s1

/-! ## Text runtime

The source formats and parses floats through `std::stringstream`.  What the C++ runtime does
there is not part of the source text; it is a parameter of the model. -/

/-- Runtime behaviour the source relies on. -/
structure Runtime where
  /-- Text produced by `ss << f` for a float `f`. -/
  showFloat : ℚ → String
  /-- Result of `ss >> f` on the remaining characters: the value and the rest of the text, or
  `none` when the extraction fails. -/
  readFloat : List Char → Option (ℚ × List Char)
  /-- Content of the uninitialised local `float inX`. -/
  garbageX : ℚ
  /-- Content of the uninitialised local `float inY`. -/
  garbageY : ℚ

/-- The whitespace test used by `operator>>` when it skips blanks and ends a word. -/
def isSpaceChar (c : Char) : Bool :=
  c = ' ' || c = '\t' || c = '\n' || c = '\r' || c = Char.ofNat 11 || c = Char.ofNat 12

/-- The extraction `ss >> cmd` of a word: skip leading whitespace, take the characters up to
the next whitespace.  Returns the word and the unread rest. -/
def readWord (cs : List Char) : String × List Char :=
  let body := cs.dropWhile isSpaceChar
  (String.mk (body.takeWhile (fun c => !isSpaceChar c)), body.dropWhile (fun c => !isSpaceChar c))

/-- What a failed extraction `ss >> f` leaves in `f` (C++11 rules): when nothing but
whitespace is left the stream fails before any conversion and `f` keeps its old content
`old`; otherwise the conversion of the field fails and `0` is stored.  (After a failure the
stream is in the fail state and every later extraction leaves its target untouched.) -/
def afterFailedRead (cs : List Char) (old : ℚ) : ℚ :=
  if (cs.dropWhile isSpaceChar).isEmpty then old else 0

/-- The extraction `ss >> inX >> inY` into the uninitialised locals `inX` and `inY`. -/
def readTwoFloats (rt : Runtime) (cs : List Char) : ℚ × ℚ :=
  match rt.readFloat cs with
  | none => (afterFailedRead cs rt.garbageX, rt.garbageY)
  | some (inX, rest) =>
    match rt.readFloat rest with
    | none => (inX, afterFailedRead rest rt.garbageY)
    | some (inY, _) => (inX, inY)

/-! ## Networking and lag simulation -/

/-- Outcome of the two `recv` calls and the clock readings of one loop iteration. -/
structure TickInput where
  /-- Seconds since the previous iteration (`diff.count()`). -/
  dt : ℚ
  /-- Text received from client 0 (`none`: `recv` returned no bytes). -/
  recv0 : Option String
  /-- Text received from client 1. -/
  recv1 : Option String
  /-- Steady-clock reading when client 0's message is queued. -/
  tRecv0 : Int
  /-- Steady-clock reading when client 1's message is queued. -/
  tRecv1 : Int
  /-- Steady-clock reading at the start of `ProcessDelayedInputs`. -/
  tProcess : Int
  /-- Steady-clock reading when `BroadcastState` queues the state line. -/
  tEnqueue : Int
  /-- Steady-clock reading before `BroadcastState` drains the outbound queue. -/
  tDrain : Int

/-- The three statements that fill a `DelayedMessage` and `push_back` it on a queue, as in
`ReadNetworkInput` and `BroadcastState`: `deliveryTime = now + milliseconds(LATENCY_MS)`. -/
def pushDelayed (q : List DelayedMessage) (data : String) (playerId : Int) (now : Int) :
    List DelayedMessage :=
  q ++ [{ data := data, playerId := playerId, deliveryTime := now + latency }]

/-- The dequeue loop shared by `ProcessDelayedInputs` and `BroadcastState`:
`while (!q.empty()) { if (now >= q.front().deliveryTime) { deliver; q.pop_front(); } else break; }`.
`deliver` is what the loop does with a message that has arrived; the result is the queue that
is left and the state after the deliveries. -/
def drainLoop {σ : Type} (deliver : DelayedMessage → σ → σ) (now : Int) :
    List DelayedMessage → σ → List DelayedMessage × σ
  | [], s => ([], s)
  | msg :: rest, s =>
    if now ≥ msg.deliveryTime then drainLoop deliver now rest (deliver msg s)
    else (msg :: rest, s)

/-- The body of the `for` loop of `ReadNetworkInput` for client `i`. -/
def readClient (i : Int) (received : Option String) (now : Int) (s : GameServer) :
    GameServer :=
  if !s.isConnected i then s
  else match received with
    | none => s
    | some buffer => { s with inboundQueue := pushDelayed s.inboundQueue buffer i now }

/-- The member function `GameServer::ReadNetworkInput`. -/
def ReadNetworkInput (inp : TickInput) (s : GameServer) : GameServer :=
  readClient 1 inp.recv1 inp.tRecv1 (readClient 0 inp.recv0 inp.tRecv0 s)

/-- The branch taken for a message that has "arrived" in `ProcessDelayedInputs`. -/
def applyMessage (rt : Runtime) (msg : DelayedMessage) (s : GameServer) : GameServer :=
  let w := readWord msg.data.toList
  if w.1 = "INPUT" then
    let v := readTwoFloats rt w.2
    let p := s.getPlayer msg.playerId
    s.setPlayer msg.playerId { p with inputX := v.1, inputY := v.2 }
  else if w.1 = "EXIT" then
    let s2 := SendRawToClient 1 "SHUTDOWN\n" (SendRawToClient 0 "SHUTDOWN\n" s)
    { s2 with gameRunning := false }
  else s

/-- The member function `GameServer::ProcessDelayedInputs`; `now` is its clock reading. -/
def ProcessDelayedInputs (rt : Runtime) (now : Int) (s : GameServer) : GameServer :=
  let r := drainLoop (applyMessage rt) now s.inboundQueue s
  { r.2 with inboundQueue := r.1 }

/-- The text of one player inside the `STATE` line. -/
def playerText (rt : Runtime) (p : Player) : String :=
  rt.showFloat p.x ++ " " ++ rt.showFloat p.y ++ " " ++ toString p.score ++ " "

/-- The text `ss.str()` built at the start of `BroadcastState`. -/
def stateLine (rt : Runtime) (s : GameServer) : String :=
  "STATE " ++ rt.showFloat s.gameTimer ++ " " ++ playerText rt s.player0 ++
    playerText rt s.player1 ++
    String.join (s.diamonds.map (fun d => if d.active then "1" else "0")) ++ "\n"

/-- What the outbound dequeue loop does with a message that has arrived: send it to both
clients. -/
def sendToBoth (outMsg : DelayedMessage) (s : GameServer) : GameServer :=
  SendRawToClient 1 outMsg.data (SendRawToClient 0 outMsg.data s)

/-- The member function `GameServer::BroadcastState`; `tEnqueue` and `tDrain` are its two
clock readings.  The field `playerId` of the queued message is left uninitialised by the
source and never read; the model stores `0`. -/
def BroadcastState (rt : Runtime) (tEnqueue tDrain : Int) (s : GameServer) : GameServer :=
  let s1 := { s with outboundQueue := pushDelayed s.outboundQueue (stateLine rt s) 0 tEnqueue }
  let r := drainLoop sendToBoth tDrain s1.outboundQueue s1
  { r.2 with outboundQueue := r.1 }

/-! ## Main loop -/

/-- The text of the `SETUP` line built in `AcceptClients` for slot `slot`. -/
def setupLine (rt : Runtime) (slot : Int) (s : GameServer) : String :=
  "SETUP " ++ toString slot ++ " " ++ toString s.mazeWidth ++ " " ++ toString s.mazeHeight ++
    " " ++ String.join (s.maze.map (fun row => String.join (row.map toString))) ++
    " " ++ toString s.diamonds.length ++ " " ++
    String.join (s.diamonds.map (fun d => rt.showFloat d.x ++ " " ++ rt.showFloat d.y ++ " ")) ++
    "\n"

/-- The member function `GameServer::AcceptClients`, once both peers have connected. -/
def AcceptClients (rt : Runtime) (s : GameServer) : GameServer :=
  let s0 := { s with clientConnected0 := true }
  let s0 := { s0 with sent := s0.sent ++ [((0 : Int), setupLine rt 0 s0)] }
  let s1 := { s0 with clientConnected1 := true }
  { s1 with sent := s1.sent ++ [((1 : Int), setupLine rt 1 s1)] }

/-- The body of `while (gameRunning)` in `Run`. -/
def loopBody (rt : Runtime) (inp : TickInput) (s : GameServer) : GameServer :=
  let s1 := ReadNetworkInput inp s
  let s2 := ProcessDelayedInputs rt inp.tProcess s1
  let s3 := UpdatePhysics inp.dt s2
  let s4 := CheckCollisions s3
  let s5 := { s4 with gameTimer := if s4.gameTimer - inp.dt ≤ 0 then 0 else s4.gameTimer - inp.dt }
  BroadcastState rt inp.tEnqueue inp.tDrain s5

/-- The loop `while (gameRunning)` of `Run`, driven by the environment inputs of successive
iterations; it stops when `gameRunning` is false or the inputs are used up. -/
def runLoop (rt : Runtime) : List TickInput → GameServer → GameServer
  | [], s => s
  | inp :: rest, s => if s.gameRunning then runLoop rt rest (loopBody rt inp s) else s

/-- The member function `GameServer::Run` over a finite list of iterations. -/
def Run (rt : Runtime) (inputs : List TickInput) (s : GameServer) : GameServer :=
  runLoop rt inputs (AcceptClients rt s)

/-! ## Specification vocabulary for the maze -/

/-- The grid has `h` rows of `w` cells each. -/
def GridDims (m : Grid) (w h : Int) : Prop :=
  m.length = h.toNat ∧ ∀ row ∈ m, row.length = w.toNat

/-- The cell `c = (x, y)` is `Open` (value `0`). -/
def IsOpen (m : Grid) (c : Int × Int) : Prop := cellAt m c.1 c.2 = 0

/-- Two cells are 4-adjacent: they differ by one in exactly one coordinate. -/
def Adj4 (a b : Int × Int) : Prop :=
  (a.1 = b.1 ∧ (a.2 = b.2 + 1 ∨ b.2 = a.2 + 1)) ∨ (a.2 = b.2 ∧ (a.1 = b.1 + 1 ∨ b.1 = a.1 + 1))

/-- One step of a path through `Open` cells. -/
def OpenStep (m : Grid) (a b : Int × Int) : Prop := Adj4 a b ∧ IsOpen m a ∧ IsOpen m b

/-- The cell `c` is joined to the start cell `(1,1)` by a path of 4-adjacent `Open` cells. -/
def Reachable (m : Grid) (c : Int × Int) : Prop := Relation.ReflTransGen (OpenStep m) (1, 1) c

/-- The list `l` is a cycle of the graph of `Open` cells: at least three cells, all `Open`
and pairwise distinct, each 4-adjacent to the next and the last to the first. -/
def IsCycle (m : Grid) (l : List (Int × Int)) : Prop :=
  3 ≤ l.length ∧ l.Nodup ∧ (∀ c ∈ l, IsOpen m c) ∧
    ∀ i, i < l.length → Adj4 (l.getD i (0, 0)) (l.getD ((i + 1) % l.length) (0, 0))

/-- The four unit steps of the lattice. -/
def UnitDir (u : Int × Int) : Prop :=
  u = (0, -1) ∨ u = (0, 1) ∨ u = (-1, 0) ∨ u = (1, 0)

/-! ## Invariants and termination measure of the carving loop -/

/-- The shape invariant of the carving loop: the grid keeps its dimensions, the start cell is
`Open`, every `Open` cell is interior and has an odd coordinate, the two lattice ends of an
`Open` connecting cell are `Open`, and the stack holds `Open` lattice cells. -/
structure CarveInv (w h : Int) (m : Grid) (stack : List (Int × Int)) : Prop where
  dims : GridDims m w h
  start : cellAt m 1 1 = 0
  interior : ∀ x y, cellAt m x y = 0 → 0 < x ∧ x < w - 1 ∧ 0 < y ∧ y < h - 1
  parity : ∀ x y, cellAt m x y = 0 → x % 2 = 1 ∨ y % 2 = 1
  vconn : ∀ x y, cellAt m x y = 0 → y % 2 = 0 → cellAt m x (y - 1) = 0 ∧ cellAt m x (y + 1) = 0
  hconn : ∀ x y, cellAt m x y = 0 → x % 2 = 0 → cellAt m (x - 1) y = 0 ∧ cellAt m (x + 1) y = 0
  stack : ∀ c ∈ stack, cellAt m c.1 c.2 = 0 ∧ c.1 % 2 = 1 ∧ c.2 % 2 = 1

/-- The facts that describe a push of the carving loop from the stack top `(cx, cy)` in the
unit direction `(ux, uy)`, with `m2` the grid after the two writes. -/
structure PushFacts (w h : Int) (m m2 : Grid) (cx cy ux uy : Int) : Prop where
  dir : (ux = 0 ∧ (uy = -1 ∨ uy = 1)) ∨ (uy = 0 ∧ (ux = -1 ∨ ux = 1))
  curOpen : cellAt m cx cy = 0
  curOdd : cx % 2 = 1 ∧ cy % 2 = 1
  destWall : cellAt m (cx + 2 * ux) (cy + 2 * uy) = 1
  cell : ∀ x y, cellAt m2 x y =
    if (x = cx + 2 * ux ∧ y = cy + 2 * uy) ∨ (x = cx + ux ∧ y = cy + uy) then 0 else cellAt m x y

/-- The `Open` lattice cells of the grid: both coordinates odd. -/
def openLattice (w h : Int) (m : Grid) : Finset (Int × Int) :=
  ((Finset.Icc 0 (w - 1)) ×ˢ (Finset.Icc 0 (h - 1))).filter
    (fun c => (c.1 % 2 = 1 ∧ c.2 % 2 = 1) ∧ cellAt m c.1 c.2 = 0)

/-- The `Open` connecting cells of the grid: the `Open` cells that are not lattice cells. -/
def openConnectors (w h : Int) (m : Grid) : Finset (Int × Int) :=
  ((Finset.Icc 0 (w - 1)) ×ˢ (Finset.Icc 0 (h - 1))).filter
    (fun c => ¬ (c.1 % 2 = 1 ∧ c.2 % 2 = 1) ∧ cellAt m c.1 c.2 = 0)

/-- The full invariant of the carving loop: shape, reachability of every `Open` cell from the
start cell, and absence of cycles among the `Open` cells. -/
structure MazeInv (w h : Int) (m : Grid) (stack : List (Int × Int)) : Prop where
  shape : CarveInv w h m stack
  reach : ∀ x y, cellAt m x y = 0 → Reachable m (x, y)
  acyclic : ∀ l, ¬ IsCycle m l
  count : (openConnectors w h m).card + 1 = (openLattice w h m).card

/-- The interior lattice cells (both coordinates odd) that are still `Wall`. -/
def latticeWalls (w h : Int) (m : Grid) : Finset (Int × Int) :=
  ((Finset.Icc 1 (w - 2)) ×ˢ (Finset.Icc 1 (h - 2))).filter
    (fun c => c.1 % 2 = 1 ∧ c.2 % 2 = 1 ∧ cellAt m c.1 c.2 = 1)

/-- The termination measure of the carving loop. -/
def carveMeasure (w h : Int) (m : Grid) (stack : List (Int × Int)) : Nat :=
  2 * (latticeWalls w h m).card + stack.length

/-! ## Tick sequences -/

/-- The data of one tick as the physics sees it: the elapsed time and the input vector each
player has in force (written by `ProcessDelayedInputs` from `INPUT` messages). -/
structure PhysTick where
  dt : ℚ
  input0X : ℚ
  input0Y : ℚ
  input1X : ℚ
  input1Y : ℚ

/-- Store the input vectors of a tick in the two players. -/
def setInputs (t : PhysTick) (s : GameServer) : GameServer :=
  { s with
    player0 := { s.player0 with inputX := t.input0X, inputY := t.input0Y }
    player1 := { s.player1 with inputX := t.input1X, inputY := t.input1Y } }

/-- A finite sequence of `UpdatePhysics` ticks. -/
def runPhysics : List PhysTick → GameServer → GameServer
  | [], s => s
  | t :: ts, s => runPhysics ts (UpdatePhysics t.dt (setInputs t s))

/-- One tick of the simulation core: `UpdatePhysics` followed by `CheckCollisions`. -/
def gameTick (t : PhysTick) (s : GameServer) : GameServer :=
  CheckCollisions (UpdatePhysics t.dt (setInputs t s))

/-- A finite sequence of simulation ticks. -/
def runTicks : List PhysTick → GameServer → GameServer
  | [], s => s
  | t :: ts, s => runTicks ts (gameTick t s)

/-- Some point of the player's footprint, the closed axis-aligned square of half-extent
`PLAYER_SIZE / 2` around the centre, lies in a `Wall` cell. -/
def FootprintInWall (s : GameServer) (p : Player) : Prop :=
  ∃ x y : ℚ, |x - p.x| ≤ PLAYER_SIZE / 2 ∧ |y - p.y| ≤ PLAYER_SIZE / 2 ∧ IsWall s x y = true

/-! ## Concrete servers used to instantiate the theorems -/

/-- The 21 by 21 server generated when every random draw is `0`: the carve walks down the
first column and then snakes through the columns; all 15 diamonds land in cell `(1,1)`. -/
def zeroDrawServer : GameServer :=
  (newServer 21 21 (fun _ => 0) 400).getD (GameServer.blank 21 21)

/-! ## A concrete scenario at a corner of the maze -/

/-- Random draws that make the carve start to the right and turn down at `(3,1)`. -/
def cornerRng : Nat → Nat := fun k => if k = 0 then 1 else 0

/-- Twenty ticks of 16 ms with player 0 pushing right, then six pushing down. -/
def cornerTicks : List PhysTick :=
  List.replicate 20 { dt := 2 / 125, input0X := 1, input0Y := 0, input1X := 0, input1Y := 0 } ++
  List.replicate 6 { dt := 2 / 125, input0X := 0, input0Y := 1, input1X := 0, input1Y := 0 }

/-- The server generated from `cornerRng`. -/
def cornerServer : GameServer :=
  (newServer 21 21 cornerRng 400).getD (GameServer.blank 21 21)

/-! ## Delay queues -/

/-- An operation on a delay queue: a message is queued at clock reading `now`, or the dequeue
loop runs at clock reading `now`. -/
inductive QueueOp where
  | enqueue (data : String) (playerId : Int) (now : Int)
  | drain (now : Int)

/-- What a drain does with an arrived message when only the order of delivery is observed:
append it to the log of delivered messages. -/
def logDelivery (msg : DelayedMessage) (log : List DelayedMessage) : List DelayedMessage :=
  log ++ [msg]

/-- Run a sequence of queue operations from the queue `st.1` and the delivery log `st.2`. -/
def runQueue : List QueueOp → List DelayedMessage × List DelayedMessage →
    List DelayedMessage × List DelayedMessage
  | [], st => st
  | QueueOp.enqueue data playerId now :: ops, st =>
    runQueue ops (pushDelayed st.1 data playerId now, st.2)
  | QueueOp.drain now :: ops, st => runQueue ops (drainLoop logDelivery now st.1 st.2)

/-- The messages a sequence of operations queues, in enqueue order. -/
def enqueuedBy : List QueueOp → List DelayedMessage
  | [] => []
  | QueueOp.enqueue data playerId now :: ops =>
    { data := data, playerId := playerId, deliveryTime := now + latency } :: enqueuedBy ops
  | QueueOp.drain _ :: ops => enqueuedBy ops

/-- The clock readings of the enqueue operations, in order. -/
def enqueueTimes : List QueueOp → List Int
  | [] => []
  | QueueOp.enqueue _ _ now :: ops => now :: enqueueTimes ops
  | QueueOp.drain _ :: ops => enqueueTimes ops

/-! ## Delay queues: ordering by delivery time -/

/-- The queue is ordered by delivery time. -/
def QueueSorted (q : List DelayedMessage) : Prop :=
  q.Pairwise (fun a b => a.deliveryTime ≤ b.deliveryTime)

/-- Two inputs queued 5 ms apart, a drain 100 ms after the first, a third input. -/
def sampleOps : List QueueOp :=
  [QueueOp.enqueue "INPUT 1 0" 0 0, QueueOp.enqueue "INPUT 0 1" 1 5000000,
    QueueOp.drain 100000000, QueueOp.enqueue "EXIT" 0 7000000]

/-! ## Item pickup -/

/-- Number of diamonds whose `active` flag is set. -/
def countActive (ds : List Diamond) : Nat := (ds.filter (fun d => d.active)).length

/-- Relation between an item before and after some ticks: same identity and position, and an
inactive item is still inactive. -/
def StaysInactive (d d2 : Diamond) : Prop :=
  d2.id = d.id ∧ d2.x = d.x ∧ d2.y = d.y ∧ (d.active = false → d2.active = false)

/-- The bookkeeping invariant of the match: points awarded plus items still active equals
the number of items. -/
def ScoreInv (s : GameServer) : Prop :=
  s.player0.score + s.player1.score + (countActive s.diamonds : Int) = s.diamonds.length

/-- A tick of 16 ms in which player 0 pushes right and player 1 pushes left. -/
def sampleTick : PhysTick :=
  { dt := 2 / 125, input0X := 1, input0Y := 0, input1X := -1, input1Y := 0 }

/-! ## A concrete text runtime -/

/-- Value of a string of decimal digits. -/
def digitsValue (cs : List Char) : Nat :=
  cs.foldl (fun n c => 10 * n + (c.toNat - 48)) 0

/-- A plain decimal reader: blanks, an optional sign, digits, an optional fraction. -/
def readDecimal (cs : List Char) : Option (ℚ × List Char) :=
  let body := cs.dropWhile isSpaceChar
  let negative := body.head? = some '-'
  let body := if body.head? = some '-' ∨ body.head? = some '+' then body.tail else body
  let whole := body.takeWhile Char.isDigit
  let rest := body.dropWhile Char.isDigit
  let frac := if rest.head? = some '.' then rest.tail.takeWhile Char.isDigit else []
  let rest := if rest.head? = some '.' then rest.tail.dropWhile Char.isDigit else rest
  if whole = [] ∧ frac = [] then none
  else
    let v : ℚ := (digitsValue whole : ℚ) + (digitsValue frac : ℚ) / (10 : ℚ) ^ frac.length
    some (if negative then -v else v, rest)

/-- A concrete runtime for evaluating runs: floats print as `numerator/denominator`, plain
decimal text is read exactly, uninitialised floats hold `0`. -/
def sampleRuntime : Runtime :=
  { showFloat := fun q => toString q.num ++ "/" ++ toString q.den
    readFloat := readDecimal
    garbageX := 0
    garbageY := 0 }

/-- The server generated when every random draw is `18`: the snake maze, with all 15
diamonds in cell `(19,19)`, the spawn cell of player 1. -/
def farCornerServer : GameServer :=
  (newServer 21 21 (fun _ => 18) 400).getD (GameServer.blank 21 21)

/-- The state `farCornerServer` once both clients are connected. -/
def farCornerStart : GameServer := AcceptClients sampleRuntime farCornerServer

/-- A tick of 16 ms with no input from either player. -/
def idleTick : PhysTick :=
  { dt := 2 / 125, input0X := 0, input0Y := 0, input1X := 0, input1Y := 0 }

/-! ## Concrete scenarios for the end of the match -/

/-- The all-zero-draw server once both clients are connected. -/
def connectedZeroServer : GameServer := AcceptClients sampleRuntime zeroDrawServer

/-! ## Vocabulary for the lines sent at the end of the match -/

/-- The text `t` starts with the word `kind`. -/
def startsWith (kind t : String) : Bool := kind.toList.isPrefixOf t.toList

/-- In the log of sent lines, no `STATE` line comes after a `GAMEOVER` line. -/
def noStateAfterGameOver : List (Int × String) → Bool
  | [] => true
  | e :: rest =>
    (!startsWith "GAMEOVER " e.2 || rest.all (fun e2 => !startsWith "STATE " e2.2)) &&
      noStateAfterGameOver rest

/-- Draws that carve the snake maze and then put all 15 diamonds in cell `(1,3)`. -/
def lateRng : Nat → Nat := fun k => if 199 ≤ k ∧ k % 2 = 0 then 2 else 0

/-- The server generated from `lateRng`. -/
def lateServer : GameServer :=
  (newServer 21 21 lateRng 400).getD (GameServer.blank 21 21)

/-- Environment of iteration `j` of a run at 16 ms per iteration: client 0 sends `INPUT 0 1`
in the first iteration, nothing is received afterwards. -/
def lateTick (j : Nat) : TickInput :=
  { dt := 2 / 125
    recv0 := if j = 0 then some "INPUT 0 1\n" else none
    recv1 := none
    tRecv0 := 16000000 * j
    tRecv1 := 16000000 * j + 1000
    tProcess := 16000000 * j + 2000
    tEnqueue := 16000000 * j + 3000
    tDrain := 16000000 * j + 4000 }

/-- Forty iterations at 16 ms. -/
def lateTicks : List TickInput := (List.range 40).map lateTick

/-- The lines a drain of the outbound queue `q` at clock reading `now` sends: every arrived
message of the front of the queue, to client 0 and then to client 1. -/
def flushedLines (now : Int) (q : List DelayedMessage) : List (Int × String) :=
  (q.takeWhile (fun m => decide (now ≥ m.deliveryTime))).flatMap
    (fun m => [((0 : Int), m.data), ((1 : Int), m.data)])

/-- The state of an iteration just after its `CheckCollisions` call. -/
def afterCollisions (rt : Runtime) (inp : TickInput) (s : GameServer) : GameServer :=
  CheckCollisions (UpdatePhysics inp.dt
    (ProcessDelayedInputs rt inp.tProcess (ReadNetworkInput inp s)))

/-- The state of an iteration just before its `BroadcastState` call: the timer is updated. -/
def beforeBroadcast (rt : Runtime) (inp : TickInput) (s : GameServer) : GameServer :=
  { afterCollisions rt inp s with
    gameTimer := if (afterCollisions rt inp s).gameTimer - inp.dt ≤ 0 then 0
      else (afterCollisions rt inp s).gameTimer - inp.dt }

/-- Both clients are connected. -/
def BothConnected (s : GameServer) : Prop :=
  s.clientConnected0 = true ∧ s.clientConnected1 = true

/-! ## The carve visits the whole lattice -/

/-- The second invariant of the carving loop: every cell holds `0` or `1`, and every `Open`
lattice cell that is no longer on the stack has no `Wall` lattice neighbour left inside the
border. -/
structure FillInv (w h : Int) (m : Grid) (stack : List (Int × Int)) : Prop where
  binary : ∀ x y, cellAt m x y = 0 ∨ cellAt m x y = 1
  finished : ∀ x y, cellAt m x y = 0 → x % 2 = 1 → y % 2 = 1 → (x, y) ∉ stack →
    ∀ ux uy : Int, ((ux = 0 ∧ (uy = -1 ∨ uy = 1)) ∨ (uy = 0 ∧ (ux = -1 ∨ ux = 1))) →
      0 < x + 2 * ux → x + 2 * ux < w - 1 → 0 < y + 2 * uy → y + 2 * uy < h - 1 →
      cellAt m (x + 2 * ux) (y + 2 * uy) ≠ 1

/-! ## Iteration bound of the carving loop -/

/-- The interior lattice cells: `0 < x < w - 1`, `0 < y < h - 1`, both coordinates odd. -/
def latticeCells (w h : Int) : Finset (Int × Int) :=
  ((Finset.Icc 1 (w - 2)) ×ˢ (Finset.Icc 1 (h - 2))).filter
    (fun c => c.1 % 2 = 1 ∧ c.2 % 2 = 1)

/-- The cells written by one iteration of the carving loop: the two assignments
`maze[cy + dirs[dir][1]/2][cx + dirs[dir][0]/2] = 0` and `maze[ny][nx] = 0` of a push, none
for a pop. -/
def stepWrites (w h : Int) (r : Nat) (m : Grid) (stack : List (Int × Int)) : List (Int × Int) :=
  match stack with
  | [] => []
  | (cx, cy) :: _ =>
    let nb := neighborsOf w h m cx cy
    if nb ≠ [] then
      let dir := nb.getD (r % nb.length) 0
      [(cx + Int.tdiv (dirAt dir).1 2, cy + Int.tdiv (dirAt dir).2 2),
        (cx + (dirAt dir).1, cy + (dirAt dir).2)]
    else []

/-- The cells written by the carving loop in at most `fuel` iterations, in order. -/
def loopWrites (w h : Int) (rng : Nat → Nat) :
    Nat → Nat → Grid → List (Int × Int) → List (Int × Int)
  | _, _, _, [] => []
  | 0, _, _, _ :: _ => []
  | fuel + 1, k, m, c :: rest =>
    stepWrites w h (rng k) m (c :: rest) ++
      loopWrites w h rng fuel (k + 1) (carveStep w h (rng k) m (c :: rest)).1
        (carveStep w h (rng k) m (c :: rest)).2

/-- Every cell the carving part of `GenerateMaze` writes `0` to: the start cell, then the
writes of the loop. -/
def carveWrites (w h : Int) (rng : Nat → Nat) (fuel : Nat) : List (Int × Int) :=
  (1, 1) :: loopWrites w h rng fuel 0 (setCell (wallGrid w h) 1 1 0) [(1, 1)]

/-! ## Reset -/

/-- The member function `GameServer::ResetGame`; `rng` and `fuel` are those of its
`GenerateMaze` call. -/
def ResetGame (rt : Runtime) (rng : Nat → Nat) (fuel : Nat) (s : GameServer) :
    Option GameServer :=
  let s1 := { s with
    player0 := { s.player0 with score := 0 }
    player1 := { s.player1 with score := 0 } }
  match GenerateMaze rng fuel s1 with
  | none => none
  | some s2 =>
    let s3 := { s2 with gameRunning := true }
    let line := setupLine rt 0 s3
    some (SendRawToClient 1 line (SendRawToClient 0 line s3))

/-- The diamond `d` is active and sits at the centre of an `Open` cell of the grid `m`. -/
def AtOpenCentre (m : Grid) (d : Diamond) : Prop :=
  d.active = true ∧
    ∃ c r : Int, cellAt m c r = 0 ∧ d.x = (c : ℚ) + 1 / 2 ∧ d.y = (r : ℚ) + 1 / 2

/-- The match of `connectedZeroServer` after its first tick: player 0 has captured all 15
diamonds and the match has ended. -/
def playedServer : GameServer := gameTick idleTick connectedZeroServer

/-! ## The centre of a player stays in an `Open` cell -/

/-- The maze of the server is a finished maze of the server's dimensions. -/
def MazeReady (s : GameServer) : Prop :=
  MazeInv s.mazeWidth s.mazeHeight s.maze [] ∧ FillInv s.mazeWidth s.mazeHeight s.maze []

/-- Neither player's centre is in a `Wall` cell (or outside the grid). -/
def CentresOpen (s : GameServer) : Prop :=
  IsWall s s.player0.x s.player0.y = false ∧ IsWall s s.player1.x s.player1.y = false

/-! ## Who gets an item -/

/-- The text reads as `INPUT x y`: its first word is `INPUT` and the runtime extracts the
floats `x` and then `y` from what follows. -/
def ReadsAsInput (rt : Runtime) (data : String) (x y : ℚ) : Prop :=
  (readWord data.toList).1 = "INPUT" ∧
    ∃ r1 r2 : List Char,
      rt.readFloat (readWord data.toList).2 = some (x, r1) ∧ rt.readFloat r1 = some (y, r2)

/-- The slot of the `players` array that a message tagged `playerId` writes to. -/
def slotOf (playerId : Int) : Int := if playerId = 0 then 0 else 1

/-- The input vector of player `i`. -/
def inputsOf (s : GameServer) (i : Int) : ℚ × ℚ :=
  ((s.getPlayer i).inputX, (s.getPlayer i).inputY)

/-- The message is an `INPUT` command for slot `i`. -/
def IsInputFor (i : Int) (m : DelayedMessage) : Prop :=
  (readWord m.data.toList).1 = "INPUT" ∧ slotOf m.playerId = i

/-- What an `INPUT` of slot `i` must leave alone between the states `s` and `t`: the other
player's record, the position, velocity and score of player `i`, the items, the maze, the timer,
the running flag, the connections, the outbound queue and the lines sent. -/
def InputFrame (i : Int) (s t : GameServer) : Prop :=
  t.getPlayer (1 - i) = s.getPlayer (1 - i) ∧
  (t.getPlayer i).id = (s.getPlayer i).id ∧
  (t.getPlayer i).x = (s.getPlayer i).x ∧ (t.getPlayer i).y = (s.getPlayer i).y ∧
  (t.getPlayer i).vx = (s.getPlayer i).vx ∧ (t.getPlayer i).vy = (s.getPlayer i).vy ∧
  (t.getPlayer i).score = (s.getPlayer i).score ∧
  t.diamonds = s.diamonds ∧ t.maze = s.maze ∧ t.mazeWidth = s.mazeWidth ∧
  t.mazeHeight = s.mazeHeight ∧ t.gameTimer = s.gameTimer ∧ t.gameRunning = s.gameRunning ∧
  t.clientConnected0 = s.clientConnected0 ∧ t.clientConnected1 = s.clientConnected1 ∧
  t.outboundQueue = s.outboundQueue ∧ t.sent = s.sent

/-- The part of the loop body after `ProcessDelayedInputs`. -/
def afterInputs (rt : Runtime) (inp : TickInput) (s2 : GameServer) : GameServer :=
  let s4 := CheckCollisions (UpdatePhysics inp.dt s2)
  let s5 := { s4 with gameTimer := if s4.gameTimer - inp.dt ≤ 0 then 0 else s4.gameTimer - inp.dt }
  BroadcastState rt inp.tEnqueue inp.tDrain s5

/-- No `INPUT` command for slot `i` is delivered in any iteration of the run. -/
def QuietRun (rt : Runtime) (i : Int) : List TickInput → GameServer → Prop
  | [], _ => True
  | inp :: rest, s =>
    (∀ m ∈ (ReadNetworkInput inp s).inboundQueue.takeWhile
        (fun m => decide (inp.tProcess ≥ m.deliveryTime)), ¬ IsInputFor i m) ∧
      QuietRun rt i rest (loopBody rt inp s)

/-- The message queued for the chunk `INPUT 0 1` received from client 0 at clock reading 0. -/
def inputMessage : DelayedMessage :=
  { data := "INPUT 0 1\n", playerId := 0, deliveryTime := latency }

/-- The connected all-zero-draw server after that chunk has been received. -/
def inputQueued : GameServer := readClient 0 (some "INPUT 0 1\n") 0 connectedZeroServer

/-! ## Scenarios: messages that are not well-formed commands -/

/-- The connected all-zero-draw server after the chunk `INPUT 1 abc` has been received from
client 0 at clock reading 0. -/
def malformedQueued : GameServer := readClient 0 (some "INPUT 1 abc\n") 0 connectedZeroServer

/-- The connected all-zero-draw server after the chunk `JUMP 3` has been received from
client 1 at clock reading 0. -/
def unknownQueued : GameServer := readClient 1 (some "JUMP 3\n") 0 connectedZeroServer

/-! ## Scenarios: a chunk of several lines -/

/-- The state after the chunk `data`, received from client 0 at clock reading 0, has been
decoded 300 ms later. -/
def afterChunk (data : String) : GameServer :=
  ProcessDelayedInputs sampleRuntime 300000000 (readClient 0 (some data) 0 connectedZeroServer)

/-- The state after the two lines `INPUT 1 0` and `EXIT`, received from client 0 as two
chunks at clock readings 0 and 16 ms, have been decoded 300 ms later. -/
def afterTwoLines : GameServer :=
  ProcessDelayedInputs sampleRuntime 300000000
    (readClient 0 (some "EXIT\n") 16000000
      (readClient 0 (some "INPUT 1 0\n") 0 connectedZeroServer))

/-! # Theorems -/

/-! ## Grid lemmas -/

theorem Adj4.symm {a b : Int × Int} (h : Adj4 a b) : Adj4 b a := by
  unfold Adj4 at *
  omega

theorem cellAt_eq_zero_nonneg {m : Grid} {x y : Int} (h : cellAt m x y = 0) : 0 ≤ x ∧ 0 ≤ y := by
  unfold cellAt at h
  by_contra hc
  rw [if_neg hc] at h
  omega

theorem GridDims.afterSetCell {m : Grid} {w h : Int} (hd : GridDims m w h) (x y v : Int) :
    GridDims (setCell m x y v) w h := by
  obtain ⟨h1, h2⟩ := hd
  refine ⟨by simp [MazeRunner.setCell, h1], ?_⟩
  intro row hrow
  by_cases hlt : y.toNat < m.length
  · rcases List.mem_or_eq_of_mem_set hrow with hmem | heq
    · exact h2 row hmem
    · rw [heq, List.length_set, List.getD_eq_getElem?_getD, List.getElem?_eq_getElem hlt]
      exact h2 _ (List.getElem_mem hlt)
  · unfold MazeRunner.setCell at hrow
    rw [List.set_eq_of_length_le (by omega)] at hrow
    exact h2 row hrow

theorem cellAt_setCell {m : Grid} {w h : Int} (hd : GridDims m w h) {x y : Int}
    (hx0 : 0 ≤ x) (hxw : x < w) (hy0 : 0 ≤ y) (hyh : y < h) (v : Int) (x' y' : Int) :
    cellAt (setCell m x y v) x' y' = if x' = x ∧ y' = y then v else cellAt m x' y' := by
  obtain ⟨h1, h2⟩ := hd
  have hylt : y.toNat < m.length := by omega
  have hrow : (m.getD y.toNat []).length = w.toNat := by
    rw [List.getD_eq_getElem?_getD, List.getElem?_eq_getElem hylt]
    exact h2 _ (List.getElem_mem hylt)
  have hxlt : x.toNat < (m.getD y.toNat []).length := by omega
  unfold cellAt MazeRunner.setCell
  by_cases hnn : 0 ≤ x' ∧ 0 ≤ y'
  · rw [if_pos hnn, if_pos hnn]
    simp only [List.getD_eq_getElem?_getD, List.getElem?_set]
    by_cases hy : y' = y
    · subst hy
      simp only [if_true, hylt, Option.getD_some, and_true]
      by_cases hx : x' = x
      · subst hx
        simp [List.getD_eq_getElem?_getD] at hxlt
        simp [hxlt]
      · have : x.toNat ≠ x'.toNat := by omega
        simp [hx, this]
    · have : y.toNat ≠ y'.toNat := by omega
      simp [hy, this]
  · rw [if_neg hnn, if_neg hnn, if_neg]
    omega

/-! ## The carving step, case by case -/

theorem mem_neighborsOf {w h : Int} {m : Grid} {cx cy : Int} {i : Nat}
    (hi : i ∈ neighborsOf w h m cx cy) : i < 4 ∧ isCandidate w h m cx cy i = true := by
  unfold neighborsOf at hi
  rw [List.mem_filter, List.mem_range] at hi
  exact hi

theorem getD_mod_mem {l : List Nat} (hl : l ≠ []) (r : Nat) : l.getD (r % l.length) 0 ∈ l := by
  have hpos : 0 < l.length := List.length_pos.mpr hl
  have hlt : r % l.length < l.length := Nat.mod_lt _ hpos
  rw [List.getD_eq_getElem?_getD, List.getElem?_eq_getElem hlt]
  exact List.getElem_mem hlt

theorem dirAt_unit {i : Nat} (hi : i < 4) :
    ∃ u : Int × Int, UnitDir u ∧ dirAt i = (2 * u.1, 2 * u.2) ∧
      Int.tdiv (dirAt i).1 2 = u.1 ∧ Int.tdiv (dirAt i).2 2 = u.2 := by
  have h4 : i = 0 ∨ i = 1 ∨ i = 2 ∨ i = 3 := by omega
  rcases h4 with rfl | rfl | rfl | rfl
  · exact ⟨(0, -1), Or.inl rfl, by decide, by decide, by decide⟩
  · exact ⟨(0, 1), Or.inr (Or.inl rfl), by decide, by decide, by decide⟩
  · exact ⟨(-1, 0), Or.inr (Or.inr (Or.inl rfl)), by decide, by decide, by decide⟩
  · exact ⟨(1, 0), Or.inr (Or.inr (Or.inr rfl)), by decide, by decide, by decide⟩

/-- What one loop iteration does on a non-empty stack: it pops when no candidate exists, and
otherwise opens the cell one unit step away and the `Wall` cell two unit steps away, pushing
the latter. -/
theorem carveStep_cases (w h : Int) (r : Nat) (m : Grid) (cx cy : Int) (rest : List (Int × Int)) :
    (neighborsOf w h m cx cy = [] ∧ carveStep w h r m ((cx, cy) :: rest) = (m, rest)) ∨
    ∃ u : Int × Int, UnitDir u ∧
      0 < cx + 2 * u.1 ∧ cx + 2 * u.1 < w - 1 ∧ 0 < cy + 2 * u.2 ∧ cy + 2 * u.2 < h - 1 ∧
      cellAt m (cx + 2 * u.1) (cy + 2 * u.2) = 1 ∧
      carveStep w h r m ((cx, cy) :: rest) =
        (setCell (setCell m (cx + u.1) (cy + u.2) 0) (cx + 2 * u.1) (cy + 2 * u.2) 0,
          (cx + 2 * u.1, cy + 2 * u.2) :: (cx, cy) :: rest) := by
  by_cases hnb : neighborsOf w h m cx cy = []
  · left
    refine ⟨hnb, ?_⟩
    simp [carveStep, hnb]
  · right
    have hmem := getD_mod_mem hnb r
    obtain ⟨hlt, hcand⟩ := mem_neighborsOf hmem
    obtain ⟨u, hu, hdir, hdx, hdy⟩ := dirAt_unit hlt
    refine ⟨u, hu, ?_⟩
    unfold isCandidate at hcand
    simp only [decide_eq_true_eq] at hcand
    rw [hdir] at hcand
    simp only at hcand
    refine ⟨by omega, by omega, by omega, by omega, hcand.2.2.2.2, ?_⟩
    simp only [carveStep, ne_eq, hnb, not_false_eq_true, if_true]
    rw [hdx, hdy, hdir]

/-! ## The shape invariant of the carving loop -/

theorem UnitDir.cases {u : Int × Int} (hu : UnitDir u) :
    (u.1 = 0 ∧ (u.2 = -1 ∨ u.2 = 1)) ∨ (u.2 = 0 ∧ (u.1 = -1 ∨ u.1 = 1)) := by
  rcases hu with rfl | rfl | rfl | rfl <;> simp

/-- Cells of the grid after a push: the two written cells are `0`, the others unchanged. -/
theorem cellAt_push {w h : Int} {m : Grid} (hd : GridDims m w h) {cx cy ux uy : Int}
    (hcx : 0 < cx ∧ cx < w - 1) (hcy : 0 < cy ∧ cy < h - 1)
    (hdx : 0 < cx + 2 * ux ∧ cx + 2 * ux < w - 1) (hdy : 0 < cy + 2 * uy ∧ cy + 2 * uy < h - 1)
    (x y : Int) :
    cellAt (setCell (setCell m (cx + ux) (cy + uy) 0) (cx + 2 * ux) (cy + 2 * uy) 0) x y =
      if (x = cx + 2 * ux ∧ y = cy + 2 * uy) ∨ (x = cx + ux ∧ y = cy + uy) then 0
      else cellAt m x y := by
  rw [cellAt_setCell (hd.afterSetCell _ _ _) (by omega) (by omega) (by omega) (by omega),
    cellAt_setCell hd (by omega) (by omega) (by omega) (by omega)]
  by_cases h1 : x = cx + 2 * ux ∧ y = cy + 2 * uy
  · simp [h1]
  · by_cases h2 : x = cx + ux ∧ y = cy + uy
    · simp [h2]
    · simp [h1, h2]

theorem GridDims.ofWallGrid (w h : Int) : GridDims (wallGrid w h) w h := by
  refine ⟨by simp [MazeRunner.wallGrid], ?_⟩
  intro row hrow
  rw [MazeRunner.wallGrid, List.mem_replicate] at hrow
  rw [hrow.2, List.length_replicate]

theorem cellAt_wallGrid (w h x y : Int) : cellAt (wallGrid w h) x y = 1 := by
  unfold cellAt wallGrid
  split
  · simp only [List.getD_eq_getElem?_getD, List.getElem?_replicate]
    split
    · simp only [Option.getD_some, List.getElem?_replicate]
      split <;> rfl
    · rfl
  · rfl

/-- The grid at loop entry: only the start cell is `Open`. -/
theorem cellAt_startGrid {w h : Int} (hw : 3 ≤ w) (hh : 3 ≤ h) (x y : Int) :
    cellAt (setCell (wallGrid w h) 1 1 0) x y = if x = 1 ∧ y = 1 then 0 else 1 := by
  rw [cellAt_setCell (GridDims.ofWallGrid w h) (by omega) (by omega) (by omega) (by omega),
    cellAt_wallGrid]

theorem startGrid_open {w h : Int} (hw : 3 ≤ w) (hh : 3 ≤ h) {x y : Int}
    (hxy : cellAt (setCell (wallGrid w h) 1 1 0) x y = 0) : x = 1 ∧ y = 1 := by
  rw [cellAt_startGrid hw hh] at hxy
  by_contra hne
  rw [if_neg hne] at hxy
  omega

theorem CarveInv.atLoopEntry {w h : Int} (hw : 3 ≤ w) (hh : 3 ≤ h) :
    CarveInv w h (setCell (wallGrid w h) 1 1 0) [(1, 1)] := by
  have hd := GridDims.ofWallGrid w h
  have hcell := cellAt_startGrid hw hh
  have hopen : ∀ x y, cellAt (setCell (wallGrid w h) 1 1 0) x y = 0 → x = 1 ∧ y = 1 :=
    fun x y hxy => startGrid_open hw hh hxy
  refine ⟨hd.afterSetCell _ _ _, by rw [hcell]; simp, ?_, ?_, ?_, ?_, ?_⟩
  · intro x y hxy
    obtain ⟨rfl, rfl⟩ := hopen x y hxy
    omega
  · intro x y hxy
    obtain ⟨rfl, rfl⟩ := hopen x y hxy
    omega
  · intro x y hxy hy
    obtain ⟨rfl, rfl⟩ := hopen x y hxy
    omega
  · intro x y hxy hx
    obtain ⟨rfl, rfl⟩ := hopen x y hxy
    omega
  · intro c hc
    rw [List.mem_singleton] at hc
    subst hc
    refine ⟨by rw [hcell]; simp, by decide, by decide⟩

theorem CarveInv.pop {w h : Int} {m : Grid} {c : Int × Int} {rest : List (Int × Int)}
    (hi : CarveInv w h m (c :: rest)) : CarveInv w h m rest :=
  { hi with stack := fun d hd => hi.stack d (List.mem_cons_of_mem _ hd) }

theorem CarveInv.push {w h : Int} {m : Grid} {cx cy : Int} {rest : List (Int × Int)}
    (hi : CarveInv w h m ((cx, cy) :: rest)) {u : Int × Int} (hu : UnitDir u)
    (hdx : 0 < cx + 2 * u.1 ∧ cx + 2 * u.1 < w - 1) (hdy : 0 < cy + 2 * u.2 ∧ cy + 2 * u.2 < h - 1) :
    CarveInv w h (setCell (setCell m (cx + u.1) (cy + u.2) 0) (cx + 2 * u.1) (cy + 2 * u.2) 0)
      ((cx + 2 * u.1, cy + 2 * u.2) :: (cx, cy) :: rest) := by
  obtain ⟨ux, uy⟩ := u
  have hu' := hu.cases
  simp only at hu' hdx hdy ⊢
  have hcur := hi.stack (cx, cy) (List.mem_cons_self _ _)
  simp only at hcur
  have hcint := hi.interior cx cy hcur.1
  have hcell := @cellAt_push w h m hi.dims cx cy ux uy ⟨hcint.1, hcint.2.1⟩
    ⟨hcint.2.2.1, hcint.2.2.2⟩ hdx hdy
  have hd2 := (hi.dims.afterSetCell (cx + ux) (cy + uy) 0).afterSetCell (cx + 2 * ux) (cy + 2 * uy) 0
  generalize setCell (setCell m (cx + ux) (cy + uy) 0) (cx + 2 * ux) (cy + 2 * uy) 0 = m2
    at hcell hd2 ⊢
  have hmono : ∀ x y, cellAt m x y = 0 →
      cellAt m2 x y = 0 := by
    intro x y hxy
    rw [hcell]
    split
    · rfl
    · exact hxy
  have hinv : ∀ x y,
      cellAt m2 x y = 0 →
      (x = cx + 2 * ux ∧ y = cy + 2 * uy) ∨ (x = cx + ux ∧ y = cy + uy) ∨ cellAt m x y = 0 := by
    intro x y hxy
    rw [hcell] at hxy
    by_cases hc : (x = cx + 2 * ux ∧ y = cy + 2 * uy) ∨ (x = cx + ux ∧ y = cy + uy)
    · rcases hc with hc | hc
      · exact Or.inl hc
      · exact Or.inr (Or.inl hc)
    · rw [if_neg hc] at hxy
      exact Or.inr (Or.inr hxy)
  have hdest : cellAt m2
      (cx + 2 * ux) (cy + 2 * uy) = 0 := by
    rw [hcell]; simp
  refine ⟨hd2, hmono _ _ hi.start, ?_, ?_, ?_, ?_, ?_⟩
  · intro x y hxy
    rcases hinv x y hxy with hc | hc | hc
    · omega
    · omega
    · exact hi.interior x y hc
  · intro x y hxy
    rcases hinv x y hxy with hc | hc | hc
    · omega
    · omega
    · exact hi.parity x y hc
  · intro x y hxy hy
    rcases hinv x y hxy with hc | hc | hc
    · omega
    · have hux : ux = 0 := by omega
      have huy : uy = -1 ∨ uy = 1 := by omega
      obtain ⟨rfl, rfl⟩ := hc
      subst hux
      rcases huy with rfl | rfl
      · constructor
        · have e : cy + -1 - 1 = cy + 2 * -1 := by ring
          rw [e]; exact hdest
        · have e : cy + -1 + 1 = cy := by ring
          have e2 : cx + 0 = cx := by ring
          rw [e, e2]; exact hmono _ _ hcur.1
      · constructor
        · have e : cy + 1 - 1 = cy := by ring
          have e2 : cx + 0 = cx := by ring
          rw [e, e2]; exact hmono _ _ hcur.1
        · have e : cy + 1 + 1 = cy + 2 * 1 := by ring
          rw [e]; exact hdest
    · obtain ⟨h1, h2⟩ := hi.vconn x y hc hy
      exact ⟨hmono _ _ h1, hmono _ _ h2⟩
  · intro x y hxy hx
    rcases hinv x y hxy with hc | hc | hc
    · omega
    · have huy : uy = 0 := by omega
      have hux : ux = -1 ∨ ux = 1 := by omega
      obtain ⟨rfl, rfl⟩ := hc
      subst huy
      rcases hux with rfl | rfl
      · constructor
        · have e : cx + -1 - 1 = cx + 2 * -1 := by ring
          rw [e]; exact hdest
        · have e : cx + -1 + 1 = cx := by ring
          have e2 : cy + 0 = cy := by ring
          rw [e, e2]; exact hmono _ _ hcur.1
      · constructor
        · have e : cx + 1 - 1 = cx := by ring
          have e2 : cy + 0 = cy := by ring
          rw [e, e2]; exact hmono _ _ hcur.1
        · have e : cx + 1 + 1 = cx + 2 * 1 := by ring
          rw [e]; exact hdest
    · obtain ⟨h1, h2⟩ := hi.hconn x y hc hx
      exact ⟨hmono _ _ h1, hmono _ _ h2⟩
  · intro c hc
    rcases List.mem_cons.mp hc with rfl | hc
    · exact ⟨hdest, by omega, by omega⟩
    · obtain ⟨h1, h2, h3⟩ := hi.stack c hc
      exact ⟨hmono _ _ h1, h2, h3⟩

/-! ## Reachability and acyclicity are kept by every carving step -/

theorem Reachable.mono_grid {m m2 : Grid} (hmono : ∀ x y, cellAt m x y = 0 → cellAt m2 x y = 0)
    {c : Int × Int} (hc : Reachable m c) : Reachable m2 c := by
  unfold Reachable at *
  refine Relation.ReflTransGen.mono ?_ hc
  intro a b hab
  exact ⟨hab.1, hmono _ _ hab.2.1, hmono _ _ hab.2.2⟩

/-- Every cell of a cycle has two different neighbours on the cycle. -/
theorem IsCycle.two_neighbors {m : Grid} {l : List (Int × Int)} (hc : IsCycle m l)
    {v : Int × Int} (hv : v ∈ l) :
    ∃ a b, a ∈ l ∧ b ∈ l ∧ a ≠ b ∧ Adj4 v a ∧ Adj4 v b := by
  obtain ⟨hlen, hnd, -, hadj⟩ := hc
  obtain ⟨i, hi, rfl⟩ := List.getElem_of_mem hv
  have hget : ∀ k (hk : k < l.length), l.getD k (0, 0) = l[k] := by
    intro k hk
    rw [List.getD_eq_getElem?_getD, List.getElem?_eq_getElem hk, Option.getD_some]
  -- successor index
  obtain ⟨j, hj, hjmod, hji⟩ : ∃ j, j < l.length ∧ (i + 1) % l.length = j ∧ j ≠ i := by
    by_cases h1 : i + 1 < l.length
    · exact ⟨i + 1, h1, Nat.mod_eq_of_lt h1, by omega⟩
    · have : i + 1 = l.length := by omega
      exact ⟨0, by omega, by rw [this, Nat.mod_self], by omega⟩
  -- predecessor index
  obtain ⟨p, hp, hpmod, hpi, hpj⟩ :
      ∃ p, p < l.length ∧ (p + 1) % l.length = i ∧ p ≠ i ∧ p ≠ j := by
    by_cases h0 : i = 0
    · refine ⟨l.length - 1, by omega, ?_, by omega, ?_⟩
      · have : l.length - 1 + 1 = l.length := by omega
        rw [this, Nat.mod_self, h0]
      · subst h0
        rw [Nat.mod_eq_of_lt (by omega)] at hjmod
        omega
    · refine ⟨i - 1, by omega, ?_, by omega, ?_⟩
      · have : i - 1 + 1 = i := by omega
        rw [this, Nat.mod_eq_of_lt hi]
      · by_cases h1 : i + 1 < l.length
        · rw [Nat.mod_eq_of_lt h1] at hjmod
          omega
        · have : i + 1 = l.length := by omega
          rw [this, Nat.mod_self] at hjmod
          omega
  refine ⟨l[j], l[p], List.getElem_mem hj, List.getElem_mem hp, ?_, ?_, ?_⟩
  · intro heq
    exact hpj ((List.Nodup.getElem_inj_iff hnd).mp heq).symm
  · have := hadj i hi
    rw [hjmod, hget i hi, hget j hj] at this
    exact this
  · have := hadj p hp
    rw [hpmod, hget i hi, hget p hp] at this
    exact this.symm

theorem PushFacts.keepsOpen {w h : Int} {m m2 : Grid} {cx cy ux uy : Int}
    (hp : PushFacts w h m m2 cx cy ux uy) (x y : Int) (hxy : cellAt m x y = 0) :
    cellAt m2 x y = 0 := by
  rw [hp.cell]
  split
  · rfl
  · exact hxy

theorem PushFacts.inv {w h : Int} {m m2 : Grid} {cx cy ux uy : Int}
    (hp : PushFacts w h m m2 cx cy ux uy) (x y : Int) (hxy : cellAt m2 x y = 0) :
    (x = cx + 2 * ux ∧ y = cy + 2 * uy) ∨ (x = cx + ux ∧ y = cy + uy) ∨ cellAt m x y = 0 := by
  rw [hp.cell] at hxy
  by_cases hc : (x = cx + 2 * ux ∧ y = cy + 2 * uy) ∨ (x = cx + ux ∧ y = cy + uy)
  · rcases hc with hc | hc
    · exact Or.inl hc
    · exact Or.inr (Or.inl hc)
  · rw [if_neg hc] at hxy
    exact Or.inr (Or.inr hxy)

theorem PushFacts.destOpen {w h : Int} {m m2 : Grid} {cx cy ux uy : Int}
    (hp : PushFacts w h m m2 cx cy ux uy) : cellAt m2 (cx + 2 * ux) (cy + 2 * uy) = 0 := by
  rw [hp.cell]; simp

theorem PushFacts.midOpen {w h : Int} {m m2 : Grid} {cx cy ux uy : Int}
    (hp : PushFacts w h m m2 cx cy ux uy) : cellAt m2 (cx + ux) (cy + uy) = 0 := by
  rw [hp.cell]; simp

/-- A push keeps every `Open` cell reachable from the start cell. -/
theorem reach_push {w h : Int} {m m2 : Grid} {cx cy ux uy : Int}
    (hp : PushFacts w h m m2 cx cy ux uy)
    (hr : ∀ x y, cellAt m x y = 0 → Reachable m (x, y)) :
    ∀ x y, cellAt m2 x y = 0 → Reachable m2 (x, y) := by
  have hcur : Reachable m2 (cx, cy) := (hr cx cy hp.curOpen).mono_grid hp.keepsOpen
  have hmid : Reachable m2 (cx + ux, cy + uy) := by
    refine Relation.ReflTransGen.tail hcur ⟨?_, hp.keepsOpen _ _ hp.curOpen, hp.midOpen⟩
    have := hp.dir
    unfold Adj4
    simp only
    omega
  have hdest : Reachable m2 (cx + 2 * ux, cy + 2 * uy) := by
    refine Relation.ReflTransGen.tail hmid ⟨?_, hp.midOpen, hp.destOpen⟩
    have := hp.dir
    unfold Adj4
    simp only
    omega
  intro x y hxy
  rcases hp.inv x y hxy with hc | hc | hc
  · rw [hc.1, hc.2]; exact hdest
  · rw [hc.1, hc.2]; exact hmid
  · exact (hr x y hc).mono_grid hp.keepsOpen

/-- A push creates no cycle: the new lattice cell hangs on the new connecting cell alone, and
the new connecting cell joins it to the stack top alone. -/
theorem acyclic_push {w h : Int} {m m2 : Grid} {cx cy ux uy : Int} {stack : List (Int × Int)}
    (hi : CarveInv w h m stack)
    (hp : PushFacts w h m m2 cx cy ux uy)
    (hac : ∀ l, ¬ IsCycle m l) : ∀ l, ¬ IsCycle m2 l := by
  intro l hl
  have hdir := hp.dir
  have hodd := hp.curOdd
  have hopen2 : ∀ c ∈ l, cellAt m2 c.1 c.2 = 0 := hl.2.2.1
  by_cases hdest : (cx + 2 * ux, cy + 2 * uy) ∈ l
  · -- the new lattice cell has the connecting cell as its only open neighbour
    have honly : ∀ c ∈ l, Adj4 (cx + 2 * ux, cy + 2 * uy) c → c = (cx + ux, cy + uy) := by
      rintro ⟨x, y⟩ hc hadj
      unfold Adj4 at hadj
      simp only at hadj
      rcases hp.inv x y (hopen2 _ hc) with h1 | h1 | h1
      · omega
      · rw [h1.1, h1.2]
      · exfalso
        have hw := hp.destWall
        by_cases hy : y % 2 = 0
        · obtain ⟨e1, e2⟩ := hi.vconn x y h1 hy
          have hx : x = cx + 2 * ux := by omega
          rcases (by omega : y - 1 = cy + 2 * uy ∨ y + 1 = cy + 2 * uy) with e | e
          · rw [hx, e] at e1; omega
          · rw [hx, e] at e2; omega
        · have hx2 : x % 2 = 0 := by omega
          obtain ⟨e1, e2⟩ := hi.hconn x y h1 hx2
          have hy' : y = cy + 2 * uy := by omega
          rcases (by omega : x - 1 = cx + 2 * ux ∨ x + 1 = cx + 2 * ux) with e | e
          · rw [hy', e] at e1; omega
          · rw [hy', e] at e2; omega
    obtain ⟨a, b, ha, hb, hab, haa, hbb⟩ := hl.two_neighbors hdest
    exact hab ((honly a ha haa).trans (honly b hb hbb).symm)
  · by_cases hmid : (cx + ux, cy + uy) ∈ l
    · have honly : ∀ c ∈ l, Adj4 (cx + ux, cy + uy) c → c = (cx, cy) := by
        rintro ⟨x, y⟩ hc hadj
        unfold Adj4 at hadj
        simp only at hadj
        rcases hp.inv x y (hopen2 _ hc) with h1 | h1 | h1
        · exfalso
          rw [h1.1, h1.2] at hc
          exact hdest hc
        · omega
        · have hpar := hi.parity x y h1
          have hw := hp.destWall
          by_cases hd : x = cx + 2 * ux ∧ y = cy + 2 * uy
          · rw [hd.1, hd.2] at h1; omega
          · have hx : x = cx := by omega
            have hy : y = cy := by omega
            rw [hx, hy]
      obtain ⟨a, b, ha, hb, hab, haa, hbb⟩ := hl.two_neighbors hmid
      exact hab ((honly a ha haa).trans (honly b hb hbb).symm)
    · refine hac l ⟨hl.1, hl.2.1, ?_, hl.2.2.2⟩
      rintro ⟨x, y⟩ hc
      rcases hp.inv x y (hopen2 _ hc) with h1 | h1 | h1
      · exfalso; rw [h1.1, h1.2] at hc; exact hdest hc
      · exfalso; rw [h1.1, h1.2] at hc; exact hmid hc
      · exact h1

/-! ## The carving loop: invariant and termination -/

theorem MazeInv.atStart {w h : Int} (hw : 3 ≤ w) (hh : 3 ≤ h) :
    MazeInv w h (setCell (wallGrid w h) 1 1 0) [(1, 1)] := by
  refine ⟨CarveInv.atLoopEntry hw hh, ?_, ?_, ?_⟩
  rotate_left 2
  · have h1 : openConnectors w h (setCell (wallGrid w h) 1 1 0) = ∅ := by
      ext c
      simp only [openConnectors, Finset.mem_filter, Finset.not_mem_empty, iff_false, not_and]
      intro _ hodd hc
      have := startGrid_open hw hh hc
      omega
    have h2 : openLattice w h (setCell (wallGrid w h) 1 1 0) = {(1, 1)} := by
      ext c
      obtain ⟨x, y⟩ := c
      simp only [openLattice, Finset.mem_filter, Finset.mem_product, Finset.mem_Icc,
        Finset.mem_singleton, Prod.mk.injEq]
      constructor
      · intro hc
        exact startGrid_open hw hh hc.2.2
      · rintro ⟨rfl, rfl⟩
        refine ⟨⟨by omega, by omega⟩, by decide, ?_⟩
        rw [cellAt_startGrid hw hh]; simp
    rw [h1, h2]; rfl
  · intro x y hxy
    obtain ⟨rfl, rfl⟩ := startGrid_open hw hh hxy
    exact Relation.ReflTransGen.refl
  · intro l hl
    obtain ⟨hlen, hnd, hop, -⟩ := hl
    -- a cycle has three distinct cells, the start grid a single open one
    match l, hlen, hnd, hop with
    | a :: b :: _, _, hnd, hop =>
      have ha := startGrid_open hw hh (hop a (by simp))
      have hb := startGrid_open hw hh (hop b (by simp))
      have hab : a = b := Prod.ext (ha.1.trans hb.1.symm) (ha.2.trans hb.2.symm)
      rw [hab] at hnd
      simp at hnd

theorem PushFacts.of_step {w h : Int} {m : Grid} {cx cy : Int} {rest : List (Int × Int)}
    (hi : CarveInv w h m ((cx, cy) :: rest)) {u : Int × Int} (hu : UnitDir u)
    (hdx : 0 < cx + 2 * u.1 ∧ cx + 2 * u.1 < w - 1) (hdy : 0 < cy + 2 * u.2 ∧ cy + 2 * u.2 < h - 1)
    (hwall : cellAt m (cx + 2 * u.1) (cy + 2 * u.2) = 1) :
    PushFacts w h m (setCell (setCell m (cx + u.1) (cy + u.2) 0) (cx + 2 * u.1) (cy + 2 * u.2) 0)
      cx cy u.1 u.2 := by
  have hcur := hi.stack (cx, cy) (List.mem_cons_self _ _)
  have hcint := hi.interior cx cy hcur.1
  exact ⟨hu.cases, hcur.1, hcur.2, hwall,
    cellAt_push hi.dims ⟨hcint.1, hcint.2.1⟩ ⟨hcint.2.2.1, hcint.2.2.2⟩ hdx hdy⟩

/-- A push opens exactly one new lattice cell and exactly one new connecting cell. -/
theorem count_push {w h : Int} {m m2 : Grid} {cx cy ux uy : Int} {stack : List (Int × Int)}
    (hi : CarveInv w h m stack) (hp : PushFacts w h m m2 cx cy ux uy)
    (hdx : 0 < cx + 2 * ux ∧ cx + 2 * ux < w - 1) (hdy : 0 < cy + 2 * uy ∧ cy + 2 * uy < h - 1)
    (hc : (openConnectors w h m).card + 1 = (openLattice w h m).card) :
    (openConnectors w h m2).card + 1 = (openLattice w h m2).card := by
  have hdir := hp.dir
  have hodd := hp.curOdd
  have hw := hp.destWall
  have hcint := hi.interior cx cy hp.curOpen
  have hmidWall : cellAt m (cx + ux) (cy + uy) ≠ 0 := by
    intro h0
    by_cases hy : (cy + uy) % 2 = 0
    · obtain ⟨e1, e2⟩ := hi.vconn _ _ h0 hy
      have hx : cx + ux = cx + 2 * ux := by omega
      rcases (by omega : cy + uy - 1 = cy + 2 * uy ∨ cy + uy + 1 = cy + 2 * uy) with e | e
      · rw [hx, e] at e1; omega
      · rw [hx, e] at e2; omega
    · have hx2 : (cx + ux) % 2 = 0 := by omega
      obtain ⟨e1, e2⟩ := hi.hconn _ _ h0 hx2
      have hy' : cy + uy = cy + 2 * uy := by omega
      rcases (by omega : cx + ux - 1 = cx + 2 * ux ∨ cx + ux + 1 = cx + 2 * ux) with e | e
      · rw [hy', e] at e1; omega
      · rw [hy', e] at e2; omega
  have hL : openLattice w h m2 = insert (cx + 2 * ux, cy + 2 * uy) (openLattice w h m) := by
    ext c
    obtain ⟨x, y⟩ := c
    simp only [openLattice, Finset.mem_filter, Finset.mem_product, Finset.mem_Icc,
      Finset.mem_insert, Prod.mk.injEq]
    constructor
    · rintro ⟨hb, hpar, h0⟩
      rcases hp.inv x y h0 with h1 | h1 | h1
      · exact Or.inl h1
      · omega
      · exact Or.inr ⟨hb, hpar, h1⟩
    · rintro (⟨rfl, rfl⟩ | ⟨hb, hpar, h0⟩)
      · exact ⟨⟨⟨by omega, by omega⟩, by omega, by omega⟩, ⟨by omega, by omega⟩, hp.destOpen⟩
      · exact ⟨hb, hpar, hp.keepsOpen _ _ h0⟩
  have hC : openConnectors w h m2 = insert (cx + ux, cy + uy) (openConnectors w h m) := by
    ext c
    obtain ⟨x, y⟩ := c
    simp only [openConnectors, Finset.mem_filter, Finset.mem_product, Finset.mem_Icc,
      Finset.mem_insert, Prod.mk.injEq]
    constructor
    · rintro ⟨hb, hpar, h0⟩
      rcases hp.inv x y h0 with h1 | h1 | h1
      · omega
      · exact Or.inl h1
      · exact Or.inr ⟨hb, hpar, h1⟩
    · rintro (⟨rfl, rfl⟩ | ⟨hb, hpar, h0⟩)
      · exact ⟨⟨⟨by omega, by omega⟩, by omega, by omega⟩, by omega, hp.midOpen⟩
      · exact ⟨hb, hpar, hp.keepsOpen _ _ h0⟩
  have hLn : (cx + 2 * ux, cy + 2 * uy) ∉ openLattice w h m := by
    simp only [openLattice, Finset.mem_filter, not_and]
    intro _ _
    omega
  have hCn : (cx + ux, cy + uy) ∉ openConnectors w h m := by
    simp only [openConnectors, Finset.mem_filter, not_and]
    intro _ _
    exact hmidWall
  rw [hL, hC, Finset.card_insert_of_not_mem hLn, Finset.card_insert_of_not_mem hCn]
  omega

/-- One loop iteration keeps the invariant and lowers the measure. -/
theorem carveStep_spec {w h : Int} (r : Nat) {m : Grid} {c : Int × Int} {rest : List (Int × Int)}
    (hi : MazeInv w h m (c :: rest)) :
    MazeInv w h (carveStep w h r m (c :: rest)).1 (carveStep w h r m (c :: rest)).2 ∧
    carveMeasure w h (carveStep w h r m (c :: rest)).1 (carveStep w h r m (c :: rest)).2 <
      carveMeasure w h m (c :: rest) := by
  obtain ⟨cx, cy⟩ := c
  rcases carveStep_cases w h r m cx cy rest with ⟨-, hstep⟩ | ⟨u, hu, h1, h2, h3, h4, hwall, hstep⟩
  · rw [hstep]
    refine ⟨⟨hi.shape.pop, hi.reach, hi.acyclic, hi.count⟩, ?_⟩
    simp [carveMeasure]
  · rw [hstep]
    have hp := PushFacts.of_step hi.shape hu ⟨h1, h2⟩ ⟨h3, h4⟩ hwall
    refine ⟨⟨hi.shape.push hu ⟨h1, h2⟩ ⟨h3, h4⟩, reach_push hp hi.reach,
      acyclic_push hi.shape hp hi.acyclic, count_push hi.shape hp ⟨h1, h2⟩ ⟨h3, h4⟩ hi.count⟩, ?_⟩
    have hsub : latticeWalls w h
        (setCell (setCell m (cx + u.1) (cy + u.2) 0) (cx + 2 * u.1) (cy + 2 * u.2) 0) ⊂
        latticeWalls w h m := by
      rw [Finset.ssubset_iff_of_subset]
      · refine ⟨(cx + 2 * u.1, cy + 2 * u.2), ?_, ?_⟩
        · have hodd := hp.curOdd
          simp only [latticeWalls, Finset.mem_filter, Finset.mem_product, Finset.mem_Icc]
          refine ⟨⟨by omega, by omega⟩, by omega, by omega, hwall⟩
        · simp only [latticeWalls, Finset.mem_filter, not_and]
          intro _ _ _
          rw [hp.destOpen]
          decide
      · intro p hpm
        simp only [latticeWalls, Finset.mem_filter] at hpm ⊢
        refine ⟨hpm.1, hpm.2.1, hpm.2.2.1, ?_⟩
        have h5 := hpm.2.2.2
        rw [hp.cell] at h5
        split at h5
        · omega
        · exact h5
    have hcard := Finset.card_lt_card hsub
    simp only [carveMeasure, List.length_cons]
    omega

/-- With fuel at least the measure, the loop finishes, and the invariant holds at exit. -/
theorem carveLoop_total (w h : Int) (rng : Nat → Nat) :
    ∀ (fuel k : Nat) (m : Grid) (stack : List (Int × Int)), MazeInv w h m stack →
      carveMeasure w h m stack ≤ fuel →
      ∃ m2 k2, carveLoop w h rng fuel k m stack = some (m2, k2) ∧ MazeInv w h m2 [] := by
  intro fuel
  induction fuel with
  | zero =>
    intro k m stack hi hm
    cases stack with
    | nil => exact ⟨m, k, by simp [carveLoop], hi⟩
    | cons c rest => simp [carveMeasure] at hm
  | succ f ih =>
    intro k m stack hi hm
    cases stack with
    | nil => exact ⟨m, k, by simp [carveLoop], hi⟩
    | cons c rest =>
      obtain ⟨hinv, hlt⟩ := carveStep_spec (rng k) hi
      simp only [carveLoop]
      exact ih (k + 1) _ _ hinv (by omega)

/-- Whenever the loop finishes, the invariant holds at exit. -/
theorem carveLoop_inv (w h : Int) (rng : Nat → Nat) :
    ∀ (fuel k : Nat) (m : Grid) (stack : List (Int × Int)) (m2 : Grid) (k2 : Nat),
      MazeInv w h m stack → carveLoop w h rng fuel k m stack = some (m2, k2) →
      MazeInv w h m2 [] := by
  intro fuel
  induction fuel with
  | zero =>
    intro k m stack m2 k2 hi hrun
    cases stack with
    | nil =>
      simp only [carveLoop, Option.some.injEq, Prod.mk.injEq] at hrun
      rw [← hrun.1]; exact hi
    | cons c rest => simp [carveLoop] at hrun
  | succ f ih =>
    intro k m stack m2 k2 hi hrun
    cases stack with
    | nil =>
      simp only [carveLoop, Option.some.injEq, Prod.mk.injEq] at hrun
      rw [← hrun.1]; exact hi
    | cons c rest =>
      simp only [carveLoop] at hrun
      exact ih (k + 1) _ _ m2 k2 (carveStep_spec (rng k) hi).1 hrun

/-- The carving part of `GenerateMaze` finishes for large enough fuel. -/
theorem carveMaze_total {w h : Int} (hw : 3 ≤ w) (hh : 3 ≤ h) (rng : Nat → Nat) :
    ∃ fuel m k, carveMaze w h rng fuel = some (m, k) := by
  obtain ⟨m2, k2, hrun, -⟩ := carveLoop_total w h rng _ 0 _ _ (MazeInv.atStart hw hh) (le_refl _)
  exact ⟨_, m2, k2, hrun⟩

/-- The invariant holds for the grid the carving part of `GenerateMaze` returns. -/
theorem carveMaze_inv {w h : Int} (hw : 3 ≤ w) (hh : 3 ≤ h) {rng : Nat → Nat} {fuel : Nat}
    {m : Grid} {k : Nat} (hrun : carveMaze w h rng fuel = some (m, k)) : MazeInv w h m [] :=
  carveLoop_inv w h rng fuel 0 _ _ m k (MazeInv.atStart hw hh) hrun

/-! ## Claims C1 and C2: the maze is a spanning tree of its `Open` cells -/

/-- C1: for every odd width and height of at least 5 and every sequence of random neighbour
choices, the carving loop of `GenerateMaze` finishes, and in the grid it leaves every `Open`
cell (value 0) is reachable from the start cell `(1,1)` by a path of 4-adjacent `Open`
cells. -/
theorem C1_open_cells_reachable (w h : Int) (hw : 5 ≤ w) (hh : 5 ≤ h)
    (hwo : w % 2 = 1) (hho : h % 2 = 1) (rng : Nat → Nat) :
    (∃ fuel m k, carveMaze w h rng fuel = some (m, k)) ∧
    ∀ fuel m k, carveMaze w h rng fuel = some (m, k) →
      ∀ x y, 0 ≤ x → x < w → 0 ≤ y → y < h → cellAt m x y = 0 → Reachable m (x, y) := by
  refine ⟨carveMaze_total (by omega) (by omega) rng, ?_⟩
  intro fuel m k hrun x y _ _ _ _ hxy
  exact (carveMaze_inv (by omega) (by omega) hrun).reach x y hxy

/-- Instance of C1 on the 5 by 5 maze with every random draw equal to 0. -/
theorem C1_open_cells_reachable_witness :
    (∃ fuel m k, carveMaze 5 5 (fun _ => 0) fuel = some (m, k)) ∧
    ∀ fuel m k, carveMaze 5 5 (fun _ => 0) fuel = some (m, k) →
      ∀ x y, 0 ≤ x → x < 5 → 0 ≤ y → y < 5 → cellAt m x y = 0 → Reachable m (x, y) :=
  C1_open_cells_reachable 5 5 (by decide) (by decide) (by decide) (by decide) (fun _ => 0)

/-- C2: for every odd width and height of at least 5 and every sequence of random neighbour
choices, the carving loop of `GenerateMaze` finishes, and the `Open` cells it leaves form a
tree under 4-adjacency: the graph of `Open` cells has no cycle (and is connected, every
`Open` cell being joined to the start cell), and the number of `Open` connecting cells equals
the number of `Open` lattice cells minus one. -/
theorem C2_open_cells_acyclic (w h : Int) (hw : 5 ≤ w) (hh : 5 ≤ h)
    (hwo : w % 2 = 1) (hho : h % 2 = 1) (rng : Nat → Nat) :
    (∃ fuel m k, carveMaze w h rng fuel = some (m, k)) ∧
    ∀ fuel m k, carveMaze w h rng fuel = some (m, k) →
      (∀ l, ¬ IsCycle m l) ∧
      (∀ x y, cellAt m x y = 0 → Reachable m (x, y)) ∧
      (openConnectors w h m).card + 1 = (openLattice w h m).card := by
  refine ⟨carveMaze_total (by omega) (by omega) rng, ?_⟩
  intro fuel m k hrun
  have hinv : MazeInv w h m [] := carveMaze_inv (by omega) (by omega) hrun
  exact ⟨hinv.acyclic, hinv.reach, hinv.count⟩

/-- Instance of C2 on the 5 by 5 maze with every random draw equal to 0. -/
theorem C2_open_cells_acyclic_witness :
    (∃ fuel m k, carveMaze 5 5 (fun _ => 0) fuel = some (m, k)) ∧
    ∀ fuel m k, carveMaze 5 5 (fun _ => 0) fuel = some (m, k) →
      (∀ l, ¬ IsCycle m l) ∧
      (∀ x y, cellAt m x y = 0 → Reachable m (x, y)) ∧
      (openConnectors 5 5 m).card + 1 = (openLattice 5 5 m).card :=
  C2_open_cells_acyclic 5 5 (by decide) (by decide) (by decide) (by decide) (fun _ => 0)

/-! ## Player separation -/

/-- The move of player 0: the other player is untouched, and every committed axis move passed
the distance test against the other player. -/
theorem movePlayer_zero_shape (dt : ℚ) (s : GameServer) :
    ∃ x2 y2 : ℚ,
      movePlayer dt 0 s = { s with player0 := { s.player0 with x := x2, y := y2 } } ∧
      (x2 = s.player0.x ∨ tooClose x2 s.player0.y s.player1 = false) ∧
      (y2 = s.player0.y ∨ tooClose x2 y2 s.player1 = false) := by
  unfold movePlayer
  simp only [GameServer.getPlayer, GameServer.setPlayer, if_true, CheckPlayerCollision]
  simp only [show ((1 : Int) = 0) = False from by simp, if_false, Bool.false_or, if_true]
  split
  · rename_i hx
    rw [Bool.and_eq_true, Bool.not_eq_true', Bool.not_eq_true'] at hx
    split
    · rename_i hy
      rw [Bool.and_eq_true, Bool.not_eq_true', Bool.not_eq_true'] at hy
      exact ⟨_, _, rfl, Or.inr hx.2, Or.inr hy.2⟩
    · exact ⟨_, _, rfl, Or.inr hx.2, Or.inl rfl⟩
  · split
    · rename_i hy
      rw [Bool.and_eq_true, Bool.not_eq_true', Bool.not_eq_true'] at hy
      exact ⟨_, _, rfl, Or.inl rfl, Or.inr hy.2⟩
    · exact ⟨_, _, rfl, Or.inl rfl, Or.inl rfl⟩

/-- The move of player 1, as `movePlayer_zero_shape`. -/
theorem movePlayer_one_shape (dt : ℚ) (s : GameServer) :
    ∃ x2 y2 : ℚ,
      movePlayer dt 1 s = { s with player1 := { s.player1 with x := x2, y := y2 } } ∧
      (x2 = s.player1.x ∨ tooClose x2 s.player1.y s.player0 = false) ∧
      (y2 = s.player1.y ∨ tooClose x2 y2 s.player0 = false) := by
  unfold movePlayer
  simp only [GameServer.getPlayer, GameServer.setPlayer, CheckPlayerCollision]
  simp only [show ((1 : Int) = 0) = False from by simp, show ((0 : Int) = 1) = False from by simp,
    if_false, Bool.or_false, if_true]
  split
  · rename_i hx
    rw [Bool.and_eq_true, Bool.not_eq_true', Bool.not_eq_true'] at hx
    split
    · rename_i hy
      rw [Bool.and_eq_true, Bool.not_eq_true', Bool.not_eq_true'] at hy
      exact ⟨_, _, rfl, Or.inr hx.2, Or.inr hy.2⟩
    · exact ⟨_, _, rfl, Or.inr hx.2, Or.inl rfl⟩
  · split
    · rename_i hy
      rw [Bool.and_eq_true, Bool.not_eq_true', Bool.not_eq_true'] at hy
      exact ⟨_, _, rfl, Or.inl rfl, Or.inr hy.2⟩
    · exact ⟨_, _, rfl, Or.inl rfl, Or.inl rfl⟩

set_option maxRecDepth 100000 in
theorem zeroDrawServer_eq : newServer 21 21 (fun _ => 0) 400 = some zeroDrawServer := by
  decide!

/-! ## Claim C4: player separation -/

theorem corner_in_footprint (s : GameServer) (p : Player)
    (h : IsWall s (p.x - 3 / 10) (p.y + 3 / 10) = true) : FootprintInWall s p := by
  have habs : |(3 : ℚ) / 10| = 3 / 10 := abs_of_nonneg (by norm_num)
  refine ⟨p.x - 3 / 10, p.y + 3 / 10, ?_, ?_, h⟩
  · rw [sub_sub_cancel_left, abs_neg, habs]
    norm_num [PLAYER_SIZE]
  · rw [add_sub_cancel_left, habs]
    norm_num [PLAYER_SIZE]

set_option maxRecDepth 100000 in
/-- C3 fails on the code: on the maze generated from `cornerRng`, after the 26 ticks of
`cornerTicks` player 0 stands at `(3.1, 1.98)` and the lower left corner of its footprint,
`(2.8, 2.28)`, lies in the `Wall` cell `(2,2)`: `UpdatePhysics` probes only the two points
on the axis of motion through the centre, never the corners of the square. -/
theorem C3_footprint_enters_wall :
    newServer 21 21 cornerRng 400 = some cornerServer ∧
    (runPhysics cornerTicks cornerServer).player0.x = 31 / 10 ∧
    (runPhysics cornerTicks cornerServer).player0.y = 99 / 50 ∧
    cellAt cornerServer.maze 2 2 = 1 ∧
    FootprintInWall (runPhysics cornerTicks cornerServer)
      (runPhysics cornerTicks cornerServer).player0 := by
  have h : newServer 21 21 cornerRng 400 = some cornerServer ∧
      (runPhysics cornerTicks cornerServer).player0.x = 31 / 10 ∧
      (runPhysics cornerTicks cornerServer).player0.y = 99 / 50 ∧
      cellAt cornerServer.maze 2 2 = 1 ∧
      IsWall (runPhysics cornerTicks cornerServer)
        ((runPhysics cornerTicks cornerServer).player0.x - 3 / 10)
        ((runPhysics cornerTicks cornerServer).player0.y + 3 / 10) = true := by
    decide!
  exact ⟨h.1, h.2.1, h.2.2.1, h.2.2.2.1, corner_in_footprint _ _ h.2.2.2.2⟩

/-! ## Delay queues -/

/-- The dequeue loop delivers the longest prefix of arrived messages, front first, and leaves
the rest of the queue. -/
theorem drainLoop_eq {σ : Type} (deliver : DelayedMessage → σ → σ) (now : Int) :
    ∀ (q : List DelayedMessage) (s : σ),
      drainLoop deliver now q s =
        (q.dropWhile (fun m => decide (now ≥ m.deliveryTime)),
          (q.takeWhile (fun m => decide (now ≥ m.deliveryTime))).foldl (fun s m => deliver m s) s) := by
  intro q
  induction q with
  | nil => intro s; rfl
  | cons msg rest ih =>
    intro s
    by_cases h : now ≥ msg.deliveryTime
    · simp only [drainLoop, h, if_true, List.dropWhile_cons, List.takeWhile_cons, decide_True,
        List.foldl_cons]
      exact ih _
    · simp only [drainLoop, h, if_false, List.dropWhile_cons, List.takeWhile_cons, decide_False,
        List.foldl_nil]
      simp

theorem foldl_logDelivery (l log : List DelayedMessage) :
    l.foldl (fun s m => logDelivery m s) log = log ++ l := by
  induction l generalizing log with
  | nil => simp
  | cons a l ih =>
    simp only [List.foldl_cons]
    rw [ih]
    simp [logDelivery]

/-- A drain moves a prefix of the queue to the end of the delivery log. -/
theorem drainLoop_log (now : Int) (q log : List DelayedMessage) :
    (drainLoop logDelivery now q log).2 ++ (drainLoop logDelivery now q log).1 = log ++ q := by
  rw [drainLoop_eq, foldl_logDelivery]
  simp

theorem runQueue_conserves (ops : List QueueOp) :
    ∀ st : List DelayedMessage × List DelayedMessage,
      (runQueue ops st).2 ++ (runQueue ops st).1 = st.2 ++ st.1 ++ enqueuedBy ops := by
  induction ops with
  | nil => intro st; simp [runQueue, enqueuedBy]
  | cons op ops ih =>
    intro st
    cases op with
    | enqueue data playerId now =>
      simp only [runQueue, enqueuedBy]
      rw [ih]
      simp [pushDelayed]
    | drain now =>
      simp only [runQueue, enqueuedBy]
      rw [ih, drainLoop_log]

/-! ## Claim C5: delay queues preserve order -/

/-- C5: for every interleaving of enqueue operations and drain calls on a delay queue that
starts empty, at arbitrary clock readings (in particular non-decreasing ones), the messages
delivered so far followed by the messages still queued are exactly the enqueued messages
`m1..mk` in enqueue order; hence the concatenation of all drained outputs is a prefix of
`m1..mk`: nothing is dropped, duplicated or delivered before an earlier-enqueued message. -/
theorem C5_delay_queue_preserves_order (ops : List QueueOp) :
    (runQueue ops ([], [])).2 ++ (runQueue ops ([], [])).1 = enqueuedBy ops ∧
    (runQueue ops ([], [])).2 <+: enqueuedBy ops := by
  have h := runQueue_conserves ops ([], [])
  simp only [List.append_nil, List.nil_append] at h
  exact ⟨h, ⟨_, h⟩⟩

/-! ## Claim C6: delay queue timing -/

/-- On a queue ordered by delivery time, the arrived prefix is the set of all arrived
messages. -/
theorem sorted_takeWhile_dropWhile (now : Int) :
    ∀ q : List DelayedMessage, QueueSorted q →
      q.takeWhile (fun m => decide (now ≥ m.deliveryTime)) =
        q.filter (fun m => decide (m.deliveryTime ≤ now)) ∧
      q.dropWhile (fun m => decide (now ≥ m.deliveryTime)) =
        q.filter (fun m => decide (now < m.deliveryTime)) := by
  intro q
  induction q with
  | nil => intro _; simp
  | cons m rest ih =>
    intro hs
    obtain ⟨hhead, htail⟩ := List.pairwise_cons.mp hs
    obtain ⟨ih1, ih2⟩ := ih htail
    by_cases h : now ≥ m.deliveryTime
    · have h2 : ¬ now < m.deliveryTime := by omega
      have h3 : m.deliveryTime ≤ now := h
      simp only [List.takeWhile_cons, List.dropWhile_cons, List.filter_cons, h, h2, h3,
        decide_True, decide_False, if_true]
      exact ⟨by rw [ih1], by simpa using ih2⟩
    · have h2 : now < m.deliveryTime := by omega
      have h3 : ¬ m.deliveryTime ≤ now := by omega
      have hnone : rest.filter (fun m => decide (m.deliveryTime ≤ now)) = [] := by
        rw [List.filter_eq_nil_iff]
        intro a ha
        have := hhead a ha
        simp only [decide_eq_true_eq]
        omega
      have hall : rest.filter (fun m => decide (now < m.deliveryTime)) = rest := by
        rw [List.filter_eq_self]
        intro a ha
        have := hhead a ha
        simp only [decide_eq_true_eq]
        omega
      simp only [List.takeWhile_cons, List.dropWhile_cons, List.filter_cons, h, h2, h3,
        decide_True, decide_False, if_true]
      simp [hnone, hall]

theorem runQueue_sorted (ops : List QueueOp) :
    ∀ (st : List DelayedMessage × List DelayedMessage) (lo : Int),
      (enqueueTimes ops).Pairwise (· ≤ ·) → (∀ t ∈ enqueueTimes ops, lo ≤ t) →
      QueueSorted st.1 → (∀ m ∈ st.1, m.deliveryTime ≤ lo + latency) →
      QueueSorted (runQueue ops st).1 := by
  induction ops with
  | nil => intro st lo _ _ hs _; exact hs
  | cons op ops ih =>
    intro st lo hmono hlo hs hb
    cases op with
    | enqueue data playerId now =>
      simp only [enqueueTimes, List.pairwise_cons, List.mem_cons, forall_eq_or_imp] at hmono hlo
      simp only [runQueue]
      refine ih _ now hmono.2 hmono.1 ?_ ?_
      · simp only [pushDelayed, QueueSorted]
        rw [List.pairwise_append]
        refine ⟨hs, List.pairwise_singleton _ _, ?_⟩
        intro a ha b hb2
        rw [List.mem_singleton] at hb2
        subst hb2
        have := hb a ha
        simp only
        omega
      · intro m hm
        simp only [pushDelayed, List.mem_append, List.mem_singleton] at hm
        rcases hm with hm | rfl
        · have := hb m hm
          omega
        · simp
    | drain now =>
      simp only [enqueueTimes] at hmono hlo
      simp only [runQueue]
      have hq : (drainLoop logDelivery now st.1 st.2).1 =
          st.1.dropWhile (fun m => decide (now ≥ m.deliveryTime)) := by rw [drainLoop_eq]
      refine ih _ lo hmono hlo ?_ ?_
      · rw [hq]
        exact List.Pairwise.sublist (List.dropWhile_sublist _) hs
      · intro m hm
        rw [hq] at hm
        exact hb m ((List.dropWhile_sublist _).subset hm)

theorem enqueuedBy_time (ops : List QueueOp) :
    ∀ m ∈ enqueuedBy ops, ∃ T ∈ enqueueTimes ops, m.deliveryTime = T + latency := by
  induction ops with
  | nil => intro m hm; simp [enqueuedBy] at hm
  | cons op ops ih =>
    intro m hm
    cases op with
    | enqueue data playerId now =>
      simp only [enqueuedBy, List.mem_cons] at hm
      rcases hm with rfl | hm
      · exact ⟨now, by simp [enqueueTimes], rfl⟩
      · obtain ⟨T, hT, he⟩ := ih m hm
        exact ⟨T, by simp [enqueueTimes, hT], he⟩
    | drain now =>
      simp only [enqueuedBy] at hm
      obtain ⟨T, hT, he⟩ := ih m hm
      exact ⟨T, by simpa [enqueueTimes] using hT, he⟩

/-- C6: let a delay queue be filled at non-decreasing enqueue times (drains interleaved at
arbitrary times).  Every queued message was enqueued at some time `T` and carries
`deliveryTime = T + LATENCY`, and a drain call at clock reading `now` delivers exactly the
queued messages with `T + LATENCY ≤ now` and keeps exactly those with `now < T + LATENCY`:
no message is delivered before `T + LATENCY`, and each is delivered by the first drain call
whose `now` is at least `T + LATENCY`. -/
theorem C6_delay_queue_timing (ops : List QueueOp)
    (hmono : (enqueueTimes ops).Pairwise (· ≤ ·)) (now : Int) :
    (∀ m ∈ (runQueue ops ([], [])).1, ∃ T ∈ enqueueTimes ops, m.deliveryTime = T + latency) ∧
    (drainLoop logDelivery now (runQueue ops ([], [])).1 []).2 =
      (runQueue ops ([], [])).1.filter (fun m => decide (m.deliveryTime ≤ now)) ∧
    (drainLoop logDelivery now (runQueue ops ([], [])).1 []).1 =
      (runQueue ops ([], [])).1.filter (fun m => decide (now < m.deliveryTime)) := by
  have hsorted : QueueSorted (runQueue ops ([], [])).1 := by
    cases hops : enqueueTimes ops with
    | nil =>
      exact runQueue_sorted ops ([], []) 0 hmono (by simp [hops]) List.Pairwise.nil (by simp)
    | cons t ts =>
      refine runQueue_sorted ops ([], []) t hmono ?_ List.Pairwise.nil (by simp)
      rw [hops] at hmono ⊢
      intro u hu
      rcases List.mem_cons.mp hu with rfl | hu
      · exact le_refl _
      · exact (List.pairwise_cons.mp hmono).1 u hu
  obtain ⟨h1, h2⟩ := sorted_takeWhile_dropWhile now _ hsorted
  refine ⟨?_, ?_, ?_⟩
  · intro m hm
    refine enqueuedBy_time ops m ?_
    have hc := runQueue_conserves ops ([], [])
    simp only [List.append_nil, List.nil_append] at hc
    rw [← hc]
    exact List.mem_append_right _ hm
  · rw [drainLoop_eq, foldl_logDelivery, List.nil_append, h1]
  · rw [drainLoop_eq, h2]

/-- Instance of C6 on `sampleOps` and a drain at 203 ms: the first message (due at 200 ms)
is delivered, the other two (due at 205 ms and 207 ms) stay queued. -/
theorem C6_delay_queue_timing_witness :
    (enqueueTimes sampleOps).Pairwise (· ≤ ·) ∧
    (∀ m ∈ (runQueue sampleOps ([], [])).1,
      ∃ T ∈ enqueueTimes sampleOps, m.deliveryTime = T + latency) ∧
    (drainLoop logDelivery 203000000 (runQueue sampleOps ([], [])).1 []).2 =
      (runQueue sampleOps ([], [])).1.filter (fun m => decide (m.deliveryTime ≤ 203000000)) ∧
    (drainLoop logDelivery 203000000 (runQueue sampleOps ([], [])).1 []).1 =
      (runQueue sampleOps ([], [])).1.filter (fun m => decide (203000000 < m.deliveryTime)) :=
  ⟨by decide, C6_delay_queue_timing sampleOps (by decide) 203000000⟩

/-! ## Item pickup -/

theorem countActive_cons (d : Diamond) (ds : List Diamond) :
    countActive (d :: ds) = (if d.active then 1 else 0) + countActive ds := by
  unfold countActive
  rw [List.filter_cons]
  split <;> simp [Nat.add_comm]

/-- One pass of a player over the diamonds: flags only go from active to inactive, the
player's score rises by the number of diamonds the pass deactivates and nothing else of the
player changes, and the counter rises by the number of diamonds left active. -/
theorem pickupPass_spec :
    ∀ (ds : List Diamond) (p : Player) (act : Int),
      List.Forall₂ StaysInactive ds (pickupPass ds p act).1 ∧
      (∃ n : Nat, (pickupPass ds p act).2.1 = { p with score := p.score + n } ∧
        countActive (pickupPass ds p act).1 + n = countActive ds) ∧
      (pickupPass ds p act).2.2 = act + countActive (pickupPass ds p act).1 := by
  intro ds
  induction ds with
  | nil =>
    intro p act
    refine ⟨List.Forall₂.nil, ⟨0, by simp [pickupPass], rfl⟩, by simp [pickupPass, countActive]⟩
  | cons d ds ih =>
    intro p act
    by_cases hact : d.active = true
    · by_cases hin : inPickupRange p d = true
      · obtain ⟨h1, ⟨n, h2, h3⟩, h4⟩ := ih { p with score := p.score + 1 } (act + 1 - 1)
        simp only [pickupPass, hact, hin, Bool.not_true, if_true, Bool.false_eq_true, if_false]
        refine ⟨List.Forall₂.cons ⟨rfl, rfl, rfl, fun _ => rfl⟩ h1, ⟨n + 1, ?_, ?_⟩, ?_⟩
        · rw [h2]
          simp only [Player.mk.injEq, true_and, and_true]
          push_cast
          ring
        · rw [countActive_cons, countActive_cons]
          simp only [hact, if_true, Bool.false_eq_true, if_false]
          omega
        · rw [h4, countActive_cons]
          simp only [Bool.false_eq_true, if_false]
          push_cast
          ring
      · obtain ⟨h1, ⟨n, h2, h3⟩, h4⟩ := ih p (act + 1)
        simp only [pickupPass, hact, hin, Bool.not_true, if_true, Bool.false_eq_true, if_false]
        refine ⟨List.Forall₂.cons ⟨rfl, rfl, rfl, fun h => h⟩ h1, ⟨n, h2, ?_⟩, ?_⟩
        · rw [countActive_cons, countActive_cons]
          simp only [hact, if_true]
          omega
        · rw [h4, countActive_cons]
          simp only [hact, if_true]
          push_cast
          ring
    · obtain ⟨h1, ⟨n, h2, h3⟩, h4⟩ := ih p act
      have hact2 : d.active = false := by simpa using hact
      simp only [pickupPass, hact2, Bool.not_false, if_true]
      refine ⟨List.Forall₂.cons ⟨rfl, rfl, rfl, fun h => h⟩ h1, ⟨n, h2, ?_⟩, ?_⟩
      · rw [countActive_cons, countActive_cons]
        simp only [hact2, Bool.false_eq_true, if_false]
        omega
      · rw [h4, countActive_cons]
        simp only [hact2, Bool.false_eq_true, if_false]
        push_cast
        ring

theorem forall₂_staysInactive_refl (ds : List Diamond) : List.Forall₂ StaysInactive ds ds := by
  induction ds with
  | nil => exact List.Forall₂.nil
  | cons d ds ih => exact List.Forall₂.cons ⟨rfl, rfl, rfl, fun h => h⟩ ih

theorem forall₂_staysInactive_trans {a b c : List Diamond}
    (h1 : List.Forall₂ StaysInactive a b) (h2 : List.Forall₂ StaysInactive b c) :
    List.Forall₂ StaysInactive a c := by
  induction h1 generalizing c with
  | nil => cases h2; exact List.Forall₂.nil
  | cons hd _ ih =>
    cases h2 with
    | cons hd2 tl2 =>
      refine List.Forall₂.cons ⟨?_, ?_, ?_, ?_⟩ (ih tl2)
      · exact hd2.1.trans hd.1
      · exact hd2.2.1.trans hd.2.1
      · exact hd2.2.2.1.trans hd.2.2.1
      · exact fun h => hd2.2.2.2 (hd.2.2.2 h)

/-- The counter `activeDiamonds` at the end of the two passes: the diamonds left active by
player 0's pass plus the diamonds left active by player 1's pass. -/
theorem collisionPasses_counter (s : GameServer) :
    (collisionPasses s).2 =
      (countActive (pickupPass s.diamonds s.player0 0).1 : Int) +
        countActive (collisionPasses s).1.diamonds := by
  unfold collisionPasses
  simp only
  rw [(pickupPass_spec _ _ _).2.2, (pickupPass_spec s.diamonds s.player0 0).2.2]
  ring

/-- The two passes of `CheckCollisions`: flags only go from active to inactive, and every
deactivation is credited to exactly one player as one point. -/
theorem collisionPasses_spec (s : GameServer) :
    List.Forall₂ StaysInactive s.diamonds (collisionPasses s).1.diamonds ∧
    ∃ n0 n1 : Nat,
      (collisionPasses s).1.player0 = { s.player0 with score := s.player0.score + n0 } ∧
      (collisionPasses s).1.player1 = { s.player1 with score := s.player1.score + n1 } ∧
      countActive (collisionPasses s).1.diamonds + n0 + n1 = countActive s.diamonds := by
  obtain ⟨h1, ⟨n0, h2, h3⟩, -⟩ := pickupPass_spec s.diamonds s.player0 0
  obtain ⟨g1, ⟨n1, g2, g3⟩, -⟩ :=
    pickupPass_spec (pickupPass s.diamonds s.player0 0).1 s.player1
      (pickupPass s.diamonds s.player0 0).2.2
  refine ⟨forall₂_staysInactive_trans h1 g1, n0, n1, h2, g2, ?_⟩
  unfold collisionPasses
  simp only
  omega

theorem CheckCollisions_fields (s : GameServer) :
    (CheckCollisions s).diamonds = (collisionPasses s).1.diamonds ∧
    (CheckCollisions s).player0 = (collisionPasses s).1.player0 ∧
    (CheckCollisions s).player1 = (collisionPasses s).1.player1 := by
  unfold CheckCollisions SendRawToClient
  simp only
  split
  · split <;> split <;> exact ⟨rfl, rfl, rfl⟩
  · exact ⟨rfl, rfl, rfl⟩

theorem UpdatePhysics_fields (dt : ℚ) (s : GameServer) :
    (UpdatePhysics dt s).diamonds = s.diamonds ∧
    (UpdatePhysics dt s).player0.score = s.player0.score ∧
    (UpdatePhysics dt s).player1.score = s.player1.score := by
  unfold UpdatePhysics
  obtain ⟨x2, y2, he, -, -⟩ := movePlayer_zero_shape dt s
  obtain ⟨x3, y3, he1, -, -⟩ := movePlayer_one_shape dt (movePlayer dt 0 s)
  rw [he1, he]
  exact ⟨rfl, rfl, rfl⟩

/-- One tick: flags only go from active to inactive, and every deactivation is credited to
exactly one player as one point. -/
theorem gameTick_spec (t : PhysTick) (s : GameServer) :
    List.Forall₂ StaysInactive s.diamonds (gameTick t s).diamonds ∧
    ∃ n0 n1 : Nat,
      (gameTick t s).player0.score = s.player0.score + n0 ∧
      (gameTick t s).player1.score = s.player1.score + n1 ∧
      countActive (gameTick t s).diamonds + n0 + n1 = countActive s.diamonds := by
  unfold gameTick
  obtain ⟨f1, f2, f3⟩ := CheckCollisions_fields (UpdatePhysics t.dt (setInputs t s))
  obtain ⟨u1, u2, u3⟩ := UpdatePhysics_fields t.dt (setInputs t s)
  obtain ⟨c1, n0, n1, c2, c3, c4⟩ := collisionPasses_spec (UpdatePhysics t.dt (setInputs t s))
  rw [f1, f2, f3]
  rw [u1] at c1 c4
  refine ⟨c1, n0, n1, ?_, ?_, c4⟩
  · rw [c2]; simp only; rw [u2]; rfl
  · rw [c3]; simp only; rw [u3]; rfl

theorem forall₂_staysInactive_length {a b : List Diamond}
    (h : List.Forall₂ StaysInactive a b) : b.length = a.length := h.length_eq.symm

theorem gameTick_scoreInv (t : PhysTick) (s : GameServer) (h : ScoreInv s) :
    ScoreInv (gameTick t s) := by
  obtain ⟨h1, n0, n1, h2, h3, h4⟩ := gameTick_spec t s
  unfold ScoreInv at *
  rw [h2, h3, forall₂_staysInactive_length h1]
  omega

theorem runTicks_scoreInv (ticks : List PhysTick) :
    ∀ s : GameServer, ScoreInv s → ScoreInv (runTicks ticks s) := by
  induction ticks with
  | nil => intro s h; exact h
  | cons t ts ih => intro s h; exact ih _ (gameTick_scoreInv t s h)

theorem sampleOpenCell_some {w h : Int} {m : Grid} {rng : Nat → Nat} :
    ∀ (fuel k : Nat) (c : Int × Int) (k2 : Nat),
      sampleOpenCell w h m rng fuel k = some (c, k2) → cellAt m c.1 c.2 ≠ 1 := by
  intro fuel
  induction fuel with
  | zero => intro k c k2 h; simp [sampleOpenCell] at h
  | succ f ih =>
    intro k c k2 h
    simp only [sampleOpenCell] at h
    split at h
    · exact ih _ _ _ h
    · simp only [Option.some.injEq, Prod.mk.injEq] at h
      rw [← h.1]
      assumption

theorem spawnDiamonds_spec {w h : Int} {m : Grid} {rng : Nat → Nat} {fuel : Nat} :
    ∀ (n : Nat) (i : Int) (k : Nat) (acc ds : List Diamond) (k2 : Nat),
      spawnDiamonds w h m rng fuel n i k acc = some (ds, k2) →
      ds.length = acc.length + n ∧
      ((∀ d ∈ acc, d.active = true) → ∀ d ∈ ds, d.active = true) := by
  intro n
  induction n with
  | zero =>
    intro i k acc ds k2 h
    simp only [spawnDiamonds, Option.some.injEq, Prod.mk.injEq] at h
    rw [← h.1]
    exact ⟨rfl, fun ha => ha⟩
  | succ n ih =>
    intro i k acc ds k2 h
    simp only [spawnDiamonds] at h
    split at h
    · exact absurd h (by simp)
    · obtain ⟨h1, h2⟩ := ih _ _ _ _ _ h
      refine ⟨by rw [h1]; simp; omega, ?_⟩
      intro ha
      apply h2
      intro d hd
      rcases List.mem_append.mp hd with hd | hd
      · exact ha d hd
      · rw [List.mem_singleton] at hd
        rw [hd]

theorem countActive_all {ds : List Diamond} (h : ∀ d ∈ ds, d.active = true) :
    countActive ds = ds.length := by
  unfold countActive
  rw [List.filter_eq_self.mpr h]

/-- A freshly constructed server has 15 items, all active, and both scores zero. -/
theorem newServer_items {w h : Int} {rng : Nat → Nat} {fuel : Nat} {s0 : GameServer}
    (hgen : newServer w h rng fuel = some s0) :
    s0.diamonds.length = 15 ∧ (∀ d ∈ s0.diamonds, d.active = true) ∧
    s0.player0.score = 0 ∧ s0.player1.score = 0 := by
  unfold newServer GenerateMaze at hgen
  split at hgen
  · exact absurd hgen (by simp)
  · split at hgen
    · exact absurd hgen (by simp)
    · rename_i hsp
      simp only [Option.some.injEq] at hgen
      subst hgen
      obtain ⟨h1, h2⟩ := spawnDiamonds_spec _ _ _ _ _ _ hsp
      refine ⟨by simpa [GameServer.blank] using h1, ?_, rfl, rfl⟩
      exact h2 (by simp [GameServer.blank])

/-! ## Claim C7: item monotonicity and score bound -/

/-- C7: let `s` be the state after any sequence of ticks (`UpdatePhysics` followed by
`CheckCollisions`) from a freshly generated state, and `s2` the state one tick later.  Then
every item keeps its identity and position and an inactive item stays inactive; the two
scores rise by `n0` and `n1` where `n0 + n1` is exactly the number of items deactivated in
the tick (each deactivation gives one point to exactly one player); and the sum of the two
scores is at most the number of items, in `s` and in `s2`. -/
theorem C7_items_and_scores (w h : Int) (rng : Nat → Nat) (fuel : Nat) (s0 : GameServer)
    (hgen : newServer w h rng fuel = some s0) (ticks : List PhysTick) (t : PhysTick) :
    List.Forall₂ StaysInactive (runTicks ticks s0).diamonds
      (gameTick t (runTicks ticks s0)).diamonds ∧
    (∃ n0 n1 : Nat,
      (gameTick t (runTicks ticks s0)).player0.score = (runTicks ticks s0).player0.score + n0 ∧
      (gameTick t (runTicks ticks s0)).player1.score = (runTicks ticks s0).player1.score + n1 ∧
      countActive (gameTick t (runTicks ticks s0)).diamonds + n0 + n1 =
        countActive (runTicks ticks s0).diamonds) ∧
    (runTicks ticks s0).player0.score + (runTicks ticks s0).player1.score ≤
      (runTicks ticks s0).diamonds.length ∧
    (gameTick t (runTicks ticks s0)).player0.score +
      (gameTick t (runTicks ticks s0)).player1.score ≤
      (gameTick t (runTicks ticks s0)).diamonds.length := by
  obtain ⟨hl, hall, hs0, hs1⟩ := newServer_items hgen
  have hinv0 : ScoreInv s0 := by
    unfold ScoreInv
    rw [hs0, hs1, countActive_all hall]
    simp
  have hinv := runTicks_scoreInv ticks s0 hinv0
  have hinv2 := gameTick_scoreInv t _ hinv
  obtain ⟨h1, h2⟩ := gameTick_spec t (runTicks ticks s0)
  refine ⟨h1, h2, ?_, ?_⟩
  · unfold ScoreInv at hinv
    omega
  · unfold ScoreInv at hinv2
    omega

/-- Instance of C7 on the all-zero-draw server, where all 15 diamonds lie on player 0's spawn
cell, after one tick and for the tick that follows. -/
theorem C7_items_and_scores_witness :
    List.Forall₂ StaysInactive (runTicks [sampleTick] zeroDrawServer).diamonds
      (gameTick sampleTick (runTicks [sampleTick] zeroDrawServer)).diamonds ∧
    (∃ n0 n1 : Nat,
      (gameTick sampleTick (runTicks [sampleTick] zeroDrawServer)).player0.score =
        (runTicks [sampleTick] zeroDrawServer).player0.score + n0 ∧
      (gameTick sampleTick (runTicks [sampleTick] zeroDrawServer)).player1.score =
        (runTicks [sampleTick] zeroDrawServer).player1.score + n1 ∧
      countActive (gameTick sampleTick (runTicks [sampleTick] zeroDrawServer)).diamonds + n0 + n1 =
        countActive (runTicks [sampleTick] zeroDrawServer).diamonds) ∧
    (runTicks [sampleTick] zeroDrawServer).player0.score +
      (runTicks [sampleTick] zeroDrawServer).player1.score ≤
      (runTicks [sampleTick] zeroDrawServer).diamonds.length ∧
    (gameTick sampleTick (runTicks [sampleTick] zeroDrawServer)).player0.score +
      (gameTick sampleTick (runTicks [sampleTick] zeroDrawServer)).player1.score ≤
      (gameTick sampleTick (runTicks [sampleTick] zeroDrawServer)).diamonds.length :=
  C7_items_and_scores 21 21 (fun _ => 0) 400 zeroDrawServer zeroDrawServer_eq
    [sampleTick] sampleTick

/-! ## Claim C9: the content of the `GAMEOVER` line -/

theorem winnerOf_spec (a b : Int) :
    (a > b → winnerOf a b = 0) ∧ (b > a → winnerOf a b = 1) ∧ (winnerOf a b = -1 ↔ a = b) := by
  unfold winnerOf
  refine ⟨?_, ?_, ?_⟩
  · intro h
    rw [if_neg (by omega), if_pos h]
  · intro h
    rw [if_neg (by omega), if_neg (by omega)]
  · constructor
    · intro h
      by_contra hne
      rw [if_neg hne] at h
      split at h <;> omega
    · intro h
      rw [if_pos h]

/-- C9: with both clients connected, `CheckCollisions` either sends nothing, or sends to
client 0 and to client 1 the line `GAMEOVER <winner> <score0> <score1>` and stops the match,
where `score0` and `score1` are the players' scores after the pickups of this call and
`winner` is `0` if `score0 > score1`, `1` if `score1 > score0`, and `-1` exactly when the two
scores are equal. -/
theorem C9_gameover_line (s : GameServer)
    (hc0 : s.clientConnected0 = true) (hc1 : s.clientConnected1 = true) :
    (CheckCollisions s).player0 = (collisionPasses s).1.player0 ∧
    (CheckCollisions s).player1 = (collisionPasses s).1.player1 ∧
    ((CheckCollisions s).sent = s.sent ∨
      ∃ winner : Int,
        (CheckCollisions s).sent = s.sent ++
          [(0, "GAMEOVER " ++ toString winner ++ " " ++ toString (CheckCollisions s).player0.score
              ++ " " ++ toString (CheckCollisions s).player1.score ++ "\n"),
           (1, "GAMEOVER " ++ toString winner ++ " " ++ toString (CheckCollisions s).player0.score
              ++ " " ++ toString (CheckCollisions s).player1.score ++ "\n")] ∧
        (CheckCollisions s).gameRunning = false ∧
        ((CheckCollisions s).player0.score > (CheckCollisions s).player1.score → winner = 0) ∧
        ((CheckCollisions s).player1.score > (CheckCollisions s).player0.score → winner = 1) ∧
        (winner = -1 ↔ (CheckCollisions s).player0.score = (CheckCollisions s).player1.score)) := by
  obtain ⟨-, f2, f3⟩ := CheckCollisions_fields s
  refine ⟨f2, f3, ?_⟩
  rw [f2, f3]
  by_cases hover : (collisionPasses s).2 ≤ 0
  · right
    have hconn0 : (collisionPasses s).1.clientConnected0 = true := hc0
    have hconn1 : (collisionPasses s).1.clientConnected1 = true := hc1
    have hsent : (collisionPasses s).1.sent = s.sent := rfl
    refine ⟨winnerOf (collisionPasses s).1.player0.score (collisionPasses s).1.player1.score,
      ?_, ?_, winnerOf_spec _ _⟩
    · unfold CheckCollisions
      simp only [hover, if_true, SendRawToClient, GameServer.isConnected, hconn0, hconn1,
        show ((1 : Int) = 0) = False from by simp, if_false, gameOverLine, hsent,
        List.append_assoc, List.singleton_append]
    · unfold CheckCollisions
      simp only [hover, if_true]
  · left
    unfold CheckCollisions
    simp only [hover, if_false]
    rfl

/-! ## Claim C8: the tick in which the match ends -/

/-- `CheckCollisions` takes its game-over branch exactly when no diamond is left active after
player 0's pass: the counter `activeDiamonds` is incremented again for every diamond that
player 1's pass visits, so a diamond that player 1 picks up still counts once. -/
theorem gameover_iff_none_left_after_player0 (s : GameServer) :
    (collisionPasses s).2 ≤ 0 ↔ countActive (pickupPass s.diamonds s.player0 0).1 = 0 := by
  rw [collisionPasses_counter]
  obtain ⟨-, ⟨n, -, hn⟩, -⟩ :=
    pickupPass_spec (pickupPass s.diamonds s.player0 0).1 s.player1
      (pickupPass s.diamonds s.player0 0).2.2
  have hle : countActive (collisionPasses s).1.diamonds ≤
      countActive (pickupPass s.diamonds s.player0 0).1 := by
    unfold collisionPasses
    simp only
    omega
  omega

set_option maxRecDepth 100000 in
/-- C8 fails on the code: on `farCornerStart` the first tick lets player 1 capture all 15
diamonds, so no item is active once the item-collision pass is complete, yet the match is
still running and no `GAMEOVER` line has been sent; the match ends only in the next tick. -/
theorem C8_last_capture_by_player1_delays_end :
    newServer 21 21 (fun _ => 18) 400 = some farCornerServer ∧
    farCornerStart.gameRunning = true ∧
    countActive farCornerStart.diamonds = 15 ∧
    countActive (gameTick idleTick farCornerStart).diamonds = 0 ∧
    (gameTick idleTick farCornerStart).player1.score = 15 ∧
    (gameTick idleTick farCornerStart).gameRunning = true ∧
    (gameTick idleTick farCornerStart).sent = farCornerStart.sent ∧
    (gameTick idleTick (gameTick idleTick farCornerStart)).gameRunning = false ∧
    (gameTick idleTick (gameTick idleTick farCornerStart)).sent =
      farCornerStart.sent ++ [(0, "GAMEOVER 1 0 15\n"), (1, "GAMEOVER 1 0 15\n")] := by
  decide!

/-! ## Claim C9: instance -/

/-- Instance of C9 on the all-zero-draw server with both clients connected. -/
theorem C9_gameover_line_witness :
    (connectedZeroServer.clientConnected0 = true ∧ connectedZeroServer.clientConnected1 = true) ∧
    ((CheckCollisions connectedZeroServer).player0 =
        (collisionPasses connectedZeroServer).1.player0 ∧
    (CheckCollisions connectedZeroServer).player1 =
        (collisionPasses connectedZeroServer).1.player1 ∧
    ((CheckCollisions connectedZeroServer).sent = connectedZeroServer.sent ∨
      ∃ winner : Int,
        (CheckCollisions connectedZeroServer).sent = connectedZeroServer.sent ++
          [(0, "GAMEOVER " ++ toString winner ++ " " ++
              toString (CheckCollisions connectedZeroServer).player0.score
              ++ " " ++ toString (CheckCollisions connectedZeroServer).player1.score ++ "\n"),
           (1, "GAMEOVER " ++ toString winner ++ " " ++
              toString (CheckCollisions connectedZeroServer).player0.score
              ++ " " ++ toString (CheckCollisions connectedZeroServer).player1.score ++ "\n")] ∧
        (CheckCollisions connectedZeroServer).gameRunning = false ∧
        ((CheckCollisions connectedZeroServer).player0.score >
            (CheckCollisions connectedZeroServer).player1.score → winner = 0) ∧
        ((CheckCollisions connectedZeroServer).player1.score >
            (CheckCollisions connectedZeroServer).player0.score → winner = 1) ∧
        (winner = -1 ↔ (CheckCollisions connectedZeroServer).player0.score =
            (CheckCollisions connectedZeroServer).player1.score))) :=
  ⟨⟨rfl, rfl⟩, C9_gameover_line connectedZeroServer rfl rfl⟩

/-! ## Claim C10: what is sent after `GAMEOVER` -/

theorem sendToBoth_connected {s : GameServer} (hc : BothConnected s) (m : DelayedMessage) :
    sendToBoth m s = { s with sent := s.sent ++ [((0 : Int), m.data), ((1 : Int), m.data)] } := by
  obtain ⟨h0, h1⟩ := hc
  simp [sendToBoth, SendRawToClient, GameServer.isConnected, h0, h1]

/-- The outbound dequeue loop only appends the flushed lines to the log. -/
theorem drainLoop_sendToBoth (now : Int) :
    ∀ (q : List DelayedMessage) (s : GameServer), BothConnected s →
      (drainLoop sendToBoth now q s).2 = { s with sent := s.sent ++ flushedLines now q } := by
  intro q
  induction q with
  | nil => intro s _; simp [drainLoop, flushedLines]
  | cons m rest ih =>
    intro s hc
    by_cases h : now ≥ m.deliveryTime
    · have hc2 : BothConnected
          { s with sent := s.sent ++ [((0 : Int), m.data), ((1 : Int), m.data)] } := hc
      simp only [drainLoop, h, if_true]
      rw [sendToBoth_connected hc, ih _ hc2]
      simp [flushedLines, List.takeWhile_cons, h]
    · simp [drainLoop, flushedLines, List.takeWhile_cons, h]

/-- `BroadcastState` appends the flushed lines to the log and changes nothing else but the
outbound queue. -/
theorem BroadcastState_sent (rt : Runtime) (tEnqueue tDrain : Int) (s : GameServer)
    (hc : BothConnected s) :
    (BroadcastState rt tEnqueue tDrain s).sent = s.sent ++
      flushedLines tDrain (pushDelayed s.outboundQueue (stateLine rt s) 0 tEnqueue) ∧
    (BroadcastState rt tEnqueue tDrain s).gameRunning = s.gameRunning := by
  have hc1 : BothConnected
      { s with outboundQueue := pushDelayed s.outboundQueue (stateLine rt s) 0 tEnqueue } := hc
  have h := drainLoop_sendToBoth tDrain
    (pushDelayed s.outboundQueue (stateLine rt s) 0 tEnqueue) _ hc1
  unfold BroadcastState
  simp only
  rw [h]
  exact ⟨rfl, rfl⟩

theorem readClient_connected (i : Int) (r : Option String) (now : Int) (s : GameServer)
    (hc : BothConnected s) : BothConnected (readClient i r now s) := by
  unfold readClient
  split
  · exact hc
  · split <;> exact hc

theorem applyMessage_connected (rt : Runtime) (m : DelayedMessage) (s : GameServer)
    (hc : BothConnected s) : BothConnected (applyMessage rt m s) := by
  unfold applyMessage
  simp only
  split
  · unfold GameServer.setPlayer
    split <;> exact hc
  · split
    · unfold SendRawToClient
      split <;> split <;> exact hc
    · exact hc

theorem drainLoop_applyMessage_connected (rt : Runtime) (now : Int) :
    ∀ (q : List DelayedMessage) (s : GameServer), BothConnected s →
      BothConnected (drainLoop (applyMessage rt) now q s).2 := by
  intro q
  induction q with
  | nil => intro s hc; exact hc
  | cons m rest ih =>
    intro s hc
    simp only [drainLoop]
    split
    · exact ih _ (applyMessage_connected rt m s hc)
    · exact hc

theorem UpdatePhysics_frame (dt : ℚ) (s : GameServer) :
    (UpdatePhysics dt s).clientConnected0 = s.clientConnected0 ∧
    (UpdatePhysics dt s).clientConnected1 = s.clientConnected1 ∧
    (UpdatePhysics dt s).sent = s.sent ∧
    (UpdatePhysics dt s).gameRunning = s.gameRunning := by
  unfold UpdatePhysics
  obtain ⟨x3, y3, he1, -, -⟩ := movePlayer_one_shape dt (movePlayer dt 0 s)
  obtain ⟨x2, y2, he, -, -⟩ := movePlayer_zero_shape dt s
  rw [he1, he]
  exact ⟨rfl, rfl, rfl, rfl⟩

theorem CheckCollisions_connected (s : GameServer) (hc : BothConnected s) :
    BothConnected (CheckCollisions s) := by
  unfold CheckCollisions SendRawToClient
  simp only
  split
  · split <;> split <;> exact hc
  · exact hc

theorem afterPhysics_connected (rt : Runtime) (inp : TickInput) (s : GameServer)
    (hc : BothConnected s) :
    BothConnected (UpdatePhysics inp.dt
      (ProcessDelayedInputs rt inp.tProcess (ReadNetworkInput inp s))) := by
  have h1 : BothConnected (ReadNetworkInput inp s) :=
    readClient_connected _ _ _ _ (readClient_connected _ _ _ _ hc)
  have h2 : BothConnected (ProcessDelayedInputs rt inp.tProcess (ReadNetworkInput inp s)) :=
    drainLoop_applyMessage_connected rt _ _ _ h1
  obtain ⟨f0, f1, -, -⟩ := UpdatePhysics_frame inp.dt
    (ProcessDelayedInputs rt inp.tProcess (ReadNetworkInput inp s))
  exact ⟨f0.trans h2.1, f1.trans h2.2⟩

theorem afterCollisions_connected (rt : Runtime) (inp : TickInput) (s : GameServer)
    (hc : BothConnected s) : BothConnected (afterCollisions rt inp s) :=
  CheckCollisions_connected _ (afterPhysics_connected rt inp s hc)

theorem startsWith_self_append (k r : String) : startsWith k (k ++ r) = true := by
  unfold startsWith
  rw [List.isPrefixOf_iff_prefix]
  exact ⟨r.toList, by simp [String.toList]⟩

theorem startsWith_append_right {k x : String} (h : startsWith k x = true) (y : String) :
    startsWith k (x ++ y) = true := by
  unfold startsWith at *
  rw [List.isPrefixOf_iff_prefix] at *
  obtain ⟨t, ht⟩ := h
  refine ⟨t ++ y.toList, ?_⟩
  show k.data ++ (t ++ y.data) = (x ++ y).data
  rw [String.data_append, ← List.append_assoc]
  exact congrArg (· ++ y.data) ht

theorem startsWith_gameOverLine (w a b : Int) :
    startsWith "GAMEOVER " (gameOverLine w a b) = true := by
  unfold gameOverLine
  exact startsWith_append_right (startsWith_append_right (startsWith_append_right
    (startsWith_append_right (startsWith_append_right (startsWith_self_append _ _) _) _) _) _) _

/-- In its game-over branch, with both clients connected, `CheckCollisions` appends one
`GAMEOVER` line for client 0 and the same line for client 1 to the log. -/
theorem CheckCollisions_gameover_sent (s : GameServer) (hc : BothConnected s)
    (hover : (collisionPasses s).2 ≤ 0) :
    ∃ line : String, startsWith "GAMEOVER " line = true ∧
      (CheckCollisions s).sent = s.sent ++ [(0, line), (1, line)] := by
  have hconn0 : (collisionPasses s).1.clientConnected0 = true := hc.1
  have hconn1 : (collisionPasses s).1.clientConnected1 = true := hc.2
  have hsent : (collisionPasses s).1.sent = s.sent := rfl
  refine ⟨_, startsWith_gameOverLine
    (winnerOf (collisionPasses s).1.player0.score (collisionPasses s).1.player1.score)
    (collisionPasses s).1.player0.score (collisionPasses s).1.player1.score, ?_⟩
  unfold CheckCollisions
  simp only [hover, if_true, SendRawToClient, GameServer.isConnected, hconn0, hconn1,
    show ((1 : Int) = 0) = False from by simp, if_false, hsent,
    List.append_assoc, List.singleton_append]

set_option maxRecDepth 100000 in
/-- C10 fails on the code: in the run of `lateTicks` on `lateServer` player 0 walks down to
the diamonds and captures all 15 in iteration 31; the log of sent lines then holds the
`GAMEOVER` line for both clients followed by a `STATE` line, queued 200 ms earlier, that the
`BroadcastState` call of the same iteration flushes. -/
theorem C10_state_line_follows_gameover :
    newServer 21 21 lateRng 400 = some lateServer ∧
    noStateAfterGameOver (Run sampleRuntime lateTicks lateServer).sent = false ∧
    (Run sampleRuntime lateTicks lateServer).sent.drop 38 =
      [(0, "GAMEOVER 0 15 0\n"), (1, "GAMEOVER 0 15 0\n"),
       (0, "STATE 7462/125 3/2 99/50 0 39/2 39/2 0 111111111111111\n"),
       (1, "STATE 7462/125 3/2 99/50 0 39/2 39/2 0 111111111111111\n")] := by
  decide!

/-- C10 as amended: if the `CheckCollisions` call of an iteration takes its game-over branch
(with both clients connected it then sends `GAMEOVER` to both), the loop starts no further
iteration, whatever the environment offers next; the match is stopped; and the lines sent
after `GAMEOVER` are exactly the queued messages that the `BroadcastState` call of this same
iteration finds due. -/
theorem C10_no_iteration_after_gameover (rt : Runtime) (inp : TickInput)
    (rest : List TickInput) (s : GameServer)
    (hrun : s.gameRunning = true) (hc : BothConnected s)
    (hover : (collisionPasses (UpdatePhysics inp.dt
      (ProcessDelayedInputs rt inp.tProcess (ReadNetworkInput inp s)))).2 ≤ 0) :
    runLoop rt (inp :: rest) s = loopBody rt inp s ∧
    (loopBody rt inp s).gameRunning = false ∧
    (∃ line : String, startsWith "GAMEOVER " line = true ∧
      (afterCollisions rt inp s).sent =
        (UpdatePhysics inp.dt
          (ProcessDelayedInputs rt inp.tProcess (ReadNetworkInput inp s))).sent ++
          [(0, line), (1, line)]) ∧
    (loopBody rt inp s).sent = (afterCollisions rt inp s).sent ++
      flushedLines inp.tDrain
        (pushDelayed (afterCollisions rt inp s).outboundQueue
          (stateLine rt (beforeBroadcast rt inp s)) 0 inp.tEnqueue) := by
  have hc4 := afterCollisions_connected rt inp s hc
  have hstop : (afterCollisions rt inp s).gameRunning = false := by
    unfold afterCollisions CheckCollisions
    simp only [hover, if_true]
  have hbody : loopBody rt inp s =
      BroadcastState rt inp.tEnqueue inp.tDrain (beforeBroadcast rt inp s) := rfl
  have hc5 : BothConnected (beforeBroadcast rt inp s) := hc4
  obtain ⟨hsent, hkeep⟩ := BroadcastState_sent rt inp.tEnqueue inp.tDrain
    (beforeBroadcast rt inp s) hc5
  have hstop2 : (loopBody rt inp s).gameRunning = false := by
    rw [hbody, hkeep]; exact hstop
  refine ⟨?_, hstop2, ?_, ?_⟩
  · simp only [runLoop, hrun, if_true]
    cases rest with
    | nil => rfl
    | cons i2 r2 => simp only [runLoop, hstop2, Bool.false_eq_true, if_false]
  · exact CheckCollisions_gameover_sent _ (afterPhysics_connected rt inp s hc) hover
  · rw [hbody, hsent]
    rfl

set_option maxRecDepth 100000 in
/-- Instance of the amended C10: on the all-zero-draw server with both clients connected the
first iteration captures all 15 diamonds, and the loop does not run the second iteration. -/
theorem C10_no_iteration_after_gameover_witness :
    (connectedZeroServer.gameRunning = true ∧ BothConnected connectedZeroServer ∧
      (collisionPasses (UpdatePhysics (lateTick 0).dt
        (ProcessDelayedInputs sampleRuntime (lateTick 0).tProcess
          (ReadNetworkInput (lateTick 0) connectedZeroServer)))).2 ≤ 0) ∧
    (runLoop sampleRuntime (lateTick 0 :: [lateTick 1]) connectedZeroServer =
        loopBody sampleRuntime (lateTick 0) connectedZeroServer ∧
    (loopBody sampleRuntime (lateTick 0) connectedZeroServer).gameRunning = false ∧
    (∃ line : String, startsWith "GAMEOVER " line = true ∧
      (afterCollisions sampleRuntime (lateTick 0) connectedZeroServer).sent =
        (UpdatePhysics (lateTick 0).dt
          (ProcessDelayedInputs sampleRuntime (lateTick 0).tProcess
            (ReadNetworkInput (lateTick 0) connectedZeroServer))).sent ++
          [(0, line), (1, line)]) ∧
    (loopBody sampleRuntime (lateTick 0) connectedZeroServer).sent =
      (afterCollisions sampleRuntime (lateTick 0) connectedZeroServer).sent ++
      flushedLines (lateTick 0).tDrain
        (pushDelayed (afterCollisions sampleRuntime (lateTick 0) connectedZeroServer).outboundQueue
          (stateLine sampleRuntime (beforeBroadcast sampleRuntime (lateTick 0) connectedZeroServer))
          0 (lateTick 0).tEnqueue)) :=
  ⟨⟨by decide!, ⟨rfl, rfl⟩, by decide!⟩,
    C10_no_iteration_after_gameover sampleRuntime (lateTick 0) [lateTick 1] connectedZeroServer
      (by decide!) ⟨rfl, rfl⟩ (by decide!)⟩

theorem FillInv.atEntry {w h : Int} (hw : 3 ≤ w) (hh : 3 ≤ h) :
    FillInv w h (setCell (wallGrid w h) 1 1 0) [(1, 1)] := by
  refine ⟨?_, ?_⟩
  · intro x y
    rw [cellAt_startGrid hw hh]
    split
    · exact Or.inl rfl
    · exact Or.inr rfl
  · intro x y hxy _ _ hns
    obtain ⟨rfl, rfl⟩ := startGrid_open hw hh hxy
    exact absurd (List.mem_singleton.mpr rfl) hns

/-- An empty candidate list means that no lattice neighbour inside the border is `Wall`. -/
theorem no_candidate_of_nil {w h : Int} {m : Grid} {cx cy : Int}
    (hnb : neighborsOf w h m cx cy = []) (ux uy : Int)
    (hu : (ux = 0 ∧ (uy = -1 ∨ uy = 1)) ∨ (uy = 0 ∧ (ux = -1 ∨ ux = 1)))
    (h1 : 0 < cx + 2 * ux) (h2 : cx + 2 * ux < w - 1) (h3 : 0 < cy + 2 * uy)
    (h4 : cy + 2 * uy < h - 1) : cellAt m (cx + 2 * ux) (cy + 2 * uy) ≠ 1 := by
  intro hwall
  have hall : ∀ i, i < 4 → isCandidate w h m cx cy i = false := by
    intro i hi
    by_contra hc
    have hmem : i ∈ neighborsOf w h m cx cy := by
      unfold neighborsOf
      rw [List.mem_filter, List.mem_range]
      exact ⟨hi, by simpa using hc⟩
    rw [hnb] at hmem
    exact absurd hmem (List.not_mem_nil _)
  have hcand : ∀ i, i < 4 → dirAt i = (2 * ux, 2 * uy) → False := by
    intro i hi hd
    have := hall i hi
    unfold isCandidate at this
    rw [hd] at this
    simp only [decide_eq_false_iff_not] at this
    exact this ⟨h1, h2, h3, h4, hwall⟩
  rcases hu with ⟨rfl, rfl | rfl⟩ | ⟨rfl, rfl | rfl⟩
  · exact hcand 0 (by omega) (by decide)
  · exact hcand 1 (by omega) (by decide)
  · exact hcand 2 (by omega) (by decide)
  · exact hcand 3 (by omega) (by decide)

/-- One loop iteration keeps the second invariant. -/
theorem carveStep_fill {w h : Int} (r : Nat) {m : Grid} {c : Int × Int} {rest : List (Int × Int)}
    (hi : MazeInv w h m (c :: rest)) (hf : FillInv w h m (c :: rest)) :
    FillInv w h (carveStep w h r m (c :: rest)).1 (carveStep w h r m (c :: rest)).2 := by
  obtain ⟨cx, cy⟩ := c
  rcases carveStep_cases w h r m cx cy rest with ⟨hnb, hstep⟩ | ⟨u, hu, h1, h2, h3, h4, hwall, hstep⟩
  · rw [hstep]
    refine ⟨hf.binary, ?_⟩
    intro x y hxy hx hy hns ux uy hu' b1 b2 b3 b4
    by_cases htop : (x, y) = (cx, cy)
    · obtain ⟨rfl, rfl⟩ := Prod.mk.inj htop
      exact no_candidate_of_nil hnb ux uy hu' b1 b2 b3 b4
    · refine hf.finished x y hxy hx hy ?_ ux uy hu' b1 b2 b3 b4
      intro hmem
      rcases List.mem_cons.mp hmem with heq | hmem
      · exact htop heq
      · exact hns hmem
  · rw [hstep]
    have hp := PushFacts.of_step hi.shape hu ⟨h1, h2⟩ ⟨h3, h4⟩ hwall
    have hkeep : ∀ x y, cellAt m x y ≠ 1 →
        cellAt (setCell (setCell m (cx + u.1) (cy + u.2) 0) (cx + 2 * u.1) (cy + 2 * u.2) 0)
          x y ≠ 1 := by
      intro x y hne
      rw [hp.cell]
      split
      · decide
      · exact hne
    refine ⟨?_, ?_⟩
    · intro x y
      rw [hp.cell]
      split
      · exact Or.inl rfl
      · exact hf.binary x y
    · intro x y hxy hx hy hns ux uy hu' b1 b2 b3 b4
      have hns1 : (x, y) ≠ (cx + 2 * u.1, cy + 2 * u.2) := fun he =>
        hns (he ▸ List.mem_cons_self _ _)
      have hns2 : (x, y) ∉ (cx, cy) :: rest := fun hm => hns (List.mem_cons_of_mem _ hm)
      have hdir := hp.dir
      have hodd := hp.curOdd
      rcases hp.inv x y hxy with hc | hc | hc
      · exact absurd (Prod.ext hc.1 hc.2) hns1
      · omega
      · exact hkeep _ _ (hf.finished x y hc hx hy hns2 ux uy hu' b1 b2 b3 b4)

/-- Whenever the loop finishes, the second invariant holds at exit. -/
theorem carveLoop_fill (w h : Int) (rng : Nat → Nat) :
    ∀ (fuel k : Nat) (m : Grid) (stack : List (Int × Int)) (m2 : Grid) (k2 : Nat),
      MazeInv w h m stack → FillInv w h m stack →
      carveLoop w h rng fuel k m stack = some (m2, k2) → FillInv w h m2 [] := by
  intro fuel
  induction fuel with
  | zero =>
    intro k m stack m2 k2 hi hf hrun
    cases stack with
    | nil =>
      simp only [carveLoop, Option.some.injEq, Prod.mk.injEq] at hrun
      rw [← hrun.1]; exact hf
    | cons c rest => simp [carveLoop] at hrun
  | succ f ih =>
    intro k m stack m2 k2 hi hf hrun
    cases stack with
    | nil =>
      simp only [carveLoop, Option.some.injEq, Prod.mk.injEq] at hrun
      rw [← hrun.1]; exact hf
    | cons c rest =>
      simp only [carveLoop] at hrun
      exact ih (k + 1) _ _ m2 k2 (carveStep_spec (rng k) hi).1 (carveStep_fill (rng k) hi hf) hrun

theorem carveMaze_fill {w h : Int} (hw : 3 ≤ w) (hh : 3 ≤ h) {rng : Nat → Nat} {fuel : Nat}
    {m : Grid} {k : Nat} (hrun : carveMaze w h rng fuel = some (m, k)) : FillInv w h m [] :=
  carveLoop_fill w h rng fuel 0 _ _ m k (MazeInv.atStart hw hh) (FillInv.atEntry hw hh) hrun

/-- In a finished maze every interior lattice cell `(2a+1, 2b+1)` is `Open`. -/
theorem lattice_open_of_inv {w h : Int} {m : Grid} (hi : MazeInv w h m []) (hf : FillInv w h m []) :
    ∀ a b : Nat, (2 * (a : Int) + 1 < w - 1) → (2 * (b : Int) + 1 < h - 1) →
      cellAt m (2 * a + 1) (2 * b + 1) = 0 := by
  have hstep : ∀ x y ux uy : Int, cellAt m x y = 0 → x % 2 = 1 → y % 2 = 1 →
      ((ux = 0 ∧ (uy = -1 ∨ uy = 1)) ∨ (uy = 0 ∧ (ux = -1 ∨ ux = 1))) →
      0 < x + 2 * ux → x + 2 * ux < w - 1 → 0 < y + 2 * uy → y + 2 * uy < h - 1 →
      cellAt m (x + 2 * ux) (y + 2 * uy) = 0 := by
    intro x y ux uy hxy hx hy hu b1 b2 b3 b4
    have hne := hf.finished x y hxy hx hy (List.not_mem_nil _) ux uy hu b1 b2 b3 b4
    rcases hf.binary (x + 2 * ux) (y + 2 * uy) with h0 | h1
    · exact h0
    · exact absurd h1 hne
  have hrow : ∀ a : Nat, (2 * (a : Int) + 1 < w - 1) → cellAt m (2 * a + 1) 1 = 0 := by
    intro a
    induction a with
    | zero => intro _; simpa using hi.shape.start
    | succ n ih =>
      intro hb
      have hprev := ih (by push_cast at hb ⊢; omega)
      have hint := hi.shape.interior _ _ hprev
      have := hstep (2 * n + 1) 1 1 0 hprev (by omega) (by omega) (by omega)
        (by omega) (by push_cast at hb; omega) (by omega) (by omega)
      have e1 : (2 * (n : Int) + 1 + 2 * 1) = 2 * ((n + 1 : Nat) : Int) + 1 := by
        push_cast; ring
      have e2 : (1 : Int) + 2 * 0 = 1 := by ring
      rw [e1, e2] at this
      exact this
  intro a b
  induction b with
  | zero => intro ha _; simpa using hrow a ha
  | succ n ih =>
    intro ha hb
    have hprev := ih ha (by push_cast at hb ⊢; omega)
    have hint := hi.shape.interior _ _ hprev
    have := hstep (2 * a + 1) (2 * n + 1) 0 1 hprev (by omega) (by omega) (by omega)
      (by omega) (by omega) (by omega) (by push_cast at hb; omega)
    have e1 : (2 * (n : Int) + 1 + 2 * 1) = 2 * ((n + 1 : Nat) : Int) + 1 := by
      push_cast; ring
    have e2 : (2 * (a : Int) + 1 + 2 * 0) = 2 * a + 1 := by ring
    rw [e1, e2] at this
    exact this

/-- In a finished maze every interior cell with two odd coordinates is `Open`. -/
theorem lattice_open {w h : Int} {m : Grid} (hi : MazeInv w h m []) (hf : FillInv w h m [])
    (x y : Int) (hx : x % 2 = 1) (hy : y % 2 = 1) (hx0 : 0 < x) (hxw : x < w - 1)
    (hy0 : 0 < y) (hyh : y < h - 1) : cellAt m x y = 0 := by
  have hxe : x = 2 * ((x / 2).toNat : Int) + 1 := by omega
  have hye : y = 2 * ((y / 2).toNat : Int) + 1 := by omega
  have := lattice_open_of_inv hi hf (x / 2).toNat (y / 2).toNat (by omega) (by omega)
  rw [← hxe, ← hye] at this
  exact this

/-! ## Claim C18: the carve visits the whole lattice -/

/-- C18: for every odd width and height of at least 5 and every sequence of random neighbour
choices, the carving loop of `GenerateMaze` finishes, and when it has finished every interior
lattice cell `(x, y)` with `x` and `y` both odd, `0 < x < width - 1`, `0 < y < height - 1`,
is `Open`. -/
theorem C18_whole_lattice_open (w h : Int) (hw : 5 ≤ w) (hh : 5 ≤ h)
    (hwo : w % 2 = 1) (hho : h % 2 = 1) (rng : Nat → Nat) :
    (∃ fuel m k, carveMaze w h rng fuel = some (m, k)) ∧
    ∀ fuel m k, carveMaze w h rng fuel = some (m, k) →
      ∀ x y : Int, x % 2 = 1 → y % 2 = 1 → 0 < x → x < w - 1 → 0 < y → y < h - 1 →
        cellAt m x y = 0 := by
  refine ⟨carveMaze_total (by omega) (by omega) rng, ?_⟩
  intro fuel m k hrun x y hx hy hx0 hxw hy0 hyh
  exact lattice_open (carveMaze_inv (by omega) (by omega) hrun)
    (carveMaze_fill (by omega) (by omega) hrun) x y hx hy hx0 hxw hy0 hyh

/-- Instance of C18 on the 5 by 5 maze with every random draw equal to 0. -/
theorem C18_whole_lattice_open_witness :
    (∃ fuel m k, carveMaze 5 5 (fun _ => 0) fuel = some (m, k)) ∧
    ∀ fuel m k, carveMaze 5 5 (fun _ => 0) fuel = some (m, k) →
      ∀ x y : Int, x % 2 = 1 → y % 2 = 1 → 0 < x → x < 5 - 1 → 0 < y → y < 5 - 1 →
        cellAt m x y = 0 :=
  C18_whole_lattice_open 5 5 (by decide) (by decide) (by decide) (by decide) (fun _ => 0)

theorem latticeWalls_startGrid {w h : Int} (hw : 3 ≤ w) (hh : 3 ≤ h) :
    (latticeWalls w h (setCell (wallGrid w h) 1 1 0)).card + 1 = (latticeCells w h).card := by
  have hmem : (1, 1) ∈ latticeCells w h := by
    simp only [latticeCells, Finset.mem_filter, Finset.mem_product, Finset.mem_Icc]
    refine ⟨⟨⟨by omega, by omega⟩, by omega, by omega⟩, by decide, by decide⟩
  have heq : latticeWalls w h (setCell (wallGrid w h) 1 1 0) = (latticeCells w h).erase (1, 1) := by
    ext c
    obtain ⟨x, y⟩ := c
    simp only [latticeWalls, latticeCells, Finset.mem_filter, Finset.mem_erase,
      cellAt_startGrid hw hh, Prod.mk.injEq, ne_eq]
    constructor
    · rintro ⟨hb, hx, hy, hc⟩
      refine ⟨?_, hb, hx, hy⟩
      intro hxy
      rw [if_pos hxy] at hc
      omega
    · rintro ⟨hne, hb, hx, hy⟩
      exact ⟨hb, hx, hy, by rw [if_neg hne]⟩
  rw [heq, Finset.card_erase_of_mem hmem]
  have := Finset.card_pos.mpr ⟨_, hmem⟩
  omega

/-- The rng cursor, which advances once per iteration, grows by at most the measure. -/
theorem carveLoop_iterations (w h : Int) (rng : Nat → Nat) :
    ∀ (fuel k : Nat) (m : Grid) (stack : List (Int × Int)) (m2 : Grid) (k2 : Nat),
      MazeInv w h m stack → carveLoop w h rng fuel k m stack = some (m2, k2) →
      k2 ≤ k + carveMeasure w h m stack := by
  intro fuel
  induction fuel with
  | zero =>
    intro k m stack m2 k2 hi hrun
    cases stack with
    | nil =>
      simp only [carveLoop, Option.some.injEq, Prod.mk.injEq] at hrun
      omega
    | cons c rest => simp [carveLoop] at hrun
  | succ f ih =>
    intro k m stack m2 k2 hi hrun
    cases stack with
    | nil =>
      simp only [carveLoop, Option.some.injEq, Prod.mk.injEq] at hrun
      omega
    | cons c rest =>
      simp only [carveLoop] at hrun
      obtain ⟨hinv, hlt⟩ := carveStep_spec (rng k) hi
      have := ih (k + 1) _ _ m2 k2 hinv hrun
      omega

/-! ## Claim C15: termination of the carving loop -/

/-- C15: for every width and height of at least 3 and every sequence of random neighbour
choices, the carving loop of `GenerateMaze` terminates: with `L` the number of interior
odd-odd lattice cells, fuel for `2 * L - 1` iterations is enough for the stack to empty, and
every finished run has executed at most `2 * L - 1` iterations (the rng cursor `k` it returns
starts at `0` and advances once per iteration). -/
theorem C15_carve_terminates (w h : Int) (hw : 3 ≤ w) (hh : 3 ≤ h) (rng : Nat → Nat) :
    (∃ m k, carveMaze w h rng (2 * (latticeCells w h).card - 1) = some (m, k)) ∧
    ∀ fuel m k, carveMaze w h rng fuel = some (m, k) → k ≤ 2 * (latticeCells w h).card - 1 := by
  have hcard := latticeWalls_startGrid hw hh
  have hmeasure : carveMeasure w h (setCell (wallGrid w h) 1 1 0) [(1, 1)] =
      2 * (latticeCells w h).card - 1 := by
    simp only [carveMeasure, List.length_singleton]
    omega
  constructor
  · obtain ⟨m2, k2, hrun, -⟩ := carveLoop_total w h rng (2 * (latticeCells w h).card - 1) 0 _ _
      (MazeInv.atStart hw hh) (le_of_eq hmeasure)
    exact ⟨m2, k2, hrun⟩
  · intro fuel m k hrun
    have := carveLoop_iterations w h rng fuel 0 _ _ m k (MazeInv.atStart hw hh) hrun
    omega

/-- Instance of C15 on the 5 by 5 maze with every random draw equal to 0. -/
theorem C15_carve_terminates_witness :
    (∃ m k, carveMaze 5 5 (fun _ => 0) (2 * (latticeCells 5 5).card - 1) = some (m, k)) ∧
    ∀ fuel m k, carveMaze 5 5 (fun _ => 0) fuel = some (m, k) →
      k ≤ 2 * (latticeCells 5 5).card - 1 :=
  C15_carve_terminates 5 5 (by decide) (by decide) (fun _ => 0)

/-! ## Claim C20: the border stays `Wall` -/

theorem stepWrites_interior {w h : Int} (r : Nat) {m : Grid} {c : Int × Int}
    {rest : List (Int × Int)} (hi : CarveInv w h m (c :: rest)) :
    ∀ p ∈ stepWrites w h r m (c :: rest), 0 < p.1 ∧ p.1 < w - 1 ∧ 0 < p.2 ∧ p.2 < h - 1 := by
  obtain ⟨cx, cy⟩ := c
  have hcur := hi.stack (cx, cy) (List.mem_cons_self _ _)
  have hcint := hi.interior cx cy hcur.1
  intro p hp
  by_cases hnb : neighborsOf w h m cx cy = []
  · simp [stepWrites, hnb] at hp
  · have hmem := getD_mod_mem hnb r
    obtain ⟨hlt, hcand⟩ := mem_neighborsOf hmem
    obtain ⟨u, hu, hdir, hdx, hdy⟩ := dirAt_unit hlt
    unfold isCandidate at hcand
    simp only [decide_eq_true_eq] at hcand
    rw [hdir] at hcand
    simp only at hcand
    simp only [stepWrites, ne_eq, hnb, not_false_eq_true, if_true] at hp
    rw [hdx, hdy, hdir] at hp
    have hu' := hu.cases
    simp only [List.mem_cons, List.mem_singleton, List.not_mem_nil, or_false] at hp
    rcases hp with rfl | rfl
    · simp only; omega
    · simp only; omega

theorem loopWrites_interior (w h : Int) (rng : Nat → Nat) :
    ∀ (fuel k : Nat) (m : Grid) (stack : List (Int × Int)), MazeInv w h m stack →
      ∀ p ∈ loopWrites w h rng fuel k m stack, 0 < p.1 ∧ p.1 < w - 1 ∧ 0 < p.2 ∧ p.2 < h - 1 := by
  intro fuel
  induction fuel with
  | zero =>
    intro k m stack _ p hp
    cases stack <;> simp [loopWrites] at hp
  | succ f ih =>
    intro k m stack hi p hp
    cases stack with
    | nil => simp [loopWrites] at hp
    | cons c rest =>
      simp only [loopWrites, List.mem_append] at hp
      rcases hp with hp | hp
      · exact stepWrites_interior (rng k) hi.shape p hp
      · exact ih (k + 1) _ _ (carveStep_spec (rng k) hi).1 p hp

/-- C20: for every width and height of at least 3 and every sequence of random neighbour
choices, the carving loop of `GenerateMaze` finishes; in the grid it leaves, every cell on the
outer border (`x = 0`, `x = width - 1`, `y = 0` or `y = height - 1`) is still `Wall`; and
every cell written during carving, in any number of iterations, lies strictly inside the
border, hence inside the grid. -/
theorem C20_border_stays_wall (w h : Int) (hw : 3 ≤ w) (hh : 3 ≤ h) (rng : Nat → Nat) :
    (∃ fuel m k, carveMaze w h rng fuel = some (m, k)) ∧
    (∀ fuel m k, carveMaze w h rng fuel = some (m, k) →
      GridDims m w h ∧
      ∀ x y : Int, 0 ≤ x → x < w → 0 ≤ y → y < h →
        (x = 0 ∨ x = w - 1 ∨ y = 0 ∨ y = h - 1) → cellAt m x y = 1) ∧
    ∀ fuel, ∀ p ∈ carveWrites w h rng fuel,
      0 < p.1 ∧ p.1 < w - 1 ∧ 0 < p.2 ∧ p.2 < h - 1 := by
  refine ⟨carveMaze_total hw hh rng, ?_, ?_⟩
  · intro fuel m k hrun
    have hi := carveMaze_inv hw hh hrun
    have hf := carveMaze_fill hw hh hrun
    refine ⟨hi.shape.dims, ?_⟩
    intro x y _ _ _ _ hb
    rcases hf.binary x y with h0 | h1
    · have := hi.shape.interior x y h0
      omega
    · exact h1
  · intro fuel p hp
    unfold carveWrites at hp
    rcases List.mem_cons.mp hp with rfl | hp
    · simp only; omega
    · exact loopWrites_interior w h rng fuel 0 _ _ (MazeInv.atStart hw hh) p hp

/-- Instance of C20 on the 3 by 3 maze with every random draw equal to 0. -/
theorem C20_border_stays_wall_witness :
    (∃ fuel m k, carveMaze 3 3 (fun _ => 0) fuel = some (m, k)) ∧
    (∀ fuel m k, carveMaze 3 3 (fun _ => 0) fuel = some (m, k) →
      GridDims m 3 3 ∧
      ∀ x y : Int, 0 ≤ x → x < 3 → 0 ≤ y → y < 3 →
        (x = 0 ∨ x = 3 - 1 ∨ y = 0 ∨ y = 3 - 1) → cellAt m x y = 1) ∧
    ∀ fuel, ∀ p ∈ carveWrites 3 3 (fun _ => 0) fuel,
      0 < p.1 ∧ p.1 < 3 - 1 ∧ 0 < p.2 ∧ p.2 < 3 - 1 :=
  C20_border_stays_wall 3 3 (by decide) (by decide) (fun _ => 0)

/-! ## What `GenerateMaze` produces -/

/-- The item loop appends `n` diamonds, each active and centred in a cell that is not `1`. -/
theorem spawnDiamonds_new {w h : Int} {m : Grid} {rng : Nat → Nat} {fuel : Nat} :
    ∀ (n : Nat) (i : Int) (k : Nat) (acc ds : List Diamond) (k2 : Nat),
      spawnDiamonds w h m rng fuel n i k acc = some (ds, k2) →
      ∃ fresh : List Diamond, ds = acc ++ fresh ∧ fresh.length = n ∧
        ∀ d ∈ fresh, d.active = true ∧
          ∃ c r : Int, cellAt m c r ≠ 1 ∧ d.x = (c : ℚ) + 1 / 2 ∧ d.y = (r : ℚ) + 1 / 2 := by
  intro n
  induction n with
  | zero =>
    intro i k acc ds k2 h
    simp only [spawnDiamonds, Option.some.injEq, Prod.mk.injEq] at h
    exact ⟨[], by simp [h.1], rfl, by simp⟩
  | succ n ih =>
    intro i k acc ds k2 h
    simp only [spawnDiamonds] at h
    split at h
    · exact absurd h (by simp)
    · rename_i c k1 hs
      obtain ⟨fresh, h1, h2, h3⟩ := ih _ _ _ _ _ h
      refine ⟨{ id := i, x := (c.1 : ℚ) + 1 / 2, y := (c.2 : ℚ) + 1 / 2, active := true } :: fresh,
        by rw [h1, List.append_assoc]; rfl, by simp [h2], ?_⟩
      intro d hd
      rcases List.mem_cons.mp hd with rfl | hd
      · exact ⟨rfl, c.1, c.2, sampleOpenCell_some _ _ _ _ hs, rfl, rfl⟩
      · exact h3 d hd

/-- What one call of `GenerateMaze` does to a server with a grid of at least 3 by 3: a
finished maze, 15 new diamonds appended to the ones already there, each active and centred in
an `Open` cell, both players reset to their spawn points, everything else untouched. -/
theorem GenerateMaze_spec {rng : Nat → Nat} {fuel : Nat} {s s2 : GameServer}
    (hw : 3 ≤ s.mazeWidth) (hh : 3 ≤ s.mazeHeight)
    (hgen : GenerateMaze rng fuel s = some s2) :
    s2.mazeWidth = s.mazeWidth ∧ s2.mazeHeight = s.mazeHeight ∧
    MazeInv s.mazeWidth s.mazeHeight s2.maze [] ∧ FillInv s.mazeWidth s.mazeHeight s2.maze [] ∧
    (∃ fresh : List Diamond, s2.diamonds = s.diamonds ++ fresh ∧ fresh.length = 15 ∧
      ∀ d ∈ fresh, AtOpenCentre s2.maze d) ∧
    s2.player0 = { id := 0, x := 3 / 2, y := 3 / 2, vx := 0, vy := 0, score := 0,
                   inputX := 0, inputY := 0 } ∧
    s2.player1 = { id := 1, x := (s.mazeWidth : ℚ) - 3 / 2, y := (s.mazeHeight : ℚ) - 3 / 2,
                   vx := 0, vy := 0, score := 0, inputX := 0, inputY := 0 } ∧
    s2.gameRunning = s.gameRunning ∧ s2.sent = s.sent ∧
    s2.clientConnected0 = s.clientConnected0 ∧ s2.clientConnected1 = s.clientConnected1 := by
  unfold GenerateMaze at hgen
  split at hgen
  · exact absurd hgen (by simp)
  · rename_i m k hcarve
    split at hgen
    · exact absurd hgen (by simp)
    · rename_i ds k2 hsp
      simp only [Option.some.injEq] at hgen
      subst hgen
      have hi := carveMaze_inv hw hh hcarve
      have hf := carveMaze_fill hw hh hcarve
      obtain ⟨fresh, h1, h2, h3⟩ := spawnDiamonds_new _ _ _ _ _ _ hsp
      refine ⟨rfl, rfl, hi, hf, ⟨fresh, h1, h2, ?_⟩, rfl, rfl, rfl, rfl, rfl, rfl⟩
      intro d hd
      obtain ⟨ha, c, r, hne, hx, hy⟩ := h3 d hd
      refine ⟨ha, c, r, ?_, hx, hy⟩
      rcases hf.binary c r with h0 | h1'
      · exact h0
      · exact absurd h1' hne

/-! ## Claim C12: the first generated level -/

theorem latticeCells_card_21 : (latticeCells 21 21).card = 100 := by
  decide

/-- On the 21 by 21 grid the carving part of `GenerateMaze` finishes with fuel for 199
iterations, and then the call returns exactly when its item sampling does. -/
theorem newServer_returns (rng : Nat → Nat) (fuel : Nat) (hfuel : 199 ≤ fuel) :
    ∃ m k, carveMaze 21 21 rng fuel = some (m, k) ∧
      (newServer 21 21 rng fuel).isSome =
        (spawnDiamonds 21 21 m rng fuel 15 0 k []).isSome := by
  have hcard := @latticeWalls_startGrid 21 21 (by decide) (by decide)
  have hmeasure : carveMeasure 21 21 (setCell (wallGrid 21 21) 1 1 0) [(1, 1)] ≤ fuel := by
    simp only [carveMeasure, List.length_singleton]
    rw [latticeCells_card_21] at hcard
    omega
  obtain ⟨m, k, hrun, -⟩ := carveLoop_total 21 21 rng fuel 0 _ _
    (MazeInv.atStart (by decide) (by decide)) hmeasure
  have hcarve : carveMaze 21 21 rng fuel = some (m, k) := hrun
  refine ⟨m, k, hcarve, ?_⟩
  have hnew : newServer 21 21 rng fuel =
      match carveMaze 21 21 rng fuel with
      | none => none
      | some (m, k) =>
        match spawnDiamonds 21 21 m rng fuel 15 0 k [] with
        | none => none
        | some (ds, _) =>
          some { GameServer.blank 21 21 with
            maze := m
            diamonds := ds
            player0 := { id := 0, x := 3 / 2, y := 3 / 2, vx := 0, vy := 0, score := 0,
                         inputX := 0, inputY := 0 }
            player1 := { id := 1, x := ((21 : Int) : ℚ) - 3 / 2, y := ((21 : Int) : ℚ) - 3 / 2,
                         vx := 0, vy := 0, score := 0, inputX := 0, inputY := 0 } } := rfl
  rw [hnew, hcarve]
  simp only
  cases spawnDiamonds 21 21 m rng fuel 15 0 k [] with
  | none => rfl
  | some r => rfl

/-- C12: on the 21 by 21 server, for every sequence of random choices, the carving part of
the first `GenerateMaze` call finishes (fuel for 199 iterations is enough) and the call then
returns exactly when its item sampling finishes; and whenever the call returns, the maze has
an `Open` interior cell, player 0 is at `(1.5, 1.5)` and player 1 at `(19.5, 19.5)`, both
spawn cells `(1,1)` and `(19,19)` are `Open`, and there are exactly 15 items, each active and
located at `(c + 0.5, r + 0.5)` for some `Open` cell `(c, r)`. -/
theorem C12_first_level (rng : Nat → Nat) :
    (∀ fuel, 199 ≤ fuel → ∃ m k, carveMaze 21 21 rng fuel = some (m, k) ∧
      (newServer 21 21 rng fuel).isSome =
        (spawnDiamonds 21 21 m rng fuel 15 0 k []).isSome) ∧
    ∀ fuel s0, newServer 21 21 rng fuel = some s0 →
      (∃ x y : Int, 0 < x ∧ x < 20 ∧ 0 < y ∧ y < 20 ∧ cellAt s0.maze x y = 0) ∧
      (s0.player0.x = 3 / 2 ∧ s0.player0.y = 3 / 2) ∧
      (s0.player1.x = 39 / 2 ∧ s0.player1.y = 39 / 2) ∧
      cellAt s0.maze 1 1 = 0 ∧ cellAt s0.maze 19 19 = 0 ∧
      s0.diamonds.length = 15 ∧ ∀ d ∈ s0.diamonds, AtOpenCentre s0.maze d := by
  refine ⟨fun fuel hfuel => newServer_returns rng fuel hfuel, ?_⟩
  intro fuel s0 hgen
  have hw : (3 : Int) ≤ (GameServer.blank 21 21).mazeWidth := by decide
  have hh : (3 : Int) ≤ (GameServer.blank 21 21).mazeHeight := by decide
  obtain ⟨-, -, hi, hf, ⟨fresh, hd, hlen, hall⟩, hp0, hp1, -⟩ := GenerateMaze_spec hw hh hgen
  have hi' : MazeInv 21 21 s0.maze [] := hi
  have hf' : FillInv 21 21 s0.maze [] := hf
  have h19 := lattice_open hi' hf' 19 19 (by decide) (by decide) (by decide) (by decide)
    (by decide) (by decide)
  have hd' : s0.diamonds = fresh := by rw [hd]; rfl
  refine ⟨⟨1, 1, by decide, by decide, by decide, by decide, hi'.shape.start⟩, ?_, ?_,
    hi'.shape.start, h19, by rw [hd', hlen], by rw [hd']; exact hall⟩
  · rw [hp0]; exact ⟨rfl, rfl⟩
  · rw [hp1]
    simp only [GameServer.blank]
    constructor <;> norm_num

/-- Instance of C12 on the all-zero-draw server. -/
theorem C12_first_level_witness :
    newServer 21 21 (fun _ => 0) 400 = some zeroDrawServer ∧
    (∃ x y : Int, 0 < x ∧ x < 20 ∧ 0 < y ∧ y < 20 ∧ cellAt zeroDrawServer.maze x y = 0) ∧
    (zeroDrawServer.player0.x = 3 / 2 ∧ zeroDrawServer.player0.y = 3 / 2) ∧
    (zeroDrawServer.player1.x = 39 / 2 ∧ zeroDrawServer.player1.y = 39 / 2) ∧
    cellAt zeroDrawServer.maze 1 1 = 0 ∧ cellAt zeroDrawServer.maze 19 19 = 0 ∧
    zeroDrawServer.diamonds.length = 15 ∧
    ∀ d ∈ zeroDrawServer.diamonds, AtOpenCentre zeroDrawServer.maze d :=
  ⟨zeroDrawServer_eq, (C12_first_level (fun _ => 0)).2 400 zeroDrawServer zeroDrawServer_eq⟩

/-! ## Claim C11: the item set after a reset -/

/-- `ResetGame` keeps every diamond it finds and appends 15 new ones. -/
theorem ResetGame_appends {rt : Runtime} {rng : Nat → Nat} {fuel : Nat} {s s2 : GameServer}
    (hw : 3 ≤ s.mazeWidth) (hh : 3 ≤ s.mazeHeight)
    (hreset : ResetGame rt rng fuel s = some s2) :
    ∃ fresh : List Diamond, s2.diamonds = s.diamonds ++ fresh ∧ fresh.length = 15 := by
  unfold ResetGame at hreset
  simp only at hreset
  split at hreset
  · exact absurd hreset (by simp)
  · rename_i s3 hgen
    simp only [Option.some.injEq] at hreset
    obtain ⟨-, -, -, -, ⟨fresh, hd, hlen, -⟩, -⟩ := GenerateMaze_spec hw hh hgen
    refine ⟨fresh, ?_, hlen⟩
    rw [← hreset]
    unfold SendRawToClient
    split <;> split <;> exact hd

/-- Whether the item loop returns does not depend on the diamonds already there. -/
theorem spawnDiamonds_isSome_acc {w h : Int} {m : Grid} {rng : Nat → Nat} {fuel : Nat} :
    ∀ (n : Nat) (i : Int) (k : Nat) (acc acc2 : List Diamond),
      (spawnDiamonds w h m rng fuel n i k acc).isSome =
        (spawnDiamonds w h m rng fuel n i k acc2).isSome := by
  intro n
  induction n with
  | zero => intro i k acc acc2; rfl
  | succ n ih =>
    intro i k acc acc2
    simp only [spawnDiamonds]
    cases sampleOpenCell w h m rng fuel k with
    | none => rfl
    | some r => exact ih _ _ _ _

/-- Whether `GenerateMaze` returns depends only on the dimensions of the grid. -/
theorem GenerateMaze_isSome_congr (rng : Nat → Nat) (fuel : Nat) (s t : GameServer)
    (hw : t.mazeWidth = s.mazeWidth) (hh : t.mazeHeight = s.mazeHeight) :
    (GenerateMaze rng fuel t).isSome = (GenerateMaze rng fuel s).isSome := by
  unfold GenerateMaze
  rw [hw, hh]
  cases carveMaze s.mazeWidth s.mazeHeight rng fuel with
  | none => rfl
  | some r =>
    obtain ⟨m, k⟩ := r
    simp only
    have h := @spawnDiamonds_isSome_acc s.mazeWidth s.mazeHeight m rng fuel 15 0 k
      t.diamonds s.diamonds
    cases ht : spawnDiamonds s.mazeWidth s.mazeHeight m rng fuel 15 0 k t.diamonds with
    | none =>
      rw [ht] at h
      cases hs : spawnDiamonds s.mazeWidth s.mazeHeight m rng fuel 15 0 k s.diamonds with
      | none => rfl
      | some r2 => rw [hs] at h; exact absurd h (by simp)
    | some r1 =>
      rw [ht] at h
      cases hs : spawnDiamonds s.mazeWidth s.mazeHeight m rng fuel 15 0 k s.diamonds with
      | none => rw [hs] at h; exact absurd h (by simp)
      | some r2 => rfl

/-- `ResetGame` returns whenever `GenerateMaze` returns on a grid of the same dimensions. -/
theorem ResetGame_isSome (rt : Runtime) (rng : Nat → Nat) (fuel : Nat) (s t : GameServer)
    (hw : s.mazeWidth = t.mazeWidth) (hh : s.mazeHeight = t.mazeHeight)
    (ht : (GenerateMaze rng fuel t).isSome = true) :
    (ResetGame rt rng fuel s).isSome = true := by
  have h := GenerateMaze_isSome_congr rng fuel t
    { s with player0 := { s.player0 with score := 0 }, player1 := { s.player1 with score := 0 } }
    hw hh
  rw [ht] at h
  unfold ResetGame
  simp only
  cases hg : GenerateMaze rng fuel
    { s with player0 := { s.player0 with score := 0 }, player1 := { s.player1 with score := 0 } } with
  | none => rw [hg] at h; exact absurd h (by simp)
  | some s2 => rfl

/-- What `ResetGame` leaves: every diamond it found, followed by 15 new active ones; both
players at their spawn points with score 0; the match running. -/
theorem ResetGame_spec {rt : Runtime} {rng : Nat → Nat} {fuel : Nat} {s s2 : GameServer}
    (hw : 3 ≤ s.mazeWidth) (hh : 3 ≤ s.mazeHeight)
    (hreset : ResetGame rt rng fuel s = some s2) :
    (∃ fresh : List Diamond, s2.diamonds = s.diamonds ++ fresh ∧ fresh.length = 15 ∧
      ∀ d ∈ fresh, d.active = true) ∧
    s2.player0 = { id := 0, x := 3 / 2, y := 3 / 2, vx := 0, vy := 0, score := 0,
                   inputX := 0, inputY := 0 } ∧
    s2.player1 = { id := 1, x := (s.mazeWidth : ℚ) - 3 / 2, y := (s.mazeHeight : ℚ) - 3 / 2,
                   vx := 0, vy := 0, score := 0, inputX := 0, inputY := 0 } ∧
    s2.gameRunning = true := by
  unfold ResetGame at hreset
  simp only at hreset
  split at hreset
  · exact absurd hreset (by simp)
  · rename_i s3 hgen
    simp only [Option.some.injEq] at hreset
    obtain ⟨-, -, -, -, ⟨fresh, hd, hlen, hall⟩, hp0, hp1, -⟩ := GenerateMaze_spec hw hh hgen
    rw [← hreset]
    refine ⟨⟨fresh, ?_, hlen, fun d hdm => (hall d hdm).1⟩, ?_, ?_, ?_⟩
    · unfold SendRawToClient
      split <;> split <;> exact hd
    · unfold SendRawToClient
      split <;> split <;> exact hp0
    · unfold SendRawToClient
      split <;> split <;> exact hp1
    · unfold SendRawToClient
      split <;> split <;> rfl

theorem countActive_append (a b : List Diamond) :
    countActive (a ++ b) = countActive a + countActive b := by
  unfold countActive
  rw [List.filter_append, List.length_append]

set_option maxRecDepth 100000 in
/-- The played server: a 21 by 21 grid and 15 diamonds, none of them active. -/
theorem playedServer_items :
    playedServer.diamonds.length = 15 ∧ countActive playedServer.diamonds = 0 ∧
    playedServer.mazeWidth = 21 ∧ playedServer.mazeHeight = 21 := by
  decide!

/-- C11 fails on the code: `ResetGame` on `playedServer`, whose 15 diamonds are all inactive,
leaves 30 diamonds, the 15 old ones still first and still inactive, because `GenerateMaze`
does `diamonds.push_back` without ever clearing the vector; scores, spawn points and the
running flag are reset as claimed. -/
theorem C11_reset_keeps_old_items :
    playedServer.diamonds.length = 15 ∧ countActive playedServer.diamonds = 0 ∧
    ∃ s2, ResetGame sampleRuntime (fun _ => 0) 400 playedServer = some s2 ∧
      s2.diamonds.length = 30 ∧ countActive s2.diamonds = 15 ∧
      s2.diamonds.take 15 = playedServer.diamonds ∧
      s2.player0.score = 0 ∧ s2.player1.score = 0 ∧ s2.gameRunning = true ∧
      (s2.player0.x = 3 / 2 ∧ s2.player0.y = 3 / 2) ∧
      (s2.player1.x = 39 / 2 ∧ s2.player1.y = 39 / 2) := by
  obtain ⟨hlen, hact, hw, hh⟩ := playedServer_items
  have hsome : (ResetGame sampleRuntime (fun _ => 0) 400 playedServer).isSome = true := by
    apply ResetGame_isSome sampleRuntime (fun _ => 0) 400 playedServer (GameServer.blank 21 21)
      hw hh
    have h0 : GenerateMaze (fun _ => 0) 400 (GameServer.blank 21 21) = some zeroDrawServer :=
      zeroDrawServer_eq
    rw [h0]
    rfl
  obtain ⟨s2, hs2⟩ := Option.isSome_iff_exists.mp hsome
  obtain ⟨⟨fresh, hd, hfl, hfa⟩, hp0, hp1, hrun⟩ :=
    ResetGame_spec (by rw [hw]; decide) (by rw [hh]; decide) hs2
  refine ⟨hlen, hact, s2, hs2, ?_, ?_, ?_, ?_, ?_, hrun, ?_, ?_⟩
  · rw [hd, List.length_append, hlen, hfl]
  · rw [hd, countActive_append, hact, countActive_all hfa, hfl]
  · rw [hd, ← hlen, List.take_left]
  · rw [hp0]
  · rw [hp1]
  · rw [hp0]
    exact ⟨rfl, rfl⟩
  · rw [hp1, hw, hh]
    constructor <;> norm_num

theorem truncToInt_pos {x : ℚ} (h : 0 < truncToInt x) : 1 ≤ x ∧ truncToInt x = ⌊x⌋ := by
  unfold truncToInt at h ⊢
  by_cases hx : 0 ≤ x
  · rw [if_pos hx] at h ⊢
    refine ⟨?_, rfl⟩
    have h1 : (1 : Int) ≤ ⌊x⌋ := h
    have := Int.floor_le x
    have h2 : ((1 : Int) : ℚ) ≤ (⌊x⌋ : ℚ) := by exact_mod_cast h1
    push_cast at h2
    linarith
  · exfalso
    rw [if_neg hx] at h
    have hneg : 0 ≤ -x := by linarith
    have : 0 ≤ ⌊-x⌋ := Int.floor_nonneg.mpr hneg
    omega

/-- On a finished maze, a point that is not `IsWall` has both coordinates at least 1 and lies
in an `Open` cell. -/
theorem IsWall_false_open {s : GameServer} (hm : MazeReady s) {x y : ℚ}
    (h : IsWall s x y = false) : 1 ≤ x ∧ 1 ≤ y ∧ cellAt s.maze ⌊x⌋ ⌊y⌋ = 0 := by
  unfold IsWall at h
  simp only at h
  split at h
  · exact absurd h (by simp)
  · rw [decide_eq_false_iff_not] at h
    have h0 : cellAt s.maze (truncToInt x) (truncToInt y) = 0 := by
      rcases hm.2.binary (truncToInt x) (truncToInt y) with h0 | h1
      · exact h0
      · exact absurd h1 h
    have hint := hm.1.shape.interior _ _ h0
    obtain ⟨hx1, hxe⟩ := truncToInt_pos hint.1
    obtain ⟨hy1, hye⟩ := truncToInt_pos hint.2.2.1
    rw [hxe, hye] at h0
    exact ⟨hx1, hy1, h0⟩

/-- On a finished maze, a point with non-negative coordinates in an `Open` cell is not
`IsWall`. -/
theorem IsWall_false_of_open {s : GameServer} (hm : MazeReady s) {x y : ℚ}
    (hx : 0 ≤ x) (hy : 0 ≤ y) (h : cellAt s.maze ⌊x⌋ ⌊y⌋ = 0) : IsWall s x y = false := by
  have hint := hm.1.shape.interior _ _ h
  unfold IsWall truncToInt
  simp only [if_pos hx, if_pos hy]
  rw [if_neg (by omega), decide_eq_false_iff_not, h]
  decide

/-- The cell of a point lies between the cells of the two probe points 0.3 to either side,
and equals one of them. -/
theorem floor_probe (c : ℚ) : ⌊c⌋ = ⌊c - 3 / 10⌋ ∨ ⌊c⌋ = ⌊c + 3 / 10⌋ := by
  have a1 := Int.floor_le (c - 3 / 10)
  have a2 := Int.lt_floor_add_one (c - 3 / 10)
  have b1 := Int.floor_le (c + 3 / 10)
  have b2 := Int.lt_floor_add_one (c + 3 / 10)
  have c1 := Int.floor_le c
  have c2 := Int.lt_floor_add_one c
  by_cases hlow : ⌊c⌋ = ⌊c - 3 / 10⌋
  · exact Or.inl hlow
  · right
    have h1 : ⌊c - 3 / 10⌋ ≤ ⌊c⌋ := Int.floor_mono (by linarith)
    have h2 : ⌊c - 3 / 10⌋ + 1 ≤ ⌊c⌋ := by omega
    have h3 : ((⌊c - 3 / 10⌋ + 1 : Int) : ℚ) ≤ (⌊c⌋ : ℚ) := by exact_mod_cast h2
    push_cast at h3
    symm
    rw [Int.floor_eq_iff]
    constructor <;> linarith

/-- Two clear probes 0.3 to the left and right of a point clear the point itself. -/
theorem probe_cover_x {s : GameServer} (hm : MazeReady s) {c y : ℚ}
    (h1 : IsWall s (c - 3 / 10) y = false) (h2 : IsWall s (c + 3 / 10) y = false) :
    IsWall s c y = false := by
  obtain ⟨a1, a2, a3⟩ := IsWall_false_open hm h1
  obtain ⟨-, -, b3⟩ := IsWall_false_open hm h2
  refine IsWall_false_of_open hm (by linarith) (by linarith) ?_
  rcases floor_probe c with he | he
  · rw [he]; exact a3
  · rw [he]; exact b3

/-- Two clear probes 0.3 above and below a point clear the point itself. -/
theorem probe_cover_y {s : GameServer} (hm : MazeReady s) {x c : ℚ}
    (h1 : IsWall s x (c - 3 / 10) = false) (h2 : IsWall s x (c + 3 / 10) = false) :
    IsWall s x c = false := by
  obtain ⟨a1, a2, a3⟩ := IsWall_false_open hm h1
  obtain ⟨-, -, b3⟩ := IsWall_false_open hm h2
  refine IsWall_false_of_open hm (by linarith) (by linarith) ?_
  rcases floor_probe c with he | he
  · rw [he]; exact a3
  · rw [he]; exact b3

theorem halfSize_eq : PLAYER_SIZE / 2 = 3 / 10 := by norm_num [PLAYER_SIZE]

/-- The move of player 0: every committed axis move passed both wall probes. -/
theorem movePlayer_zero_walls (dt : ℚ) (s : GameServer) :
    ∃ x2 y2 : ℚ,
      movePlayer dt 0 s = { s with player0 := { s.player0 with x := x2, y := y2 } } ∧
      (x2 = s.player0.x ∨ (IsWall s (x2 - 3 / 10) s.player0.y = false ∧
        IsWall s (x2 + 3 / 10) s.player0.y = false)) ∧
      (y2 = s.player0.y ∨ (IsWall s x2 (y2 - 3 / 10) = false ∧
        IsWall s x2 (y2 + 3 / 10) = false)) := by
  unfold movePlayer
  simp only [GameServer.getPlayer, GameServer.setPlayer, if_true, halfSize_eq]
  split
  · rename_i hx
    rw [Bool.and_eq_true, Bool.not_eq_true', Bool.not_eq_true', Bool.or_eq_false_iff] at hx
    split
    · rename_i hy
      rw [Bool.and_eq_true, Bool.not_eq_true', Bool.not_eq_true', Bool.or_eq_false_iff] at hy
      exact ⟨_, _, rfl, Or.inr hx.1, Or.inr hy.1⟩
    · exact ⟨_, _, rfl, Or.inr hx.1, Or.inl rfl⟩
  · split
    · rename_i hy
      rw [Bool.and_eq_true, Bool.not_eq_true', Bool.not_eq_true', Bool.or_eq_false_iff] at hy
      exact ⟨_, _, rfl, Or.inl rfl, Or.inr hy.1⟩
    · exact ⟨_, _, rfl, Or.inl rfl, Or.inl rfl⟩

/-- The move of player 1: every committed axis move passed both wall probes. -/
theorem movePlayer_one_walls (dt : ℚ) (s : GameServer) :
    ∃ x2 y2 : ℚ,
      movePlayer dt 1 s = { s with player1 := { s.player1 with x := x2, y := y2 } } ∧
      (x2 = s.player1.x ∨ (IsWall s (x2 - 3 / 10) s.player1.y = false ∧
        IsWall s (x2 + 3 / 10) s.player1.y = false)) ∧
      (y2 = s.player1.y ∨ (IsWall s x2 (y2 - 3 / 10) = false ∧
        IsWall s x2 (y2 + 3 / 10) = false)) := by
  unfold movePlayer
  simp only [GameServer.getPlayer, GameServer.setPlayer,
    show ((1 : Int) = 0) = False from by simp, if_false, halfSize_eq]
  split
  · rename_i hx
    rw [Bool.and_eq_true, Bool.not_eq_true', Bool.not_eq_true', Bool.or_eq_false_iff] at hx
    split
    · rename_i hy
      rw [Bool.and_eq_true, Bool.not_eq_true', Bool.not_eq_true', Bool.or_eq_false_iff] at hy
      exact ⟨_, _, rfl, Or.inr hx.1, Or.inr hy.1⟩
    · exact ⟨_, _, rfl, Or.inr hx.1, Or.inl rfl⟩
  · split
    · rename_i hy
      rw [Bool.and_eq_true, Bool.not_eq_true', Bool.not_eq_true', Bool.or_eq_false_iff] at hy
      exact ⟨_, _, rfl, Or.inl rfl, Or.inr hy.1⟩
    · exact ⟨_, _, rfl, Or.inl rfl, Or.inl rfl⟩

/-- `UpdatePhysics` keeps the maze and keeps both centres out of the walls. -/
theorem UpdatePhysics_centres (dt : ℚ) (s : GameServer) (hm : MazeReady s)
    (hc : CentresOpen s) : MazeReady (UpdatePhysics dt s) ∧ CentresOpen (UpdatePhysics dt s) := by
  unfold UpdatePhysics
  obtain ⟨x2, y2, he, hx, hy⟩ := movePlayer_zero_walls dt s
  have hm1 : MazeReady (movePlayer dt 0 s) := by rw [he]; exact hm
  have hc1 : CentresOpen (movePlayer dt 0 s) := by
    rw [he]
    refine ⟨?_, hc.2⟩
    show IsWall s x2 y2 = false
    have hxo : IsWall s x2 s.player0.y = false := by
      rcases hx with rfl | ⟨p1, p2⟩
      · exact hc.1
      · exact probe_cover_x hm p1 p2
    rcases hy with rfl | ⟨p1, p2⟩
    · exact hxo
    · exact probe_cover_y hm p1 p2
  generalize movePlayer dt 0 s = s1 at hm1 hc1
  obtain ⟨x3, y3, he1, hx1, hy1⟩ := movePlayer_one_walls dt s1
  rw [he1]
  refine ⟨hm1, hc1.1, ?_⟩
  show IsWall s1 x3 y3 = false
  have hxo : IsWall s1 x3 s1.player1.y = false := by
    rcases hx1 with rfl | ⟨p1, p2⟩
    · exact hc1.2
    · exact probe_cover_x hm1 p1 p2
  rcases hy1 with rfl | ⟨p1, p2⟩
  · exact hxo
  · exact probe_cover_y hm1 p1 p2

theorem runPhysics_centres (ticks : List PhysTick) :
    ∀ s : GameServer, MazeReady s → CentresOpen s →
      MazeReady (runPhysics ticks s) ∧ CentresOpen (runPhysics ticks s) := by
  induction ticks with
  | nil => intro s hm hc; exact ⟨hm, hc⟩
  | cons t ts ih =>
    intro s hm hc
    have hm0 : MazeReady (setInputs t s) := hm
    have hc0 : CentresOpen (setInputs t s) := hc
    obtain ⟨hm1, hc1⟩ := UpdatePhysics_centres t.dt _ hm0 hc0
    exact ih _ hm1 hc1

/-! ## Claim C19: the centre of a player never enters a wall -/

/-- C19: on a maze generated with odd width and height of at least 3 (21 by 21 in the
source), starting from the spawn positions, after every sequence of `UpdatePhysics` ticks
with arbitrary `dt` and input vectors (exact arithmetic) the centre `(x, y)` of each player
lies in an `Open` cell: `IsWall(x, y)` is false for both players. -/
theorem C19_centres_stay_open (w h : Int) (hw : 3 ≤ w) (hh : 3 ≤ h)
    (hwo : w % 2 = 1) (hho : h % 2 = 1) (rng : Nat → Nat) (fuel : Nat) (s0 : GameServer)
    (hgen : newServer w h rng fuel = some s0) (ticks : List PhysTick) :
    IsWall (runPhysics ticks s0) (runPhysics ticks s0).player0.x
      (runPhysics ticks s0).player0.y = false ∧
    IsWall (runPhysics ticks s0) (runPhysics ticks s0).player1.x
      (runPhysics ticks s0).player1.y = false := by
  have hw' : (3 : Int) ≤ (GameServer.blank w h).mazeWidth := hw
  have hh' : (3 : Int) ≤ (GameServer.blank w h).mazeHeight := hh
  obtain ⟨e1, e2, hi, hf, -, hp0, hp1, -⟩ := GenerateMaze_spec hw' hh' hgen
  have hi' : MazeInv w h s0.maze [] := hi
  have hf' : FillInv w h s0.maze [] := hf
  have ew : s0.mazeWidth = w := e1
  have eh : s0.mazeHeight = h := e2
  have hm : MazeReady s0 := by
    unfold MazeReady
    rw [ew, eh]
    exact ⟨hi', hf'⟩
  have hfx : ⌊(w : ℚ) - 3 / 2⌋ = w - 2 := by
    rw [Int.floor_eq_iff]
    push_cast
    constructor <;> linarith
  have hfy : ⌊(h : ℚ) - 3 / 2⌋ = h - 2 := by
    rw [Int.floor_eq_iff]
    push_cast
    constructor <;> linarith
  have hf1 : ⌊(3 : ℚ) / 2⌋ = 1 := by
    rw [Int.floor_eq_iff]
    constructor <;> norm_num
  have hwq : (3 : ℚ) ≤ (w : ℚ) := by exact_mod_cast hw
  have hhq : (3 : ℚ) ≤ (h : ℚ) := by exact_mod_cast hh
  have hc : CentresOpen s0 := by
    constructor
    · rw [hp0]
      refine IsWall_false_of_open hm (by norm_num) (by norm_num) ?_
      show cellAt s0.maze ⌊(3 : ℚ) / 2⌋ ⌊(3 : ℚ) / 2⌋ = 0
      rw [hf1]
      exact hi'.shape.start
    · rw [hp1]
      refine IsWall_false_of_open hm ?_ ?_ ?_
      · show (0 : ℚ) ≤ (w : ℚ) - 3 / 2
        linarith
      · show (0 : ℚ) ≤ (h : ℚ) - 3 / 2
        linarith
      · show cellAt s0.maze ⌊(w : ℚ) - 3 / 2⌋ ⌊(h : ℚ) - 3 / 2⌋ = 0
        rw [hfx, hfy]
        exact lattice_open hi' hf' (w - 2) (h - 2) (by omega) (by omega) (by omega) (by omega)
          (by omega) (by omega)
  exact (runPhysics_centres ticks s0 hm hc).2

/-- Instance of C19: the all-zero-draw server and the tick of `sampleTick`. -/
theorem C19_centres_stay_open_witness :
    IsWall (runPhysics [sampleTick] zeroDrawServer)
      (runPhysics [sampleTick] zeroDrawServer).player0.x
      (runPhysics [sampleTick] zeroDrawServer).player0.y = false ∧
    IsWall (runPhysics [sampleTick] zeroDrawServer)
      (runPhysics [sampleTick] zeroDrawServer).player1.x
      (runPhysics [sampleTick] zeroDrawServer).player1.y = false :=
  C19_centres_stay_open 21 21 (by decide) (by decide) (by decide) (by decide) (fun _ => 0) 400
    zeroDrawServer zeroDrawServer_eq [sampleTick]

theorem inPickupRange_score (p : Player) (n : Int) (d : Diamond) :
    inPickupRange { p with score := n } d = inPickupRange p d := rfl

/-- The head of the queue is due and nothing behind it is: the dequeue loop delivers exactly
the head. -/
theorem drainLoop_single {σ : Type} (deliver : DelayedMessage → σ → σ) (now : Int)
    (msg : DelayedMessage) (rest : List DelayedMessage) (s : σ)
    (hdue : now ≥ msg.deliveryTime)
    (hrest : ∀ m, rest.head? = some m → now < m.deliveryTime) :
    drainLoop deliver now (msg :: rest) s = (rest, deliver msg s) := by
  simp only [drainLoop, hdue, if_true]
  cases rest with
  | nil => rfl
  | cons m2 r2 =>
    have := hrest m2 rfl
    simp only [drainLoop]
    rw [if_neg (by omega)]

theorem applyMessage_input (rt : Runtime) (msg : DelayedMessage) (s : GameServer) (x y : ℚ)
    (hline : ReadsAsInput rt msg.data x y) :
    applyMessage rt msg s =
      s.setPlayer msg.playerId { s.getPlayer msg.playerId with inputX := x, inputY := y } := by
  obtain ⟨hw, r1, r2, h1, h2⟩ := hline
  unfold applyMessage
  simp only [hw, if_true, readTwoFloats, h1, h2]

theorem applyMessage_other (rt : Runtime) (msg : DelayedMessage) (s : GameServer)
    (h1 : (readWord msg.data.toList).1 ≠ "INPUT") (h2 : (readWord msg.data.toList).1 ≠ "EXIT") :
    applyMessage rt msg s = s := by
  unfold applyMessage
  simp only [h1, h2, if_false]

theorem getPlayer_setPlayer_same (s : GameServer) (i : Int) (p : Player) :
    (s.setPlayer i p).getPlayer i = p := by
  unfold GameServer.setPlayer GameServer.getPlayer
  split <;> rfl

theorem inputsOf_congr {s t : GameServer} (h0 : t.player0 = s.player0)
    (h1 : t.player1 = s.player1) (i : Int) : inputsOf t i = inputsOf s i := by
  unfold inputsOf GameServer.getPlayer
  rw [h0, h1]

theorem SendRawToClient_players (c : Int) (text : String) (s : GameServer) :
    (SendRawToClient c text s).player0 = s.player0 ∧
    (SendRawToClient c text s).player1 = s.player1 := by
  unfold SendRawToClient
  split <;> exact ⟨rfl, rfl⟩

/-- A message that is not an `INPUT` for slot `i` leaves the input vector of player `i`. -/
theorem applyMessage_quiet (rt : Runtime) (m : DelayedMessage) (s : GameServer) (i : Int)
    (hi : i = 0 ∨ i = 1) (hq : ¬ IsInputFor i m) :
    inputsOf (applyMessage rt m s) i = inputsOf s i := by
  unfold applyMessage
  simp only
  split
  · rename_i hw
    have hslot : slotOf m.playerId ≠ i := fun h => hq ⟨hw, h⟩
    unfold slotOf at hslot
    unfold inputsOf GameServer.setPlayer GameServer.getPlayer
    by_cases hp : m.playerId = 0
    · rw [if_pos hp] at hslot
      have hi1 : i = 1 := by omega
      subst hi1
      simp [hp]
    · rw [if_neg hp] at hslot
      have hi0 : i = 0 := by omega
      subst hi0
      simp [hp]
  · split
    · obtain ⟨a0, a1⟩ := SendRawToClient_players 1 "SHUTDOWN\n" (SendRawToClient 0 "SHUTDOWN\n" s)
      obtain ⟨c0, c1⟩ := SendRawToClient_players 0 "SHUTDOWN\n" s
      exact @inputsOf_congr s
        { SendRawToClient 1 "SHUTDOWN\n" (SendRawToClient 0 "SHUTDOWN\n" s) with
          gameRunning := false } (a0.trans c0) (a1.trans c1) i
    · rfl

theorem foldl_applyMessage_quiet (rt : Runtime) (i : Int) (hi : i = 0 ∨ i = 1) :
    ∀ (l : List DelayedMessage) (s : GameServer), (∀ m ∈ l, ¬ IsInputFor i m) →
      inputsOf (l.foldl (fun s m => applyMessage rt m s) s) i = inputsOf s i := by
  intro l
  induction l with
  | nil => intro s _; rfl
  | cons m l ih =>
    intro s hq
    simp only [List.foldl_cons]
    rw [ih _ (fun m2 hm2 => hq m2 (List.mem_cons_of_mem _ hm2)),
      applyMessage_quiet rt m s i hi (hq m (List.mem_cons_self _ _))]

theorem readClient_players (j : Int) (r : Option String) (now : Int) (s : GameServer) :
    (readClient j r now s).player0 = s.player0 ∧ (readClient j r now s).player1 = s.player1 := by
  unfold readClient
  split
  · exact ⟨rfl, rfl⟩
  · split <;> exact ⟨rfl, rfl⟩

theorem sendToBoth_players (m : DelayedMessage) (s : GameServer) :
    (sendToBoth m s).player0 = s.player0 ∧ (sendToBoth m s).player1 = s.player1 := by
  unfold sendToBoth
  obtain ⟨a0, a1⟩ := SendRawToClient_players 1 m.data (SendRawToClient 0 m.data s)
  obtain ⟨c0, c1⟩ := SendRawToClient_players 0 m.data s
  exact ⟨a0.trans c0, a1.trans c1⟩

theorem drainLoop_sendToBoth_players (now : Int) :
    ∀ (q : List DelayedMessage) (s : GameServer),
      (drainLoop sendToBoth now q s).2.player0 = s.player0 ∧
      (drainLoop sendToBoth now q s).2.player1 = s.player1 := by
  intro q
  induction q with
  | nil => intro s; exact ⟨rfl, rfl⟩
  | cons m rest ih =>
    intro s
    simp only [drainLoop]
    split
    · obtain ⟨a, b⟩ := ih (sendToBoth m s)
      obtain ⟨c, d⟩ := sendToBoth_players m s
      exact ⟨a.trans c, b.trans d⟩
    · exact ⟨rfl, rfl⟩

theorem BroadcastState_players (rt : Runtime) (tEnqueue tDrain : Int) (s : GameServer) :
    (BroadcastState rt tEnqueue tDrain s).player0 = s.player0 ∧
    (BroadcastState rt tEnqueue tDrain s).player1 = s.player1 := by
  unfold BroadcastState
  simp only
  exact drainLoop_sendToBoth_players tDrain _ _

theorem UpdatePhysics_inputs (dt : ℚ) (s : GameServer) (i : Int) :
    inputsOf (UpdatePhysics dt s) i = inputsOf s i := by
  unfold UpdatePhysics
  obtain ⟨x3, y3, he1, -, -⟩ := movePlayer_one_shape dt (movePlayer dt 0 s)
  obtain ⟨x2, y2, he, -, -⟩ := movePlayer_zero_shape dt s
  rw [he1, he]
  unfold inputsOf GameServer.getPlayer
  split <;> rfl

theorem CheckCollisions_inputs (s : GameServer) (i : Int) :
    inputsOf (CheckCollisions s) i = inputsOf s i := by
  obtain ⟨-, f2, f3⟩ := CheckCollisions_fields s
  obtain ⟨-, n0, n1, c2, c3, -⟩ := collisionPasses_spec s
  unfold inputsOf GameServer.getPlayer
  rw [f2, f3, c2, c3]
  split <;> rfl

/-- The part of an iteration after `ProcessDelayedInputs` keeps both input vectors. -/
theorem afterInputs_inputs (rt : Runtime) (inp : TickInput) (s : GameServer) (i : Int) :
    inputsOf (afterInputs rt inp s) i = inputsOf s i := by
  unfold afterInputs
  simp only
  obtain ⟨b0, b1⟩ := BroadcastState_players rt inp.tEnqueue inp.tDrain
    { CheckCollisions (UpdatePhysics inp.dt s) with
      gameTimer := if (CheckCollisions (UpdatePhysics inp.dt s)).gameTimer - inp.dt ≤ 0 then 0
        else (CheckCollisions (UpdatePhysics inp.dt s)).gameTimer - inp.dt }
  rw [inputsOf_congr b0 b1]
  exact (CheckCollisions_inputs _ i).trans (UpdatePhysics_inputs _ _ i)

/-- An iteration in which no `INPUT` for slot `i` is delivered keeps the input vector of
player `i`. -/
theorem loopBody_quiet (rt : Runtime) (inp : TickInput) (s : GameServer) (i : Int)
    (hi : i = 0 ∨ i = 1)
    (hq : ∀ m ∈ (ReadNetworkInput inp s).inboundQueue.takeWhile
      (fun m => decide (inp.tProcess ≥ m.deliveryTime)), ¬ IsInputFor i m) :
    inputsOf (loopBody rt inp s) i = inputsOf s i := by
  have hbody : loopBody rt inp s =
      afterInputs rt inp (ProcessDelayedInputs rt inp.tProcess (ReadNetworkInput inp s)) := rfl
  rw [hbody, afterInputs_inputs]
  have hread : inputsOf (ReadNetworkInput inp s) i = inputsOf s i := by
    unfold ReadNetworkInput
    obtain ⟨a0, a1⟩ := readClient_players 1 inp.recv1 inp.tRecv1
      (readClient 0 inp.recv0 inp.tRecv0 s)
    obtain ⟨c0, c1⟩ := readClient_players 0 inp.recv0 inp.tRecv0 s
    exact inputsOf_congr (a0.trans c0) (a1.trans c1) i
  rw [← hread]
  unfold ProcessDelayedInputs
  simp only
  rw [drainLoop_eq]
  exact foldl_applyMessage_quiet rt i hi _ _ hq

theorem runLoop_quiet (rt : Runtime) (i : Int) (hi : i = 0 ∨ i = 1) :
    ∀ (inputs : List TickInput) (s : GameServer), QuietRun rt i inputs s →
      inputsOf (runLoop rt inputs s) i = inputsOf s i := by
  intro inputs
  induction inputs with
  | nil => intro s _; rfl
  | cons inp rest ih =>
    intro s hq
    simp only [runLoop]
    split
    · rw [ih _ hq.2, loopBody_quiet rt inp s i hi hq.1]
    · rfl

theorem InputFrame.ofSetPlayer (s : GameServer) (i : Int) (x y : ℚ)
    (rest : List DelayedMessage) (hi : i = 0 ∨ i = 1) :
    InputFrame i s { s.setPlayer i { s.getPlayer i with inputX := x, inputY := y } with
      inboundQueue := rest } := by
  rcases hi with h | h <;> subst h <;>
    simp [InputFrame, GameServer.setPlayer, GameServer.getPlayer]

theorem takeWhile_append_of_drop {α : Type} (p : α → Bool) :
    ∀ (a b : List α), a.dropWhile p ≠ [] → (a ++ b).takeWhile p = a.takeWhile p ∧
      (a ++ b).dropWhile p = a.dropWhile p ++ b := by
  intro a
  induction a with
  | nil => intro b h; exact absurd rfl h
  | cons c a ih =>
    intro b h
    by_cases hc : p c = true
    · simp only [List.dropWhile_cons, hc, if_true] at h
      obtain ⟨h1, h2⟩ := ih b h
      constructor
      · simp only [List.cons_append, List.takeWhile_cons, hc, if_true, h1]
      · simp only [List.cons_append, List.dropWhile_cons, hc, if_true, h2]
    · constructor
      · simp only [List.cons_append, List.takeWhile_cons, hc]
        rfl
      · simp only [List.cons_append, List.dropWhile_cons, hc]
        rfl

/-- Text appended behind a word that is already terminated does not change the word. -/
theorem readWord_append (a b : List Char) (h : (readWord a).2 ≠ []) :
    readWord (a ++ b) = ((readWord a).1, (readWord a).2 ++ b) := by
  unfold readWord at h ⊢
  simp only at h ⊢
  have hbody : a.dropWhile isSpaceChar ≠ [] := by
    intro h0
    rw [h0] at h
    exact h rfl
  obtain ⟨-, h2⟩ := takeWhile_append_of_drop isSpaceChar a b hbody
  obtain ⟨h3, h4⟩ := takeWhile_append_of_drop (fun c => !isSpaceChar c)
    (a.dropWhile isSpaceChar) b h
  rw [h2, h3, h4]

theorem applyMessage_append (rt : Runtime) (line more : String) (i t : Int) (s : GameServer)
    (hterm : (readWord line.toList).2 ≠ [])
    (hnum : (readWord line.toList).1 = "INPUT" →
      readTwoFloats rt ((readWord line.toList).2 ++ more.toList) =
        readTwoFloats rt (readWord line.toList).2) :
    applyMessage rt { data := line ++ more, playerId := i, deliveryTime := t } s =
      applyMessage rt { data := line, playerId := i, deliveryTime := t } s := by
  have hl : (line ++ more).toList = line.toList ++ more.toList := String.data_append line more
  unfold applyMessage
  simp only [hl, readWord_append _ _ hterm]
  split
  · rename_i hw
    rw [hnum hw]
  · rfl

theorem SendRawToClient_setQueue (c : Int) (text : String) (s : GameServer)
    (q0 : List DelayedMessage) :
    SendRawToClient c text { s with inboundQueue := q0 } =
      { SendRawToClient c text s with inboundQueue := q0 } := by
  have hc : ({ s with inboundQueue := q0 } : GameServer).isConnected c = s.isConnected c := rfl
  unfold SendRawToClient
  rw [hc]
  split <;> rfl

/-- Decoding a message does not look at the inbound queue. -/
theorem applyMessage_setQueue (rt : Runtime) (m : DelayedMessage) (s : GameServer)
    (q0 q : List DelayedMessage) :
    { applyMessage rt m { s with inboundQueue := q0 } with inboundQueue := q } =
      { applyMessage rt m s with inboundQueue := q } := by
  unfold applyMessage
  simp only
  split
  · unfold GameServer.setPlayer GameServer.getPlayer
    split <;> rfl
  · split
    · have h : SendRawToClient 1 "SHUTDOWN\n"
          (SendRawToClient 0 "SHUTDOWN\n" { s with inboundQueue := q0 }) =
          { SendRawToClient 1 "SHUTDOWN\n" (SendRawToClient 0 "SHUTDOWN\n" s) with
            inboundQueue := q0 } :=
        (congrArg (SendRawToClient 1 "SHUTDOWN\n")
          (SendRawToClient_setQueue 0 "SHUTDOWN\n" s q0)).trans
          (SendRawToClient_setQueue 1 "SHUTDOWN\n" (SendRawToClient 0 "SHUTDOWN\n" s) q0)
      have h2 := congrArg (fun z : GameServer =>
        ({ ({ z with gameRunning := false } : GameServer) with inboundQueue := q } : GameServer)) h
      exact h2
    · rfl

/-! ## Decoding one chunk -/

set_option maxRecDepth 100000 in
/-- The connected all-zero-draw server: both clients connected, nothing queued inbound, the
match running, player 0's input at rest. -/
theorem connectedZeroServer_ready :
    connectedZeroServer.clientConnected0 = true ∧ connectedZeroServer.clientConnected1 = true ∧
    connectedZeroServer.inboundQueue = [] ∧ connectedZeroServer.gameRunning = true ∧
    inputsOf connectedZeroServer 0 = (0, 0) := by
  decide!

/-- A chunk received from a connected client is pushed on the inbound queue as one message. -/
theorem readClient_push (i t : Int) (data : String) (s : GameServer)
    (hc : s.isConnected i = true) :
    readClient i (some data) t s =
      { s with inboundQueue :=
        s.inboundQueue ++ [{ data := data, playerId := i, deliveryTime := t + latency }] } := by
  unfold readClient pushDelayed
  simp only [hc, Bool.not_true, Bool.false_eq_true, if_false]

/-- Two due messages are delivered in queue order. -/
theorem ProcessDelayedInputs_pair (rt : Runtime) (now : Int) (s : GameServer)
    (m1 m2 : DelayedMessage) (hq : s.inboundQueue = [m1, m2])
    (h1 : now ≥ m1.deliveryTime) (h2 : now ≥ m2.deliveryTime) :
    ProcessDelayedInputs rt now s =
      { applyMessage rt m2 (applyMessage rt m1 s) with inboundQueue := [] } := by
  unfold ProcessDelayedInputs
  simp only [hq, drainLoop, h1, h2, if_true]

/-- A connected client's chunk, alone in the queue and due, is decoded as one message. -/
theorem decode_chunk (rt : Runtime) (s : GameServer) (i t now : Int) (data : String)
    (hc : s.isConnected i = true) (hq : s.inboundQueue = []) (hdue : now ≥ t + latency) :
    ProcessDelayedInputs rt now (readClient i (some data) t s) =
      { applyMessage rt { data := data, playerId := i, deliveryTime := t + latency } s with
        inboundQueue := [] } := by
  rw [readClient_push i t data s hc, hq]
  unfold ProcessDelayedInputs
  simp only [List.nil_append]
  rw [drainLoop_single (applyMessage rt) now _ [] _ hdue (fun m h => by simp at h)]
  exact applyMessage_setQueue rt _ s _ []

theorem applyMessage_inputWord (rt : Runtime) (msg : DelayedMessage) (s : GameServer)
    (hw : (readWord msg.data.toList).1 = "INPUT") :
    applyMessage rt msg s =
      s.setPlayer msg.playerId { s.getPlayer msg.playerId with
        inputX := (readTwoFloats rt (readWord msg.data.toList).2).1,
        inputY := (readTwoFloats rt (readWord msg.data.toList).2).2 } := by
  unfold applyMessage
  simp only [hw, if_true]

theorem applyMessage_exit (rt : Runtime) (msg : DelayedMessage) (s : GameServer)
    (hw : (readWord msg.data.toList).1 = "EXIT")
    (h0 : s.clientConnected0 = true) (h1 : s.clientConnected1 = true) :
    applyMessage rt msg s =
      { s with sent := s.sent ++ [((0 : Int), "SHUTDOWN\n"), ((1 : Int), "SHUTDOWN\n")],
               gameRunning := false } := by
  unfold applyMessage
  have hne : ¬ ("EXIT" = "INPUT") := by decide
  simp only
  rw [if_neg (by rw [hw]; exact hne), if_pos hw]
  simp [SendRawToClient, GameServer.isConnected, h0, h1]

/-- Writing a player record leaves the rest of the state. -/
theorem setPlayer_frame (s : GameServer) (i : Int) (p : Player) :
    (s.setPlayer i p).gameRunning = s.gameRunning ∧ (s.setPlayer i p).sent = s.sent ∧
    (s.setPlayer i p).clientConnected0 = s.clientConnected0 ∧
    (s.setPlayer i p).clientConnected1 = s.clientConnected1 ∧
    (s.setPlayer i p).inboundQueue = s.inboundQueue := by
  unfold GameServer.setPlayer
  split <;> exact ⟨rfl, rfl, rfl, rfl, rfl⟩

theorem isConnected_of_both (s : GameServer) (i : Int) (h0 : s.clientConnected0 = true)
    (h1 : s.clientConnected1 = true) : s.isConnected i = true := by
  unfold GameServer.isConnected
  split
  · exact h0
  · exact h1

/-- A due chunk, alone in the queue, whose first word is `INPUT`: the sender's input vector
becomes what the two extractions leave; the running flag and the lines sent stay. -/
theorem decode_input_chunk (rt : Runtime) (s : GameServer) (i t now : Int) (data : String)
    (hc : s.isConnected i = true) (hq : s.inboundQueue = []) (hdue : now ≥ t + latency)
    (hw : (readWord data.toList).1 = "INPUT") :
    inputsOf (ProcessDelayedInputs rt now (readClient i (some data) t s)) i =
      readTwoFloats rt (readWord data.toList).2 ∧
    (ProcessDelayedInputs rt now (readClient i (some data) t s)).gameRunning = s.gameRunning ∧
    (ProcessDelayedInputs rt now (readClient i (some data) t s)).sent = s.sent ∧
    (ProcessDelayedInputs rt now (readClient i (some data) t s)).inboundQueue = [] := by
  have hm : applyMessage rt { data := data, playerId := i, deliveryTime := t + latency } s =
      s.setPlayer i { s.getPlayer i with
        inputX := (readTwoFloats rt (readWord data.toList).2).1,
        inputY := (readTwoFloats rt (readWord data.toList).2).2 } :=
    applyMessage_inputWord rt { data := data, playerId := i, deliveryTime := t + latency } s hw
  rw [decode_chunk rt s i t now data hc hq hdue, hm]
  obtain ⟨f1, f2, -, -, -⟩ := setPlayer_frame s i { s.getPlayer i with
    inputX := (readTwoFloats rt (readWord data.toList).2).1,
    inputY := (readTwoFloats rt (readWord data.toList).2).2 }
  refine ⟨?_, f1, f2, rfl⟩
  have hcg : inputsOf { s.setPlayer i { s.getPlayer i with
        inputX := (readTwoFloats rt (readWord data.toList).2).1,
        inputY := (readTwoFloats rt (readWord data.toList).2).2 } with inboundQueue := [] } i =
      inputsOf (s.setPlayer i { s.getPlayer i with
        inputX := (readTwoFloats rt (readWord data.toList).2).1,
        inputY := (readTwoFloats rt (readWord data.toList).2).2 }) i := inputsOf_congr rfl rfl i
  rw [hcg]
  unfold inputsOf
  rw [getPlayer_setPlayer_same]

/-- Two due chunks of one client, `INPUT ...` and then `EXIT`, delivered as two messages:
the input is set, then the match is stopped and `SHUTDOWN` is sent to both clients. -/
theorem decode_input_then_exit (rt : Runtime) (s : GameServer) (i t1 t2 now : Int)
    (d1 d2 : String) (h0 : s.clientConnected0 = true) (h1 : s.clientConnected1 = true)
    (hq : s.inboundQueue = []) (hdue1 : now ≥ t1 + latency) (hdue2 : now ≥ t2 + latency)
    (hw1 : (readWord d1.toList).1 = "INPUT") (hw2 : (readWord d2.toList).1 = "EXIT") :
    inputsOf (ProcessDelayedInputs rt now
        (readClient i (some d2) t2 (readClient i (some d1) t1 s))) i =
      readTwoFloats rt (readWord d1.toList).2 ∧
    (ProcessDelayedInputs rt now
        (readClient i (some d2) t2 (readClient i (some d1) t1 s))).gameRunning = false ∧
    (ProcessDelayedInputs rt now
        (readClient i (some d2) t2 (readClient i (some d1) t1 s))).sent =
      s.sent ++ [((0 : Int), "SHUTDOWN\n"), ((1 : Int), "SHUTDOWN\n")] ∧
    (ProcessDelayedInputs rt now
        (readClient i (some d2) t2 (readClient i (some d1) t1 s))).inboundQueue = [] := by
  have hc : s.isConnected i = true := isConnected_of_both s i h0 h1
  have hs2 : readClient i (some d2) t2 (readClient i (some d1) t1 s) =
      { s with inboundQueue := [{ data := d1, playerId := i, deliveryTime := t1 + latency },
          { data := d2, playerId := i, deliveryTime := t2 + latency }] } := by
    rw [readClient_push i t1 d1 s hc, hq]
    exact readClient_push i t2 d2 _ hc
  rw [hs2, ProcessDelayedInputs_pair rt now _ _ _ rfl hdue1 hdue2]
  have hm1 : applyMessage rt { data := d1, playerId := i, deliveryTime := t1 + latency }
      { s with inboundQueue := [{ data := d1, playerId := i, deliveryTime := t1 + latency },
          { data := d2, playerId := i, deliveryTime := t2 + latency }] } =
      GameServer.setPlayer
        { s with inboundQueue := [{ data := d1, playerId := i, deliveryTime := t1 + latency },
          { data := d2, playerId := i, deliveryTime := t2 + latency }] } i
        { s.getPlayer i with
          inputX := (readTwoFloats rt (readWord d1.toList).2).1,
          inputY := (readTwoFloats rt (readWord d1.toList).2).2 } :=
    applyMessage_inputWord rt { data := d1, playerId := i, deliveryTime := t1 + latency } _ hw1
  rw [hm1]
  generalize hp : ({ s.getPlayer i with
          inputX := (readTwoFloats rt (readWord d1.toList).2).1,
          inputY := (readTwoFloats rt (readWord d1.toList).2).2 } : Player) = p
  generalize hs1 : ({ s with inboundQueue :=
          [{ data := d1, playerId := i, deliveryTime := t1 + latency },
          { data := d2, playerId := i, deliveryTime := t2 + latency }] } : GameServer) = s1
  have hs1s : s1.sent = s.sent := by rw [← hs1]
  have hs10 : s1.clientConnected0 = true := by rw [← hs1]; exact h0
  have hs11 : s1.clientConnected1 = true := by rw [← hs1]; exact h1
  obtain ⟨-, f2, f3, f4, -⟩ := setPlayer_frame s1 i p
  rw [applyMessage_exit rt { data := d2, playerId := i, deliveryTime := t2 + latency }
    (s1.setPlayer i p) hw2 (f3.trans hs10) (f4.trans hs11)]
  refine ⟨?_, rfl, ?_, rfl⟩
  · have hcg : inputsOf { ({ s1.setPlayer i p with
          sent := (s1.setPlayer i p).sent ++ [((0 : Int), "SHUTDOWN\n"), ((1 : Int), "SHUTDOWN\n")],
          gameRunning := false } : GameServer) with inboundQueue := [] } i =
        inputsOf (s1.setPlayer i p) i := inputsOf_congr rfl rfl i
    rw [hcg]
    unfold inputsOf
    rw [getPlayer_setPlayer_same, ← hp]
  · show (s1.setPlayer i p).sent ++ _ = _
    rw [f2, hs1s]

theorem inputQueued_queue : inputQueued.inboundQueue = [inputMessage] := by
  obtain ⟨h0, h1, hq, -, -⟩ := connectedZeroServer_ready
  unfold inputQueued
  rw [readClient_push 0 0 _ _ (isConnected_of_both _ 0 h0 h1), hq]
  rfl

/-! ## Claim C16: an `INPUT` sets the sender's input vector and nothing else -/

/-- C16: let the head of the inbound queue be a due message tagged with slot `i` that reads
as `INPUT x y`, with nothing else due behind it.  Then `ProcessDelayedInputs` pops it and
sets player `i`'s input vector to exactly `(x, y)`, changing nothing else of the state
(`InputFrame`: the other player's input, both positions and scores, the items, the timer and
the running flag are those of before); the rest of the iteration keeps the input vector; and so does every
later iteration of the loop, as long as no `INPUT` for slot `i` is delivered. -/
theorem C16_input_sets_and_persists (rt : Runtime) (s : GameServer) (msg : DelayedMessage)
    (rest : List DelayedMessage) (now : Int) (x y : ℚ) (i : Int) (hi : i = 0 ∨ i = 1)
    (hq : s.inboundQueue = msg :: rest) (hid : msg.playerId = i)
    (hdue : now ≥ msg.deliveryTime)
    (hrest : ∀ m, rest.head? = some m → now < m.deliveryTime)
    (hline : ReadsAsInput rt msg.data x y) :
    ProcessDelayedInputs rt now s =
      { s.setPlayer i { s.getPlayer i with inputX := x, inputY := y } with
        inboundQueue := rest } ∧
    inputsOf (ProcessDelayedInputs rt now s) i = (x, y) ∧
    InputFrame i s (ProcessDelayedInputs rt now s) ∧
    (∀ inp : TickInput, inputsOf (afterInputs rt inp (ProcessDelayedInputs rt now s)) i = (x, y)) ∧
    ∀ (s1 : GameServer) (inputs : List TickInput), inputsOf s1 i = (x, y) →
      QuietRun rt i inputs s1 → inputsOf (runLoop rt inputs s1) i = (x, y) := by
  have hproc : ProcessDelayedInputs rt now s =
      { s.setPlayer i { s.getPlayer i with inputX := x, inputY := y } with
        inboundQueue := rest } := by
    unfold ProcessDelayedInputs
    simp only
    rw [hq, drainLoop_single (applyMessage rt) now msg rest s hdue hrest,
      applyMessage_input rt msg s x y hline, hid]
  have hin : inputsOf (ProcessDelayedInputs rt now s) i = (x, y) := by
    rw [hproc]
    have hc : inputsOf { s.setPlayer i { s.getPlayer i with inputX := x, inputY := y } with
        inboundQueue := rest } i =
        inputsOf (s.setPlayer i { s.getPlayer i with inputX := x, inputY := y }) i :=
      inputsOf_congr rfl rfl i
    rw [hc]
    unfold inputsOf
    rw [getPlayer_setPlayer_same]
  refine ⟨hproc, hin, ?_, ?_, ?_⟩
  · rw [hproc]
    exact InputFrame.ofSetPlayer s i x y rest hi
  · intro inp
    rw [afterInputs_inputs, hin]
  · intro s1 inputs h1 hquiet
    rw [runLoop_quiet rt i hi inputs s1 hquiet, h1]

set_option maxRecDepth 100000 in
/-- Instance of C16: `INPUT 0 1` from client 0, delivered 300 ms after it was received. -/
theorem C16_input_sets_and_persists_witness :
    (inputQueued.inboundQueue = [inputMessage] ∧ (300000000 : Int) ≥ inputMessage.deliveryTime ∧
      ReadsAsInput sampleRuntime inputMessage.data 0 1) ∧
    (ProcessDelayedInputs sampleRuntime 300000000 inputQueued =
      { inputQueued.setPlayer 0 { inputQueued.getPlayer 0 with inputX := 0, inputY := 1 } with
        inboundQueue := [] } ∧
    inputsOf (ProcessDelayedInputs sampleRuntime 300000000 inputQueued) 0 = (0, 1) ∧
    InputFrame 0 inputQueued (ProcessDelayedInputs sampleRuntime 300000000 inputQueued) ∧
    (∀ inp : TickInput,
      inputsOf (afterInputs sampleRuntime inp
        (ProcessDelayedInputs sampleRuntime 300000000 inputQueued)) 0 = (0, 1)) ∧
    ∀ (s1 : GameServer) (inputs : List TickInput), inputsOf s1 0 = (0, 1) →
      QuietRun sampleRuntime 0 inputs s1 → inputsOf (runLoop sampleRuntime inputs s1) 0 = (0, 1)) :=
  ⟨⟨inputQueued_queue, by decide, by decide!, [' ', '1', '\n'], ['\n'], by decide!, by decide!⟩,
    C16_input_sets_and_persists sampleRuntime inputQueued inputMessage [] 300000000 0 1 0
      (Or.inl rfl) inputQueued_queue rfl (by decide) (fun m h => by simp at h)
      ⟨by decide!, [' ', '1', '\n'], ['\n'], by decide!, by decide!⟩⟩

/-! ## Claim C14: a message that is not a well-formed command -/

set_option maxRecDepth 100000 in
/-- C14, counterexample: the due message `INPUT 1 abc` of client 0 has a non-numeric second
component (the second float extraction fails), yet `ProcessDelayedInputs` does not drop it
without effect: it pops it and overwrites player 0's input vector, which was `(0, 0)`, with
`(1, 0)`. -/
theorem C14_malformed_input_overwrites :
    malformedQueued.inboundQueue =
        [{ data := "INPUT 1 abc\n", playerId := 0, deliveryTime := latency }] ∧
    sampleRuntime.readFloat (readWord "INPUT 1 abc\n".toList).2 = some (1, " abc\n".toList) ∧
    sampleRuntime.readFloat " abc\n".toList = none ∧
    (ProcessDelayedInputs sampleRuntime 300000000 malformedQueued).inboundQueue = [] ∧
    inputsOf malformedQueued 0 = (0, 0) ∧
    inputsOf (ProcessDelayedInputs sampleRuntime 300000000 malformedQueued) 0 = (1, 0) := by
  obtain ⟨h0, h1, hq, -, hin⟩ := connectedZeroServer_ready
  have hc := isConnected_of_both connectedZeroServer 0 h0 h1
  obtain ⟨d1, -, -, d4⟩ := decode_input_chunk sampleRuntime connectedZeroServer 0 0 300000000
    "INPUT 1 abc\n" hc hq (by decide) (by decide)
  obtain ⟨r0, r1⟩ := readClient_players 0 (some "INPUT 1 abc\n") 0 connectedZeroServer
  refine ⟨?_, by decide!, by decide!, d4, (inputsOf_congr r0 r1 0).trans hin, ?_⟩
  · unfold malformedQueued
    rw [readClient_push 0 0 _ _ hc, hq]
    rfl
  · exact d1.trans (by decide!)

/-- C14, amended: let the head of the inbound queue be a due message with nothing else due
behind it.  If its first word is neither `INPUT` nor `EXIT` (an unrecognised command word or
an empty payload), `ProcessDelayedInputs` pops it and changes nothing else of the state.  If
its first word is `INPUT`, whatever follows, `ProcessDelayedInputs` pops it and overwrites
the input vector of the sender's player record, the `x` component being the first number
whenever that one can be read; nothing else of the state changes (the other player, both
positions and scores, the items, the timer and the running flag are those of before). -/
theorem C14_unparsed_message_effect (rt : Runtime) (s : GameServer) (msg : DelayedMessage)
    (rest : List DelayedMessage) (now : Int)
    (hq : s.inboundQueue = msg :: rest) (hdue : now ≥ msg.deliveryTime)
    (hrest : ∀ m, rest.head? = some m → now < m.deliveryTime) :
    ((readWord msg.data.toList).1 ≠ "INPUT" → (readWord msg.data.toList).1 ≠ "EXIT" →
      ProcessDelayedInputs rt now s = { s with inboundQueue := rest }) ∧
    ((readWord msg.data.toList).1 = "INPUT" →
      ∃ a b : ℚ,
        ProcessDelayedInputs rt now s =
          { s.setPlayer msg.playerId { s.getPlayer msg.playerId with inputX := a, inputY := b }
            with inboundQueue := rest } ∧
        ∀ (x : ℚ) (r : List Char), rt.readFloat (readWord msg.data.toList).2 = some (x, r) →
          a = x) := by
  have hproc : ProcessDelayedInputs rt now s =
      { applyMessage rt msg s with inboundQueue := rest } := by
    unfold ProcessDelayedInputs
    simp only
    rw [hq, drainLoop_single (applyMessage rt) now msg rest s hdue hrest]
  refine ⟨fun h1 h2 => ?_, fun hw => ?_⟩
  · rw [hproc, applyMessage_other rt msg s h1 h2]
  · refine ⟨(readTwoFloats rt (readWord msg.data.toList).2).1,
      (readTwoFloats rt (readWord msg.data.toList).2).2, ?_, ?_⟩
    · rw [hproc]
      unfold applyMessage
      simp only [hw, if_true]
    · intro x r hx
      unfold readTwoFloats
      rw [hx]
      simp only
      split <;> rfl

set_option maxRecDepth 100000 in
/-- Instance of C14 (amended) on the unrecognised command `JUMP 3` of client 1. -/
theorem C14_unparsed_message_effect_witness :
    (unknownQueued.inboundQueue =
        [{ data := "JUMP 3\n", playerId := 1, deliveryTime := latency }] ∧
      (300000000 : Int) ≥ latency) ∧
    ProcessDelayedInputs sampleRuntime 300000000 unknownQueued =
      { unknownQueued with inboundQueue := [] } :=
  have hqueue : unknownQueued.inboundQueue =
      [{ data := "JUMP 3\n", playerId := 1, deliveryTime := latency }] := by
    obtain ⟨h0, h1, hq, -, -⟩ := connectedZeroServer_ready
    unfold unknownQueued
    rw [readClient_push 1 0 _ _ (isConnected_of_both _ 1 h0 h1), hq]
    rfl
  ⟨⟨hqueue, by decide⟩,
    (C14_unparsed_message_effect sampleRuntime unknownQueued
      { data := "JUMP 3\n", playerId := 1, deliveryTime := latency } [] 300000000
      hqueue (by decide) (fun m h => by simp at h)).1 (by decide) (by decide)⟩

/-! ## Claim C13: a chunk of several lines -/

set_option maxRecDepth 100000 in
/-- C13, counterexample: the chunk `INPUT 1 0\nEXIT\n` received from client 0 is not
segmented.  After it has been decoded, player 0's input is `(1, 0)` but the match still runs
and no `SHUTDOWN` line was sent; delivering the two lines as two messages stops the match
and sends `SHUTDOWN` to both clients. -/
theorem C13_chunk_not_segmented :
    (readClient 0 (some "INPUT 1 0\nEXIT\n") 0 connectedZeroServer).inboundQueue =
      [{ data := "INPUT 1 0\nEXIT\n", playerId := 0, deliveryTime := latency }] ∧
    inputsOf (afterChunk "INPUT 1 0\nEXIT\n") 0 = (1, 0) ∧
    (afterChunk "INPUT 1 0\nEXIT\n").gameRunning = true ∧
    (afterChunk "INPUT 1 0\nEXIT\n").sent = connectedZeroServer.sent ∧
    (afterChunk "INPUT 1 0\nEXIT\n").inboundQueue = [] ∧
    inputsOf afterTwoLines 0 = (1, 0) ∧
    afterTwoLines.gameRunning = false ∧
    afterTwoLines.sent =
      connectedZeroServer.sent ++ [(0, "SHUTDOWN\n"), (1, "SHUTDOWN\n")] ∧
    afterTwoLines.inboundQueue = [] ∧
    afterChunk "INPUT 1 0\nEXIT\n" ≠ afterTwoLines := by
  obtain ⟨h0, h1, hq, hrun, -⟩ := connectedZeroServer_ready
  have hc := isConnected_of_both connectedZeroServer 0 h0 h1
  obtain ⟨a1, a2, a3, a4⟩ := decode_input_chunk sampleRuntime connectedZeroServer 0 0 300000000
    "INPUT 1 0\nEXIT\n" hc hq (by decide) (by decide)
  obtain ⟨b1, b2, b3, b4⟩ := decode_input_then_exit sampleRuntime connectedZeroServer 0 0
    16000000 300000000 "INPUT 1 0\n" "EXIT\n" h0 h1 hq (by decide) (by decide) (by decide)
    (by decide)
  refine ⟨?_, a1.trans (by decide!), a2.trans hrun, a3, a4, b1.trans (by decide!), b2, b3, b4,
    ?_⟩
  · rw [readClient_push 0 0 _ _ hc, hq]
    rfl
  · intro h
    have hg : (afterChunk "INPUT 1 0\nEXIT\n").gameRunning = afterTwoLines.gameRunning := by
      rw [h]
    rw [show (afterChunk "INPUT 1 0\nEXIT\n").gameRunning = true from a2.trans hrun,
      show afterTwoLines.gameRunning = false from b2] at hg
    exact absurd hg (by decide)

/-- C13, amended: a received chunk is queued as one message and decoded once, by its first
command word; the lines behind the first line of the chunk are dropped.  Let client `i` be
connected, the inbound queue empty, and the chunk `line ++ more` be due, where the command
word of `line` is terminated inside `line` (as in a newline-terminated line) and, for an
`INPUT` line, the two numbers read the same with `more` behind them.  Then the state after
`ProcessDelayedInputs` is the state obtained from the chunk `line` alone. -/
theorem C13_only_first_line_applied (rt : Runtime) (s : GameServer) (i t now : Int)
    (line more : String)
    (hc : s.isConnected i = true) (hq : s.inboundQueue = []) (hdue : now ≥ t + latency)
    (hterm : (readWord line.toList).2 ≠ [])
    (hnum : (readWord line.toList).1 = "INPUT" →
      readTwoFloats rt ((readWord line.toList).2 ++ more.toList) =
        readTwoFloats rt (readWord line.toList).2) :
    (readClient i (some (line ++ more)) t s).inboundQueue =
      [{ data := line ++ more, playerId := i, deliveryTime := t + latency }] ∧
    ProcessDelayedInputs rt now (readClient i (some (line ++ more)) t s) =
      ProcessDelayedInputs rt now (readClient i (some line) t s) := by
  have hc2 := readClient_push i t (line ++ more) s hc
  rw [hq] at hc2
  refine ⟨by rw [hc2]; rfl, ?_⟩
  rw [decode_chunk rt s i t now (line ++ more) hc hq hdue,
    decode_chunk rt s i t now line hc hq hdue,
    applyMessage_append rt line more i (t + latency) s hterm hnum]

set_option maxRecDepth 100000 in
/-- Instance of C13 (amended): of the chunk `INPUT 1 0\nEXIT\n` only `INPUT 1 0` is applied. -/
theorem C13_only_first_line_applied_witness :
    (connectedZeroServer.isConnected 0 = true ∧ connectedZeroServer.inboundQueue = [] ∧
      (300000000 : Int) ≥ 0 + latency ∧ (readWord "INPUT 1 0\n".toList).2 ≠ [] ∧
      readTwoFloats sampleRuntime ((readWord "INPUT 1 0\n".toList).2 ++ "EXIT\n".toList) =
        readTwoFloats sampleRuntime (readWord "INPUT 1 0\n".toList).2) ∧
    ((readClient 0 (some ("INPUT 1 0\n" ++ "EXIT\n")) 0 connectedZeroServer).inboundQueue =
      [{ data := "INPUT 1 0\n" ++ "EXIT\n", playerId := 0, deliveryTime := 0 + latency }] ∧
    ProcessDelayedInputs sampleRuntime 300000000
        (readClient 0 (some ("INPUT 1 0\n" ++ "EXIT\n")) 0 connectedZeroServer) =
      ProcessDelayedInputs sampleRuntime 300000000
        (readClient 0 (some "INPUT 1 0\n") 0 connectedZeroServer)) :=
  have hc : connectedZeroServer.isConnected 0 = true :=
    isConnected_of_both _ 0 connectedZeroServer_ready.1 connectedZeroServer_ready.2.1
  ⟨⟨hc, connectedZeroServer_ready.2.2.1, by decide, by decide!, by decide!⟩,
    C13_only_first_line_applied sampleRuntime connectedZeroServer 0 0 300000000
      "INPUT 1 0\n" "EXIT\n" hc connectedZeroServer_ready.2.2.1 (by decide) (by decide!)
      (fun _ => by decide!)⟩

end MazeRunner
